import Mathlib

/-!
# Signature-chain loader and verifier (`go/libkb/sig_chain.go`)

A shallow embedding of the `SigChain` operations of `sig_chain.go`.

Conventions of the embedding

* A Go pointer that may be `nil` is an `Option`; a Go slice is a `List`.
* A Go function returning `(x, err error)` returns a tuple whose last
  component is `Option KbError` (`none` is `err == nil`).  Every other
  component is the value the Go named result holds at the `return`.
* A method with a pointer receiver that mutates the chain returns the new
  chain as first component.
* `Seqno` is declared outside `sig_chain.go`; it is a Go 64-bit signed
  integer (the code uses `Seqno(-1)` as a sentinel).  Its values are carried
  as `Int`; comparisons are those of `Int`, and the one arithmetic result of
  the file, the `+ 1` of `Bump`, is reduced into the 64-bit range by
  `wrapInt64`.
* The clock (`time.Now()`) is an explicit argument `now`, in nanoseconds.
* Collaborators whose code is not in `sig_chain.go` (the API client, link
  import, per-link checks) are fields of `Env`; those of the key replay (the
  `ComputedKeyFamily` operations, the matching predicates) are fields of
  `KeyEnv`.
* The replay of `verifySubchain` carries a log of the collaborator calls it
  makes (`ReplayCall`); the log is not part of the Go state and only serves
  to state which calls are made, in which order and on which CKI.
* The storage side (reading the tail triple, importing a link by id, the
  writes of a link and of the tail) is made of fields of `StorageEnv`; what
  has been written is the explicit state `LocalDb`.
* The walk of `LoadLinksFromStorage` along the prev pointers need not end; it
  is bounded by a number of iterations, and a run that has not ended within
  the bound is told apart from a return.
* `SigChainLoader.Load` carries a log of the calls it makes (`LoadEvent`),
  which, like the log of the replay, is not part of the Go state.  The
  dereference of a nil pointer is an outcome of its own.
-/

namespace libkb

/-! ## Data model -/

/-- Seqno, whose type declaration is outside `sig_chain.go`: a Go 64-bit
signed integer (the spec's "monotonically increasing non-negative integer";
the code also writes `Seqno(-1)`).  The values are carried as `Int`;
arithmetic on them goes through `wrapInt64`. -/
abbrev Seqno := Int

/-- LinkId is a byte slice that may be `nil` (`curr != nil` in
`LoadLinksFromStorage`, `prev` of the eldest link). -/
abbrev LinkId := Option (List Nat)

/-- SigId as used through `*SigId`: may be `nil`. -/
abbrev SigId := Option (List Nat)

/-- KID is an opaque byte string that may be `nil`. -/
abbrev KID := Option (List Nat)

/-- UID is an opaque byte string. -/
abbrev UID := List Nat

/-- Modelled from the spec: `LinkId.Eq`, whose code is outside `sig_chain.go`;
the spec writes the check as `chainLinks[i-1].id == chainLinks[i].prev`, that
is equality of the two ids. -/
def LinkId.Eq (i1 i2 : LinkId) : Bool := decide (i1 = i2)

/-- FOKID is the pair of an optional PGP fingerprint and a KID. -/
structure FOKID where
  Fp : Option (List Nat)
  Kid : KID
deriving DecidableEq, Repr

/-- MerkleTriple is the triple naming a chain position. -/
structure MerkleTriple where
  Seqno : Seqno
  LinkId : LinkId
  SigId : SigId
deriving DecidableEq, Repr

/-- Modelled from the spec: `MerkleTriple.Less`, whose code is outside
`sig_chain.go`; "`Less` compares seqno only". -/
def MerkleTriple.Less (mt ls : MerkleTriple) : Bool := decide (mt.Seqno < ls.Seqno)

/-- The messages passed to `NewServerChainError` in `sig_chain.go`, one
constructor per format string, carrying the formatted arguments. -/
inductive ServerChainMsg where
  /-- Message "Server claimed not to have this user in its tree (we had v=%d)" -/
  | lostUser (v : Seqno)
  /-- Message "Server version-rollback suspected: Local %d > %d" -/
  | rollback (a b : Seqno)
  /-- Message "Failed to read last link for user" -/
  | failedToReadLastLink
  /-- Message "The server returned the wrong sigchain tail" -/
  | wrongTail
  /-- Message "Failed to reach (%s, %d) in server response" -/
  | failedToReach (id : LinkId) (seqno : Seqno)
deriving DecidableEq, Repr

/-- Errors produced or passed on by `sig_chain.go`. -/
inductive KbError where
  /-- Go `NewServerChainError(...)`. -/
  | ServerChainError (msg : ServerChainMsg)
  /-- Go `fmt.Errorf("Chain mismatch at seqno=%d", ...)`. -/
  | ChainMismatch (seqno : Seqno)
  /-- Go `InternalError`. -/
  | InternalError
  /-- An error returned by a collaborator (API client, link import, per-link
  check), identified by a code. -/
  | External (code : Nat)
deriving DecidableEq, Repr

/-- ComputedKeyInfos: the derived key view.  Its declaration is outside
`sig_chain.go`; the chain operations modelled here only store and compare it,
so it is carried as a record of key entries. -/
structure ComputedKeyInfos where
  entries : List (List Nat × Nat)
deriving DecidableEq, Repr

/-- Delegation role of a typed chain link (`GetRole()`). -/
inductive KeyRole where
  | DLG_NONE
  | DLG_SIBKEY
  | DLG_SUBKEY
deriving DecidableEq, Repr

/-- ChainLink: one statement of the chain.  The struct is declared outside
`sig_chain.go`; the fields are those `sig_chain.go` reads or writes (`id`,
`GetSeqno()`, `GetPrev()`, `GetSigId()`, `chainVerified`, `sigVerified`,
`cki`) together with the attributes the spec lists for a link. -/
structure ChainLink where
  id : LinkId
  seqno : Seqno
  prev : LinkId
  sigId : SigId
  payload : List Nat
  signature : List Nat
  fokid : FOKID
  eldestFokid : FOKID
  role : KeyRole
  hashVerified : Bool
  sigVerified : Bool
  chainVerified : Bool
  cki : Option ComputedKeyInfos
deriving DecidableEq, Repr

/-- A raw entry of the `sigs` array of a server reply (`v.AtIndex(i)`). -/
abbrev JsonWrapper := List Int

/-- The body of an API reply: `res.Body.AtKey("sigs")` read as an array;
`.error` is the failure of `v.Len()`. -/
structure ApiRes where
  sigs : Except KbError (List JsonWrapper)

/-- SigChain of `sig_chain.go` (the `Contextified` handle is left out).
`localChainUpdateTime` is a `time.Time`, here nanoseconds on the time line of
the clock. -/
structure SigChain where
  uid : UID
  username : String
  chainLinks : List ChainLink
  idVerified : Bool
  allKeys : Bool
  localCki : Option ComputedKeyInfos
  localChainTail : Option MerkleTriple
  localChainUpdateTime : Int
deriving DecidableEq, Repr

/-- The collaborators of `sig_chain.go` whose code lies outside it.

* `SERVER_UPDATE_LAG`: the constant of that name (a duration, nanoseconds);
* `API_Get uid low`: `G.API.Get` on endpoint `sig/get` with these arguments;
* `ImportLinkFromServer sc raw`: the function of that name;
* `checkAgainstMerkleTree link t`: the method of that name, returning Go's
  `(found bool, err error)`;
* `VerifyLinkCheck link`: the checks `ChainLink.VerifyLink` makes on a link
  (payload hash against `id`, well-formed signature);
* `CheckNameAndId link username uid`: the method of that name. -/
structure Env where
  SERVER_UPDATE_LAG : Int
  API_Get : UID → Seqno → Except KbError ApiRes
  ImportLinkFromServer : SigChain → JsonWrapper → Except KbError ChainLink
  checkAgainstMerkleTree : ChainLink → MerkleTriple → Bool × Option KbError
  VerifyLinkCheck : ChainLink → Option KbError
  CheckNameAndId : ChainLink → String → UID → Option KbError

/-! ## Link projections -/

/-- Modelled from the spec: `ChainLink.ToMerkleTriple`, whose code is outside
`sig_chain.go`; a pure projection of the link onto
`MerkleTriple {seqno, link-id, sig-id}`. -/
def ChainLink.ToMerkleTriple (c : ChainLink) : MerkleTriple :=
  { Seqno := c.seqno, LinkId := c.id, SigId := c.sigId }

/-- Modelled from the spec: `ChainLink.VerifyLink`, whose code is outside
`sig_chain.go`; it "verifies the hash of the stored payload matches `id` and
that the signature is well-formed", is idempotent and "sets `hash_verified`".
The checks themselves are `Env.VerifyLinkCheck`. -/
def ChainLink.VerifyLink (env : Env) (c : ChainLink) : ChainLink × Option KbError :=
  match env.VerifyLinkCheck c with
  | some e => (c, some e)
  | none => ({ c with hashVerified := true }, none)

/-! ## SigChain accessors -/

/-- Go `last(links)`. -/
def last (links : List ChainLink) : Option ChainLink :=
  if links.length = 0 then none else links[links.length - 1]?

/-- Go `first(links)`. -/
def first (links : List ChainLink) : Option ChainLink :=
  if links.length = 0 then none else links[0]?

/-- Go `SigChain.Len`. -/
def SigChain.Len (sc : SigChain) : Nat := sc.chainLinks.length

/-- Go `SigChain.GetLastLink`. -/
def SigChain.GetLastLink (sc : SigChain) : Option ChainLink := last sc.chainLinks

/-- Go `SigChain.GetFirstLink`. -/
def SigChain.GetFirstLink (sc : SigChain) : Option ChainLink := first sc.chainLinks

/-- Go `SigChain.GetCurrentTailTriple`. -/
def SigChain.GetCurrentTailTriple (sc : SigChain) : Option MerkleTriple :=
  match sc.GetLastLink with
  | some l => some l.ToMerkleTriple
  | none => none

/-- Go `SigChain.GetLastLoadedSeqno`: the zero value `0` for an empty chain. -/
def SigChain.GetLastLoadedSeqno (sc : SigChain) : Seqno :=
  match last sc.chainLinks with
  | some l => l.seqno
  | none => 0

/-- Go `SigChain.GetLastLoadedId`: the zero value `nil` for an empty chain. -/
def SigChain.GetLastLoadedId (sc : SigChain) : LinkId :=
  match last sc.chainLinks with
  | some l => l.id
  | none => none

/-- Go `SigChain.GetFutureChainTail`, with `time.Now()` the argument `now`.
`now.Sub(t)` is the difference of the two instants (Go saturates it at the
ends of `int64`, which does not change the comparison with a lag inside that
range). -/
def SigChain.GetFutureChainTail (env : Env) (now : Int) (sc : SigChain) : Option MerkleTriple :=
  if sc.localChainTail ≠ none ∧ now - sc.localChainUpdateTime < env.SERVER_UPDATE_LAG then
    sc.localChainTail
  else
    none

/-! ## CheckFreshness -/

/-- Go `SigChain.CheckFreshness`: returns `(current, err)`. -/
def SigChain.CheckFreshness (env : Env) (now : Int) (sc : SigChain) (srv : Option MerkleTriple) :
    Bool × Option KbError :=
  let cli := sc.GetCurrentTailTriple
  let future := sc.GetFutureChainTail env now
  let b : Seqno := match srv with
    | some s => s.Seqno
    | none => -1
  let a : Seqno := match cli with
    | some c => c.Seqno
    | none => -1
  let r : Bool × Option KbError :=
    match srv, cli with
    | none, some c => (false, some (KbError.ServerChainError (ServerChainMsg.lostUser c.Seqno)))
    | none, none => (false, none)
    | some s, _ =>
      if b < 0 ∨ a > b then
        (false, some (KbError.ServerChainError (ServerChainMsg.rollback a b)))
      else if b = a then
        match cli with
        | none => (true, some (KbError.ServerChainError ServerChainMsg.failedToReadLastLink))
        | some c =>
          if !(LinkId.Eq c.LinkId s.LinkId) then
            (true, some (KbError.ServerChainError ServerChainMsg.wrongTail))
          else
            (true, none)
      else
        (false, none)
  let beyond : Bool :=
    match future with
    | none => false
    | some f =>
      match cli with
      | none => true
      | some c => decide (c.Seqno < f.Seqno)
  if r.1 && beyond then (false, r.2) else r

/-! ## VerifyChain -/

/-- The loop of `SigChain.VerifyChain`, `for i := len - 1; i >= 0; i--`.  The
first argument is `i + 1` for the index `i` about to be visited (`0` when the
loop is over); the list is the chain with the flags set so far.  Returns the
links and the Go `err`. -/
def VerifyChainLoop (env : Env) (username : String) (uid : UID) :
    Nat → List ChainLink → List ChainLink × Option KbError
  | 0, links => (links, none)
  | i + 1, links =>
    match links[i]? with
    | none => (links, none)
    | some curr =>
      if curr.chainVerified then
        (links, none)
      else
        match curr.VerifyLink env with
        | (curr1, some err) => (links.set i curr1, some err)
        | (curr1, none) =>
          let links1 := links.set i curr1
          let prevOk : Bool :=
            match links1[i - 1]? with
            | some p => LinkId.Eq p.id curr1.prev
            | none => true
          if decide (0 < i) && !prevOk then
            (links1, some (KbError.ChainMismatch curr1.seqno))
          else
            match env.CheckNameAndId curr1 username uid with
            | some err => (links1, some err)
            | none =>
              VerifyChainLoop env username uid i
                (links1.set i { curr1 with chainVerified := true })

/-- Go `SigChain.VerifyChain`: the chain after the call and `err`. -/
def SigChain.VerifyChain (env : Env) (sc : SigChain) : SigChain × Option KbError :=
  let r := VerifyChainLoop env sc.username sc.uid sc.chainLinks.length sc.chainLinks
  ({ sc with chainLinks := r.1 }, r.2)

/-! ## LoadFromServer -/

/-- The loop of `SigChain.LoadFromServer` over the entries of the reply still
to be read, with the loop variables `links`, `tail` and `found_tail`.
`.error e` is a `return` with `err = e` from inside the loop. -/
def LoadFromServerLoop (env : Env) (sc : SigChain) (low : Seqno) (t : Option MerkleTriple) :
    List JsonWrapper → List ChainLink → Option ChainLink → Bool →
      Except KbError (List ChainLink × Option ChainLink × Bool)
  | [], links, tail, found_tail => Except.ok (links, tail, found_tail)
  | raw :: rest, links, tail, found_tail =>
    match env.ImportLinkFromServer sc raw with
    | Except.error e => Except.error e
    | Except.ok link =>
      if link.seqno ≤ low then
        LoadFromServerLoop env sc low t rest links tail found_tail
      else
        match t with
        | none => LoadFromServerLoop env sc low t rest (links ++ [link]) (some link) found_tail
        | some tt =>
          if found_tail then
            LoadFromServerLoop env sc low t rest (links ++ [link]) (some link) found_tail
          else
            match env.checkAgainstMerkleTree link tt with
            | (_, some e) => Except.error e
            | (found, none) =>
              LoadFromServerLoop env sc low t rest (links ++ [link]) (some link) found

/-- The end of `SigChain.LoadFromServer`, after the loop: the Merkle miss
test, the overlay discard and the append. -/
def LoadFromServerFinish (sc : SigChain) (t : Option MerkleTriple)
    (links : List ChainLink) (tail : Option ChainLink) (found_tail : Bool) :
    SigChain × Option MerkleTriple × Option KbError :=
  match t, found_tail with
  | some tt, false =>
    (sc, none, some (KbError.ServerChainError (ServerChainMsg.failedToReach tt.LinkId tt.Seqno)))
  | _, _ =>
    match tail with
    | none => ({ sc with chainLinks := sc.chainLinks ++ links }, none, none)
    | some tl =>
      let dirtyTail := tl.ToMerkleTriple
      let discard : Bool :=
        match sc.localChainTail with
        | some lt => lt.Less dirtyTail
        | none => false
      if discard then
        ({ sc with localChainTail := none, localCki := none,
                   chainLinks := sc.chainLinks ++ links }, some dirtyTail, none)
      else
        ({ sc with chainLinks := sc.chainLinks ++ links }, some dirtyTail, none)

/-- Go `SigChain.LoadFromServer`: the chain after the call, `dirtyTail` and
`err`. -/
def SigChain.LoadFromServer (env : Env) (sc : SigChain) (t : Option MerkleTriple) :
    SigChain × Option MerkleTriple × Option KbError :=
  let low := sc.GetLastLoadedSeqno
  match env.API_Get sc.uid low with
  | Except.error e => (sc, none, some e)
  | Except.ok res =>
    match res.sigs with
    | Except.error e => (sc, none, some e)
    | Except.ok v =>
      match LoadFromServerLoop env sc low t v [] none false with
      | Except.error e => (sc, none, some e)
      | Except.ok (links, tail, found_tail) => LoadFromServerFinish sc t links tail found_tail

/-! ## Concrete chains used as test inputs -/

/-- A link with the given seqno, id byte and prev id, nothing verified. -/
def mkLink (seqno : Int) (id : Nat) (prev : LinkId) : ChainLink :=
  { id := some [id], seqno := seqno, prev := prev, sigId := some [id],
    payload := [id], signature := [], fokid := { Fp := none, Kid := some [1] },
    eldestFokid := { Fp := none, Kid := some [1] }, role := KeyRole.DLG_NONE,
    hashVerified := false, sigVerified := false, chainVerified := false, cki := none }

/-- A chain over the given links with no local overlay. -/
def mkChain (links : List ChainLink) : SigChain :=
  { uid := [7], username := "u", chainLinks := links, idVerified := false,
    allKeys := false, localCki := none, localChainTail := none,
    localChainUpdateTime := 0 }

/-- Decoding of a raw entry `[seqno, id, prev]` (prev `0` for none) used by
`testEnv`; any other shape fails to import. -/
def importTriple (raw : JsonWrapper) : Except KbError ChainLink :=
  match raw with
  | [s, i, p] => Except.ok (mkLink s i.toNat (if p = 0 then none else some [p.toNat]))
  | _ => Except.error (KbError.External 1)

/-- An environment in which the server replies with `sigs`, every per-link
check passes, and a link matches a Merkle triple when seqno and id agree. -/
def testEnv (sigs : List JsonWrapper) : Env :=
  { SERVER_UPDATE_LAG := 1000
    API_Get := fun _ _ => Except.ok { sigs := Except.ok sigs }
    ImportLinkFromServer := fun _ raw => importTriple raw
    checkAgainstMerkleTree := fun l t =>
      (decide (l.seqno = t.Seqno) && LinkId.Eq l.id t.LinkId, none)
    VerifyLinkCheck := fun _ => none
    CheckNameAndId := fun _ _ _ => none }

/-- A chain of five links, seqnos 1 to 5, ids 1 to 5, correctly linked. -/
def chain5 : SigChain :=
  mkChain [mkLink 1 1 none, mkLink 2 2 (some [1]), mkLink 3 3 (some [2]),
    mkLink 4 4 (some [3]), mkLink 5 5 (some [4])]

/-- A chain of three links in which the middle link does not point at the
first one (its prev is `[9]`, the first id is `[1]`), while the last link
points at the middle one. -/
def brokenChain3 : SigChain :=
  mkChain [mkLink 1 1 none, mkLink 2 2 (some [9]), mkLink 3 3 (some [2])]

/-- A chain of two links, seqnos 1 and 2, correctly linked. -/
def chain2 : SigChain :=
  mkChain [mkLink 1 1 none, mkLink 2 2 (some [1])]

/-- The two-link chain with a local overlay: a local tail of seqno 3 and a
local CKI. -/
def overlayChain2 : SigChain :=
  { chain2 with
    localChainTail := some { Seqno := 3, LinkId := some [33], SigId := none }
    localCki := some { entries := [] } }

/-- A server reply with the links of seqno 3, 4 and 5, each pointing at the
link before it. -/
def reply345 : List JsonWrapper := [[3, 3, 2], [4, 4, 3], [5, 5, 4]]

/-- A server reply that repeats the link of seqno 2 before those of seqno 3
and 4. -/
def reply234 : List JsonWrapper := [[2, 2, 1], [3, 3, 2], [4, 4, 3]]

/-- A server reply with a link of seqno 1 followed by a link of seqno 3 that
points at it. -/
def reply13 : List JsonWrapper := [[1, 1, 0], [3, 3, 1]]

/-! ## Local overlay: getters and `Bump` -/

/-- Go `SigChain.GetComputedKeyInfos`. -/
def SigChain.GetComputedKeyInfos (sc : SigChain) : Option ComputedKeyInfos :=
  match sc.localCki with
  | some cki => some cki
  | none =>
    match sc.GetLastLink with
    | some l => l.cki
    | none => none

/-- Go `SigChain.GetLastKnownId`. -/
def SigChain.GetLastKnownId (sc : SigChain) : LinkId :=
  match sc.localChainTail with
  | some t => t.LinkId
  | none => sc.GetLastLoadedId

/-- Go `SigChain.GetLastKnownSeqno`. -/
def SigChain.GetLastKnownSeqno (sc : SigChain) : Seqno :=
  match sc.localChainTail with
  | some t => t.Seqno
  | none => sc.GetLastLoadedSeqno

/-- The value a Go `int64` holds for the arithmetic result `x`: `x` reduced
into the range from `-2^63` to `2^63 - 1` (two's complement wrap-around). -/
def wrapInt64 (x : Int) : Int :=
  (x + 9223372036854775808) % 18446744073709551616 - 9223372036854775808

/-- Go `SigChain.Bump`, with `time.Now()` the argument `now`.  The sum
`sc.GetLastKnownSeqno() + 1` is a sum of Go 64-bit integers. -/
def SigChain.Bump (sc : SigChain) (mt : MerkleTriple) (now : Int) : SigChain :=
  { sc with
    localChainTail := some { mt with Seqno := wrapInt64 (sc.GetLastKnownSeqno + 1) }
    localChainUpdateTime := now }

/-! ## Key material and the collaborators of the replay -/

/-- PgpFingerprint is an opaque byte string. -/
abbrev PgpFingerprint := List Nat

/-- GenericKey is an interface value that may be `nil`. -/
abbrev GenericKey := Option (List Nat)

/-- KeyFamily: the static key directory of a user.  Its declaration is outside
`sig_chain.go`, which only passes it on and reads it through `KIDToFOKID` and
`AllKeys`; it is carried as a record of key entries. -/
structure KeyFamily where
  AllKeys : List (List Nat × List Nat)
deriving DecidableEq, Repr

/-- ComputedKeyFamily is `struct { kf *KeyFamily; cki *ComputedKeyInfos }`. -/
structure ComputedKeyFamily where
  kf : Option KeyFamily
  cki : Option ComputedKeyInfos
deriving DecidableEq, Repr

/-- The collaborators of the key replay whose code lies outside
`sig_chain.go`.  An operation of `ComputedKeyFamily` that writes the CKI
returns the CKI it leaves together with Go's `err`.

* `FOKID_Eq f g`: `f.Eq(g)`;
* `MatchEldestFOKID link f`, `MatchFingerprint link fp`: the link predicates
  of those names;
* `KIDToFOKID kf kid`: the `KeyFamily` method of that name;
* `eldestKey kf kid`: the expression `kf.AllKeys[kid.ToMapKey()].key`;
* `InsertEldestLink kf cki link username`, `Delegate kf cki link`,
  `Revoke kf cki link`, `UpdateDevices kf cki link`: the methods of
  `ComputedKeyFamily` of those names, on the typed view of `link`;
* `VerifySigWithKeyFamily link kf cki`: the link method of that name,
  returning Go's `(cached bool, err error)`;
* `VerifyReverseSig link kf`: the method of that name of the typed link;
* `InsertServerEldestKey cki key username`: the method of that name (its
  result is not read by `sig_chain.go`). -/
structure KeyEnv where
  FOKID_Eq : FOKID → FOKID → Bool
  MatchEldestFOKID : ChainLink → FOKID → Bool
  MatchFingerprint : ChainLink → PgpFingerprint → Bool
  KIDToFOKID : KeyFamily → KID → FOKID
  eldestKey : KeyFamily → KID → GenericKey
  InsertEldestLink : KeyFamily → ComputedKeyInfos → ChainLink → String →
    ComputedKeyInfos × Option KbError
  VerifySigWithKeyFamily : ChainLink → KeyFamily → ComputedKeyInfos → Bool × Option KbError
  Delegate : KeyFamily → ComputedKeyInfos → ChainLink → ComputedKeyInfos × Option KbError
  VerifyReverseSig : ChainLink → KeyFamily → Option KbError
  Revoke : KeyFamily → ComputedKeyInfos → ChainLink → ComputedKeyInfos × Option KbError
  UpdateDevices : KeyFamily → ComputedKeyInfos → ChainLink → ComputedKeyInfos × Option KbError
  InsertServerEldestKey : ComputedKeyInfos → GenericKey → String → ComputedKeyInfos

/-- Modelled from the spec: `NewComputedKeyInfos`, whose code is outside
`sig_chain.go`; "a fresh CKI", the record with no entry. -/
def NewComputedKeyInfos : ComputedKeyInfos := { entries := [] }

/-- Modelled from the spec: `ChainLink.ToFOKID`, whose code is outside
`sig_chain.go`; a pure projection of the link. -/
def ChainLink.ToFOKID (c : ChainLink) : FOKID := c.fokid

/-- Modelled from the spec: `GetRole()` of the typed view of a link
(`NewTypedChainLink(link)`), whose code is outside `sig_chain.go`; it "returns
`DLG_SIBKEY`, `DLG_SUBKEY`, or `DLG_NONE`", the role tag of the link. -/
def ChainLink.GetRole (c : ChainLink) : KeyRole := c.role

/-- Modelled from the spec: `ChainLink.GetSigCheckCache`, whose code is
outside `sig_chain.go`; the CKI memoized on the link ("if the final link has a
cached CKI, return it"). -/
def ChainLink.GetSigCheckCache (c : ChainLink) : Option ComputedKeyInfos := c.cki

/-- Modelled from the spec: `ChainLink.PutSigCheckCache`, whose code is outside
`sig_chain.go`; "cache the resulting CKI on the final link". -/
def ChainLink.PutSigCheckCache (c : ChainLink) (cki : ComputedKeyInfos) : ChainLink :=
  { c with cki := some cki }

/-! ## VerifiedChainLinks and LimitToEldestFOKID -/

/-- The loop of `SigChain.VerifiedChainLinks`,
`for i := len - 1; i >= 0 && chainLinks[i].MatchFingerprint(fp); i--`.  The
first argument is `i + 1` for the index `i` about to be tested; the second is
`start`. -/
def VerifiedChainLinksLoop (kenv : KeyEnv) (fp : PgpFingerprint) (links : List ChainLink) :
    Nat → Int → Int
  | 0, start => start
  | i + 1, start =>
    match links[i]? with
    | none => start
    | some c =>
      if kenv.MatchFingerprint c fp then
        VerifiedChainLinksLoop kenv fp links i (i : Int)
      else
        start

/-- Go `SigChain.VerifiedChainLinks`. -/
def SigChain.VerifiedChainLinks (kenv : KeyEnv) (sc : SigChain) (fp : PgpFingerprint) :
    List ChainLink :=
  match sc.GetLastLink with
  | none => []
  | some lst =>
    if !lst.sigVerified then
      []
    else
      let start := VerifiedChainLinksLoop kenv fp sc.chainLinks sc.chainLinks.length (-1)
      if start ≥ 0 then sc.chainLinks.drop start.toNat else []

/-- The loop of `SigChain.LimitToEldestFOKID`, `for i := l - 1; i >= 0; i--`
with its `break`.  The first argument is `i + 1` for the index `i` about to
be tested; the second is `lastGood`. -/
def LimitToEldestFOKIDLoop (kenv : KeyEnv) (fokid : FOKID) (links : List ChainLink) :
    Nat → Nat → Nat
  | 0, lastGood => lastGood
  | i + 1, lastGood =>
    match links[i]? with
    | none => lastGood
    | some c =>
      if kenv.MatchEldestFOKID c fokid then
        LimitToEldestFOKIDLoop kenv fokid links i i
      else
        lastGood

/-- Go `SigChain.LimitToEldestFOKID`.  A `nil` `chainLinks` is the empty list,
for which both branches of the Go code return the empty list. -/
def SigChain.LimitToEldestFOKID (kenv : KeyEnv) (sc : SigChain) (fokid : FOKID) :
    List ChainLink :=
  let l := sc.chainLinks.length
  let lastGood := LimitToEldestFOKIDLoop kenv fokid sc.chainLinks l l
  if lastGood = 0 then sc.chainLinks else sc.chainLinks.drop lastGood

/-! ## verifySubchain -/

/-- The collaborator calls `verifySubchain` makes, by name. -/
inductive ReplayOp where
  | InsertEldestLink
  | VerifySigWithKeyFamily
  | Delegate
  | VerifyReverseSig
  | Revoke
  | UpdateDevices
  | PutSigCheckCache
deriving DecidableEq, Repr

/-- An entry of the log of a replay: the call made, the index of the link it
was made for, the CKI when it was made, the CKI when it returned, and the
`err` it returned. -/
structure ReplayCall where
  op : ReplayOp
  linkIndex : Nat
  cki : ComputedKeyInfos
  ckiOut : ComputedKeyInfos
  err : Option KbError
deriving DecidableEq, Repr

/-- The state of a replay: the CKI under construction (`*cki`), the log of
the calls made so far, and the Go `err`; once `err` is non-nil the function
has returned. -/
structure ReplayState where
  cki : ComputedKeyInfos
  calls : List ReplayCall
  err : Option KbError
deriving DecidableEq, Repr

/-- A collaborator call followed by `if err != nil return`: when the function
has not yet returned, run `f` on the CKI, log the call and keep its `err`;
the code after a `return` is not run. -/
def ReplayState.call (s : ReplayState) (op : ReplayOp) (linkIndex : Nat)
    (f : ComputedKeyInfos → ComputedKeyInfos × Option KbError) : ReplayState :=
  match s.err with
  | some _ => s
  | none =>
    { cki := (f s.cki).1
      calls := s.calls ++
        [{ op := op, linkIndex := linkIndex, cki := s.cki, ckiOut := (f s.cki).1,
           err := (f s.cki).2 }]
      err := (f s.cki).2 }

/-- The body of the loop of `verifySubchain` for the link `link` at index
`linkIndex` of `links`, with the loop variable `first`. -/
def verifySubchainLink (kenv : KeyEnv) (kf : KeyFamily) (un : String) (links : List ChainLink)
    (linkIndex : Nat) (link : ChainLink) (first : Bool) (s : ReplayState) : ReplayState :=
  let newFokid := link.ToFOKID
  let s1 :=
    if first then
      s.call ReplayOp.InsertEldestLink linkIndex (fun cki => kenv.InsertEldestLink kf cki link un)
    else s
  let isDelegating : Bool := decide (link.GetRole ≠ KeyRole.DLG_NONE)
  let isFinalLink : Bool := decide (linkIndex = links.length - 1)
  let isLastLinkInSameKeyRun : Bool :=
    isFinalLink ||
      !(match links[linkIndex + 1]? with
        | some next => kenv.FOKID_Eq newFokid next.ToFOKID
        | none => true)
  let s2 :=
    if isDelegating || isFinalLink || isLastLinkInSameKeyRun then
      s1.call ReplayOp.VerifySigWithKeyFamily linkIndex
        (fun cki => (cki, (kenv.VerifySigWithKeyFamily link kf cki).2))
    else s1
  let s3 :=
    if isDelegating then
      s2.call ReplayOp.Delegate linkIndex (fun cki => kenv.Delegate kf cki link)
    else s2
  let s4 := s3.call ReplayOp.VerifyReverseSig linkIndex
    (fun cki => (cki, kenv.VerifyReverseSig link kf))
  let s5 := s4.call ReplayOp.Revoke linkIndex (fun cki => kenv.Revoke kf cki link)
  s5.call ReplayOp.UpdateDevices linkIndex (fun cki => kenv.UpdateDevices kf cki link)

/-- The loop of `verifySubchain`, `for linkIndex, link := range links`, over
the links still to be replayed. -/
def verifySubchainLoop (kenv : KeyEnv) (kf : KeyFamily) (un : String) (links : List ChainLink) :
    List ChainLink → Nat → Bool → ReplayState → ReplayState
  | [], _, _, s => s
  | link :: rest, linkIndex, first, s =>
    let s1 := verifySubchainLink kenv kf un links linkIndex link first s
    match s1.err with
    | some _ => s1
    | none => verifySubchainLoop kenv kf un links rest (linkIndex + 1) false s1

/-- What `verifySubchain` returns and leaves: the links (the last of which may
have received the cache), `cached`, `cki`, `err`, and the log of the calls
made. -/
structure SubchainResult where
  links : List ChainLink
  cached : Bool
  cki : Option ComputedKeyInfos
  err : Option KbError
  calls : List ReplayCall
deriving DecidableEq, Repr

/-- Go `SigChain.verifySubchain`. -/
def SigChain.verifySubchain (kenv : KeyEnv) (sc : SigChain) (kf : KeyFamily)
    (links : List ChainLink) : SubchainResult :=
  if links.length = 0 then
    { links := links, cached := false, cki := none, err := some KbError.InternalError,
      calls := [] }
  else
    match links[links.length - 1]? with
    | none =>
      { links := links, cached := false, cki := none, err := some KbError.InternalError,
        calls := [] }
    | some lst =>
      match lst.GetSigCheckCache with
      | some cki => { links := links, cached := true, cki := some cki, err := none, calls := [] }
      | none =>
        let s := verifySubchainLoop kenv kf sc.username links links 0 true
          { cki := NewComputedKeyInfos, calls := [], err := none }
        match s.err with
        | some e => { links := links, cached := false, cki := some s.cki, err := some e,
                      calls := s.calls }
        | none =>
          { links := links.set (links.length - 1) (lst.PutSigCheckCache s.cki)
            cached := false
            cki := some s.cki
            err := none
            calls := s.calls ++
              [{ op := ReplayOp.PutSigCheckCache, linkIndex := links.length - 1, cki := s.cki,
                 ckiOut := s.cki, err := none }] }

/-! ## VerifySigsAndComputeKeys -/

/-- What `VerifySigsAndComputeKeys` returns and leaves: the chain, the
caller's `ckf`, `cached`, `err`, and the result of the call of
`verifySubchain` when one was made (`none` when it was not invoked). -/
structure VerifySigsResult where
  sc : SigChain
  ckf : ComputedKeyFamily
  cached : Bool
  err : Option KbError
  subchain : Option SubchainResult

/-- Go `SigChain.VerifySigsAndComputeKeys`.  The links `LimitToEldestFOKID`
returns are the last links of the chain themselves, so what `verifySubchain`
writes on them is written on the chain. -/
def SigChain.VerifySigsAndComputeKeys (env : Env) (kenv : KeyEnv) (sc : SigChain)
    (eldest : Option KID) (ckf : ComputedKeyFamily) : VerifySigsResult :=
  match sc.VerifyChain env with
  | (sc1, some e) => { sc := sc1, ckf := ckf, cached := false, err := some e, subchain := none }
  | (sc1, none) =>
    match ckf.kf, eldest with
    | some kf, some eldestKid =>
      let eldestFOKID := kenv.KIDToFOKID kf eldestKid
      let links := sc1.LimitToEldestFOKID kenv eldestFOKID
      if links.length = 0 then
        let eldestKey := kenv.eldestKey kf eldestKid
        { sc := { sc1 with
                  localCki := some (kenv.InsertServerEldestKey NewComputedKeyInfos eldestKey
                    sc1.username) }
          ckf := ckf, cached := false, err := none, subchain := none }
      else
        let r := sc1.verifySubchain kenv kf links
        { sc := { sc1 with
                  chainLinks :=
                    sc1.chainLinks.take (sc1.chainLinks.length - links.length) ++ r.links }
          ckf := { ckf with cki := r.cki }
          cached := r.cached, err := r.err, subchain := some r }
    | _, _ => { sc := sc1, ckf := ckf, cached := false, err := none, subchain := none }

/-! ## The order of the steps of a replay -/

/-- The position of a call among the steps `verifySubchain` takes for one
link, in the order of the source: `InsertEldestLink`,
`VerifySigWithKeyFamily`, `Delegate`, `VerifyReverseSig`, `Revoke`,
`UpdateDevices`, and `PutSigCheckCache` after the last link. -/
def ReplayOp.rank : ReplayOp → Nat
  | ReplayOp.InsertEldestLink => 0
  | ReplayOp.VerifySigWithKeyFamily => 1
  | ReplayOp.Delegate => 2
  | ReplayOp.VerifyReverseSig => 3
  | ReplayOp.Revoke => 4
  | ReplayOp.UpdateDevices => 5
  | ReplayOp.PutSigCheckCache => 6

/-- The call `c2` comes after the call `c1` in replay order: on a later link,
or on the same link at a later step. -/
def ReplayCall.before (c1 c2 : ReplayCall) : Prop :=
  c1.linkIndex < c2.linkIndex ∨ (c1.linkIndex = c2.linkIndex ∧ c1.op.rank < c2.op.rank)

/-- The call `c2` is made right after the call `c1`: `c1` returned no error,
`c2` receives the CKI `c1` left, and `c2` is a later step on the same link or
a step on the next link. -/
def ReplayCall.follows (c1 c2 : ReplayCall) : Prop :=
  c1.err = none ∧ c2.cki = c1.ckiOut ∧
    ((c2.linkIndex = c1.linkIndex ∧ c1.op.rank < c2.op.rank) ∨
      c2.linkIndex = c1.linkIndex + 1)

/-- The test `isDelegating || isFinalLink || isLastLinkInSameKeyRun` of
`verifySubchain` for the link at index `i` of `links`, as a proposition: the
link is delegating, or `i` is the last index, or the FOKID of the link is not
`Eq` to that of the next link. -/
def sigCheckDue (kenv : KeyEnv) (links : List ChainLink) (i : Nat) : Prop :=
  ∃ link, links[i]? = some link ∧
    (link.GetRole ≠ KeyRole.DLG_NONE ∨ i = links.length - 1 ∨
      ∃ next, links[i + 1]? = some next ∧ kenv.FOKID_Eq link.ToFOKID next.ToFOKID = false)


/-- What a logged call stands for: the collaborator of that name applied to
the link and to the CKI it received, giving the CKI it leaves and its `err`.
The two checks and `PutSigCheckCache` leave the CKI as it is. -/
def replayStep (kenv : KeyEnv) (kf : KeyFamily) (un : String) (link : ChainLink) :
    ReplayOp → ComputedKeyInfos → ComputedKeyInfos × Option KbError
  | ReplayOp.InsertEldestLink, cki => kenv.InsertEldestLink kf cki link un
  | ReplayOp.VerifySigWithKeyFamily, cki => (cki, (kenv.VerifySigWithKeyFamily link kf cki).2)
  | ReplayOp.Delegate, cki => kenv.Delegate kf cki link
  | ReplayOp.VerifyReverseSig, cki => (cki, kenv.VerifyReverseSig link kf)
  | ReplayOp.Revoke, cki => kenv.Revoke kf cki link
  | ReplayOp.UpdateDevices, cki => kenv.UpdateDevices kf cki link
  | ReplayOp.PutSigCheckCache, cki => (cki, none)

/-- The test `isDelegating || isFinalLink || isLastLinkInSameKeyRun` of the
loop body, as computed there. -/
def sigCheckDueB (kenv : KeyEnv) (links : List ChainLink) (linkIndex : Nat)
    (link : ChainLink) : Bool :=
  decide (link.GetRole ≠ KeyRole.DLG_NONE) || decide (linkIndex = links.length - 1) ||
    (decide (linkIndex = links.length - 1) ||
      !(match links[linkIndex + 1]? with
        | some next => kenv.FOKID_Eq link.ToFOKID next.ToFOKID
        | none => true))

/-- A step of a straight-line sequence of calls: whether it is taken, the
call, and what the call does. -/
structure PlanStep where
  run : Bool
  op : ReplayOp
  f : ComputedKeyInfos → ComputedKeyInfos × Option KbError

/-- Run a sequence of steps for the link at index `i`, each taken step being
a `ReplayState.call`. -/
def runPlan (i : Nat) : List PlanStep → ReplayState → ReplayState
  | [], s => s
  | st :: rest, s => runPlan i rest (if st.run then s.call st.op i st.f else s)

/-- The steps of the loop body of `verifySubchain` for one link, in the order
of the source. -/
def linkPlan (kenv : KeyEnv) (kf : KeyFamily) (un : String) (links : List ChainLink)
    (linkIndex : Nat) (link : ChainLink) (first : Bool) : List PlanStep :=
  [{ run := first, op := ReplayOp.InsertEldestLink,
     f := replayStep kenv kf un link ReplayOp.InsertEldestLink },
   { run := sigCheckDueB kenv links linkIndex link, op := ReplayOp.VerifySigWithKeyFamily,
     f := replayStep kenv kf un link ReplayOp.VerifySigWithKeyFamily },
   { run := decide (link.GetRole ≠ KeyRole.DLG_NONE), op := ReplayOp.Delegate,
     f := replayStep kenv kf un link ReplayOp.Delegate },
   { run := true, op := ReplayOp.VerifyReverseSig,
     f := replayStep kenv kf un link ReplayOp.VerifyReverseSig },
   { run := true, op := ReplayOp.Revoke, f := replayStep kenv kf un link ReplayOp.Revoke },
   { run := true, op := ReplayOp.UpdateDevices,
     f := replayStep kenv kf un link ReplayOp.UpdateDevices }]

/-- The log of a replay state is well formed for a replay that is at the link
of index `i`, before its step of rank `k`: each logged call follows the one
before it, the last logged call left the CKI and the `err` of the state, and,
when no error has occurred, it was made for this link at an earlier step or
for the link before. -/
def ReplayState.wellLogged (s : ReplayState) (i k : Nat) : Prop :=
  List.Chain' ReplayCall.follows s.calls ∧
  ∀ c, s.calls.getLast? = some c →
    c.ckiOut = s.cki ∧ c.err = s.err ∧
    (s.err = none → (c.linkIndex = i ∧ c.op.rank < k) ∨ c.linkIndex + 1 = i)

/-- The steps of the link at index `j` have all completed in the log `calls`:
`VerifyReverseSig`, `Revoke` and `UpdateDevices` were called for it and
returned no error, and so were `Delegate` when the link is delegating and
`VerifySigWithKeyFamily` when the signature check is due. -/
def linkCompleted (kenv : KeyEnv) (links : List ChainLink) (calls : List ReplayCall)
    (j : Nat) : Prop :=
  (∃ c ∈ calls, c.op = ReplayOp.VerifyReverseSig ∧ c.linkIndex = j ∧ c.err = none) ∧
  (∃ c ∈ calls, c.op = ReplayOp.Revoke ∧ c.linkIndex = j ∧ c.err = none) ∧
  (∃ c ∈ calls, c.op = ReplayOp.UpdateDevices ∧ c.linkIndex = j ∧ c.err = none) ∧
  (∀ link, links[j]? = some link → link.GetRole ≠ KeyRole.DLG_NONE →
    ∃ c ∈ calls, c.op = ReplayOp.Delegate ∧ c.linkIndex = j ∧ c.err = none) ∧
  (sigCheckDue kenv links j →
    ∃ c ∈ calls, c.op = ReplayOp.VerifySigWithKeyFamily ∧ c.linkIndex = j ∧ c.err = none)

/-- The uncached replay of `verifySubchain` over `links`: the loop run from a
fresh CKI. -/
def replayAll (kenv : KeyEnv) (kf : KeyFamily) (un : String) (links : List ChainLink) :
    ReplayState :=
  verifySubchainLoop kenv kf un links links 0 true
    { cki := NewComputedKeyInfos, calls := [], err := none }

/-- The state in which the uncached replay over `links` arrives at the index
`i`: the loop run over the first `i` links. -/
def replayUpTo (kenv : KeyEnv) (kf : KeyFamily) (un : String) (links : List ChainLink)
    (i : Nat) : ReplayState :=
  verifySubchainLoop kenv kf un links (links.take i) 0 true
    { cki := NewComputedKeyInfos, calls := [], err := none }

/-! ## The local key-value store -/

/-- DbKey is `DbKey{Typ, Key}`: a table tag and a key; for the tail of a chain
the key is the uid (in Go its string form). -/
structure DbKey where
  Typ : Nat
  Key : UID
deriving DecidableEq, Repr

/-- The collaborators of the storage side, whose code lies outside
`sig_chain.go`.

* `GetInto key`: `G.LocalDb.GetInto(&tmp, key)`, returning the value read
  into `tmp`, `found` and `err`;
* `ImportLinkFromStorage id`: the function of that name;
* `PutLink link`: the `err` of the write `ChainLink.Store` makes for a link
  that is not yet persisted (`nil` when the link is written);
* `PutObj key mt`: the `err` of `G.LocalDb.PutObj(key, nil, mt)` (`nil` when
  the triple is written). -/
structure StorageEnv where
  GetInto : DbKey → MerkleTriple × Bool × Option KbError
  ImportLinkFromStorage : LinkId → Except KbError ChainLink
  PutLink : ChainLink → Option KbError
  PutObj : DbKey → MerkleTriple → Option KbError

/-- What the calls of `sig_chain.go` have written to the local store: the ids
of the persisted links and the tail triples put under their keys, the latest
first. -/
structure LocalDb where
  links : List LinkId
  tails : List (DbKey × MerkleTriple)
deriving DecidableEq, Repr

/-- Modelled from the spec: `ChainLink.Store`, whose code is outside
`sig_chain.go`; it "persists by LinkId when not already persisted; returns
stored=false when already present".  Returns the store, `didStore` and
`err`. -/
def ChainLink.Store (senv : StorageEnv) (c : ChainLink) (db : LocalDb) :
    LocalDb × Bool × Option KbError :=
  if c.id ∈ db.links then
    (db, false, none)
  else
    match senv.PutLink c with
    | some e => (db, false, some e)
    | none => ({ db with links := c.id :: db.links }, true, none)

/-- The loop of `SigChain.Store`, `for i := len - 1; i >= 0; i--`.  The first
argument is `i + 1` for the index `i` about to be visited (`0` when the loop
is over).  Returns the store and the Go `err`. -/
def SigChainStoreLoop (senv : StorageEnv) (links : List ChainLink) :
    Nat → LocalDb → LocalDb × Option KbError
  | 0, db => (db, none)
  | i + 1, db =>
    match links[i]? with
    | none => (db, none)
    | some link =>
      match link.Store senv db with
      | (db1, didStore, err) =>
        if err ≠ none ∨ didStore = false then (db1, err)
        else SigChainStoreLoop senv links i db1

/-- Go `SigChain.Store`: the store after the call and `err`. -/
def SigChain.Store (senv : StorageEnv) (sc : SigChain) (db : LocalDb) :
    LocalDb × Option KbError :=
  SigChainStoreLoop senv sc.chainLinks sc.chainLinks.length db

/-- A link is persisted in the store: its id is among the persisted ids. -/
def ChainLink.persisted (db : LocalDb) (c : ChainLink) : Prop := c.id ∈ db.links

instance (db : LocalDb) (c : ChainLink) : Decidable (c.persisted db) :=
  inferInstanceAs (Decidable (c.id ∈ db.links))

/-- The store is closed under predecessors on `links`: a persisted link of
the list has all of its predecessors in the list persisted. -/
def predecessorsPersisted (db : LocalDb) (links : List ChainLink) : Prop :=
  ∀ i j : Fin links.length, j < i → (links.get i).persisted db → (links.get j).persisted db

instance (db : LocalDb) (links : List ChainLink) : Decidable (predecessorsPersisted db links) :=
  inferInstanceAs (Decidable (∀ i j : Fin links.length, j < i →
    (links.get i).persisted db → (links.get j).persisted db))

/-! ## The loader: reading the chain from storage -/

/-- MerkleUserLeaf: the leaf of the Merkle tree for a user.  Its declaration
is outside `sig_chain.go`, which reads its fields `public` and `eldest`. -/
structure MerkleUserLeaf where
  public : Option MerkleTriple
  eldest : Option KID
deriving DecidableEq, Repr

/-- Go `ChainType`. -/
structure ChainType where
  DbType : Nat
  Private : Bool
  Encrypted : Bool
  GetMerkleTriple : MerkleUserLeaf → Option MerkleTriple

/-- Go `PublicChain`; the table tag `DB_SIG_CHAIN_TAIL_PUBLIC`, a constant
declared outside `sig_chain.go`, is an argument. -/
def PublicChain (DB_SIG_CHAIN_TAIL_PUBLIC : Nat) : ChainType :=
  { DbType := DB_SIG_CHAIN_TAIL_PUBLIC, Private := false, Encrypted := false,
    GetMerkleTriple := fun u => u.public }

/-- User: its declaration is outside `sig_chain.go`, which reads it through
`GetUid()`, `GetName()` and `GetKeyFamily()`. -/
structure User where
  uid : UID
  name : String
  keyFamily : Option KeyFamily
deriving DecidableEq, Repr

/-- Go `SigChainLoader` (the `Contextified` handle is left out; `user` is
taken to be non-nil). -/
structure SigChainLoader where
  user : User
  allKeys : Bool
  leaf : Option MerkleUserLeaf
  chain : Option SigChain
  chainType : ChainType
  links : List ChainLink
  ckf : ComputedKeyFamily
  dirtyTail : Option MerkleTriple
  preload : Option SigChain

/-- The loop of Go `reverse`, `for i, j := 0, len(links)-1; i < j;
i, j = i+1, j-1`, which swaps `links[i]` and `links[j]`.  The first argument
bounds the number of iterations; `j` is only decremented when `i < j`, so it
is kept as a natural number (for an empty list Go starts with `j = -1`, here
with `j = 0`, and in both cases `i < j` fails at once). -/
def reverseLoop : Nat → Nat → Nat → List ChainLink → List ChainLink
  | 0, _, _, links => links
  | fuel + 1, i, j, links =>
    if i < j then
      match links[i]?, links[j]? with
      | some a, some b => reverseLoop fuel (i + 1) (j - 1) ((links.set i b).set j a)
      | _, _ => links
    else
      links

/-- Go `reverse`: the list after the in-place reversal.  The loop makes at
most `len(links)` iterations. -/
def reverse (links : List ChainLink) : List ChainLink :=
  reverseLoop links.length 0 (links.length - 1) links

/-- Go `SigChainLoader.LoadLastLinkIdFromStorage`: returns `(mt, err)`. -/
def SigChainLoader.LoadLastLinkIdFromStorage (senv : StorageEnv) (l : SigChainLoader) :
    Option MerkleTriple × Option KbError :=
  match senv.GetInto { Typ := l.chainType.DbType, Key := l.user.uid } with
  | (_, _, some e) => (none, some e)
  | (_, false, none) => (none, none)
  | (tmp, true, none) => (some tmp, none)

/-- Go `SigChainLoader.AccessPreload`: the loader after the call, `cached` and
`err`. -/
def SigChainLoader.AccessPreload (l : SigChainLoader) :
    SigChainLoader × Bool × Option KbError :=
  match l.preload with
  | some p =>
    if p.allKeys = l.allKeys then ({ l with links := p.chainLinks }, true, none)
    else (l, false, none)
  | none => (l, false, none)

/-- Modelled from the spec: `ChainLink.ToEldestFOKID`, whose code is outside
`sig_chain.go`; a pure projection of the link. -/
def ChainLink.ToEldestFOKID (c : ChainLink) : FOKID := c.eldestFokid

/-- Modelled from the spec: `ChainLink.GetPrev`, whose code is outside
`sig_chain.go`; the `prev` of the link. -/
def ChainLink.GetPrev (c : ChainLink) : LinkId := c.prev

/-- The loop `for curr != nil && good_key` of `LoadLinksFromStorage`, with the
loop variables `curr`, `good_key`, `loadFokid` and `links`.  The walk along
the prev pointers need not end, so the first argument bounds the number of
iterations: `none` means that the loop has not ended within the bound,
`some (.error e)` is a `return` with `err = e` from inside the loop, and
`some (.ok links)` is the end of the loop. -/
def LoadLinksFromStorageLoop (senv : StorageEnv) (kenv : KeyEnv) (allKeys : Bool) :
    Nat → LinkId → Bool → Option FOKID → List ChainLink →
      Option (Except KbError (List ChainLink))
  | 0, curr, good_key, _, links =>
    if curr ≠ none ∧ good_key = true then none else some (Except.ok links)
  | fuel + 1, curr, good_key, loadFokid, links =>
    if curr ≠ none ∧ good_key = true then
      match senv.ImportLinkFromStorage curr with
      | Except.error e => some (Except.error e)
      | Except.ok link =>
        let fokid2 := link.ToEldestFOKID
        let loadFokid1 : Option FOKID :=
          match loadFokid with
          | none => some fokid2
          | some f => some f
        let good_key1 : Bool :=
          match loadFokid with
          | none => good_key
          | some f => if !allKeys && !(kenv.FOKID_Eq f fokid2) then false else good_key
        if good_key1 then
          LoadLinksFromStorageLoop senv kenv allKeys fuel link.GetPrev good_key1 loadFokid1
            (links ++ [link])
        else
          LoadLinksFromStorageLoop senv kenv allKeys fuel curr good_key1 loadFokid1 links
    else
      some (Except.ok links)

/-- Go `SigChainLoader.LoadLinksFromStorage`: the loader after the call and
`err`, or `none` when the walk has not ended within `fuel` iterations. -/
def SigChainLoader.LoadLinksFromStorage (senv : StorageEnv) (kenv : KeyEnv) (fuel : Nat)
    (l : SigChainLoader) : Option (SigChainLoader × Option KbError) :=
  match l.LoadLastLinkIdFromStorage senv with
  | (_, some e) => some (l, some e)
  | (none, none) => some (l, none)
  | (some mt, none) =>
    match LoadLinksFromStorageLoop senv kenv l.allKeys fuel mt.LinkId true none [] with
    | none => none
    | some (Except.error e) => some (l, some e)
    | some (Except.ok links) => some ({ l with links := reverse links }, none)

/-- What holds of the loop variables of `LoadLinksFromStorage` at each test of
the loop condition, for a walk started at the link id `start`; `links` holds
the links read so far, the tail link first.

* `loadFokid` is the eldest FOKID of the first link read, nil before;
* the first link read was imported from `start`;
* each further link was imported from the non-nil prev of the link read
  before it;
* when `allKeys` is false, the eldest FOKID of each further link is `Eq` to
  `loadFokid`;
* `curr` is the prev of the link read last (`start` before the first);
* when `good_key` is false, `allKeys` is false and the link imported from
  `curr` has an eldest FOKID that is not `Eq` to `loadFokid`. -/
def walkInv (senv : StorageEnv) (kenv : KeyEnv) (allKeys : Bool) (start curr : LinkId)
    (good_key : Bool) (loadFokid : Option FOKID) (links : List ChainLink) : Prop :=
  links.head?.map ChainLink.ToEldestFOKID = loadFokid ∧
  (∀ t, links.head? = some t →
    start ≠ none ∧ senv.ImportLinkFromStorage start = Except.ok t) ∧
  List.Chain' (fun x y => x.GetPrev ≠ none ∧
    senv.ImportLinkFromStorage x.GetPrev = Except.ok y) links ∧
  (allKeys = false → ∀ t, links.head? = some t → ∀ y ∈ links.tail,
    kenv.FOKID_Eq t.ToEldestFOKID y.ToEldestFOKID = true) ∧
  curr = (match links.getLast? with
    | some z => z.GetPrev
    | none => start) ∧
  (good_key = false → allKeys = false ∧ curr ≠ none ∧
    ∃ t y, links.head? = some t ∧ senv.ImportLinkFromStorage curr = Except.ok y ∧
      kenv.FOKID_Eq t.ToEldestFOKID y.ToEldestFOKID = false)

/-! ## The loader: the stages of `Load` -/

/-- A call made by `SigChainLoader.Load` (directly, or inside
`SigChainLoader.Store`), with what it was called on when that matters and
what it returned.  The log of these calls is not part of the Go state; it
serves to state which calls `Load` makes and in which order. -/
inductive LoadEvent where
  /-- Call `l.GetKeyFamily()`. -/
  | GetKeyFamily
  /-- Call `l.AccessPreload()`, with the `cached` it returned. -/
  | AccessPreload (preload : Bool)
  /-- Call `l.LoadLinksFromStorage()`, with its `err`. -/
  | LoadLinksFromStorage (err : Option KbError)
  /-- Call `l.MakeSigChain()`. -/
  | MakeSigChain
  /-- Call `l.chain.VerifyChain()`, with its `err`. -/
  | VerifyChain (err : Option KbError)
  /-- Call `l.CheckFreshness()`, with its `current` and `err`. -/
  | CheckFreshness (current : Bool) (err : Option KbError)
  /-- Call `l.LoadFromServer()`, with the triple passed on and its `err`. -/
  | LoadFromServer (srv : Option MerkleTriple) (err : Option KbError)
  /-- Call `l.chain.GetComputedKeyInfos()`, with whether it returned nil. -/
  | GetComputedKeyInfos (isNil : Bool)
  /-- Call `l.chain.Store()`, with the links of the chain and its `err`. -/
  | ChainStore (links : List ChainLink) (err : Option KbError)
  /-- Call `l.VerifySigsAndComputeKeys()`, with its `err`. -/
  | VerifySigsAndComputeKeys (err : Option KbError)
  /-- Call `l.StoreTail()`, with the `dirtyTail` of the loader at the call and
  its `err`; with a non-nil `dirtyTail` this is the write of the tail. -/
  | StoreTail (dirtyTail : Option MerkleTriple) (err : Option KbError)
deriving DecidableEq, Repr

/-- Go `SigChainLoader.MakeSigChain`.  The fields not named in the composite
literal hold their zero values; the parent pointer set on every link is not
modelled. -/
def SigChainLoader.MakeSigChain (l : SigChainLoader) : SigChainLoader × Option KbError :=
  ({ l with
     chain := some
       { uid := l.user.uid, username := l.user.name, chainLinks := l.links,
         idVerified := false, allKeys := l.allKeys, localCki := none,
         localChainTail := none, localChainUpdateTime := 0 } }, none)

/-- Go `SigChainLoader.GetKeyFamily`. -/
def SigChainLoader.GetKeyFamily (l : SigChainLoader) : SigChainLoader × Option KbError :=
  ({ l with ckf := { l.ckf with kf := l.user.keyFamily } }, none)

/-- Go `SigChainLoader.GetMerkleTriple`. -/
def SigChainLoader.GetMerkleTriple (l : SigChainLoader) : Option MerkleTriple :=
  match l.leaf with
  | some leaf => l.chainType.GetMerkleTriple leaf
  | none => none

/-- Go `SigChainLoader.CheckFreshness`; `none` is the dereference of a nil
`l.chain`. -/
def SigChainLoader.CheckFreshness (env : Env) (now : Int) (l : SigChainLoader) :
    Option (Bool × Option KbError) :=
  match l.chain with
  | none => none
  | some c => some (c.CheckFreshness env now l.GetMerkleTriple)

/-- Go `SigChainLoader.LoadFromServer`: the loader after the call and `err`;
`none` is the dereference of a nil `l.chain`. -/
def SigChainLoader.LoadFromServer (env : Env) (l : SigChainLoader) :
    Option (SigChainLoader × Option KbError) :=
  match l.chain with
  | none => none
  | some c =>
    let r := c.LoadFromServer env l.GetMerkleTriple
    some ({ l with chain := some r.1, dirtyTail := r.2.1 }, r.2.2)

/-- Go `SigChainLoader.VerifySigsAndComputeKeys`: the loader after the call
and `err`; `none` is the dereference of a nil `l.leaf` or `l.chain`. -/
def SigChainLoader.VerifySigsAndComputeKeys (env : Env) (kenv : KeyEnv) (l : SigChainLoader) :
    Option (SigChainLoader × Option KbError) :=
  match l.ckf.kf with
  | none => some (l, none)
  | some _ =>
    match l.leaf, l.chain with
    | some leaf, some c =>
      let r := c.VerifySigsAndComputeKeys env kenv leaf.eldest l.ckf
      some ({ l with chain := some r.sc, ckf := r.ckf }, r.err)
    | _, _ => none

/-- Go `SigChainLoader.StoreTail`: the loader and the store after the call,
and `err`. -/
def SigChainLoader.StoreTail (senv : StorageEnv) (l : SigChainLoader) (db : LocalDb) :
    SigChainLoader × LocalDb × Option KbError :=
  match l.dirtyTail with
  | none => (l, db, none)
  | some dt =>
    match senv.PutObj { Typ := l.chainType.DbType, Key := l.user.uid } dt with
    | some e => (l, db, some e)
    | none =>
      ({ l with dirtyTail := none },
       { db with tails := ({ Typ := l.chainType.DbType, Key := l.user.uid }, dt) :: db.tails },
       none)

/-- What `SigChainLoader.Store` returns and leaves: the loader, the store,
`err`, the log of the calls made, and whether the call ended in the
dereference of a nil `l.chain`. -/
structure LoaderStoreResult where
  loader : SigChainLoader
  db : LocalDb
  err : Option KbError
  events : List LoadEvent
  panicked : Bool

/-- Go `SigChainLoader.Store`. -/
def SigChainLoader.Store (senv : StorageEnv) (l : SigChainLoader) (db : LocalDb) :
    LoaderStoreResult :=
  match l.StoreTail senv db with
  | (l1, db1, some e) =>
    { loader := l1, db := db1, err := some e,
      events := [LoadEvent.StoreTail l.dirtyTail (some e)], panicked := false }
  | (l1, db1, none) =>
    match l1.chain with
    | none =>
      { loader := l1, db := db1, err := none,
        events := [LoadEvent.StoreTail l.dirtyTail none], panicked := true }
    | some c =>
      { loader := l1, db := (c.Store senv db1).1, err := (c.Store senv db1).2,
        events := [LoadEvent.StoreTail l.dirtyTail none,
          LoadEvent.ChainStore c.chainLinks (c.Store senv db1).2],
        panicked := false }

/-- How a run of `Load` ends: it returns, it ends in the dereference of a nil
pointer, or the walk of `LoadLinksFromStorage` has not ended within the
bound given. -/
inductive LoadOutcome where
  | returned
  | panicked
  | unfinished
deriving DecidableEq, Repr

/-- What `SigChainLoader.Load` returns and leaves: `ret`, `err`, the loader,
the store, the log of the calls made, and how the run ended. -/
structure LoadResult where
  ret : Option SigChain
  err : Option KbError
  loader : SigChainLoader
  db : LocalDb
  events : List LoadEvent
  outcome : LoadOutcome

/-- The part of `SigChainLoader.Load` from the second stage "VerifyChain" on:
`VerifyChain`, `chain.Store`, `VerifySigsAndComputeKeys`, `Store`.  `ev` is
the log so far. -/
def SigChainLoader.LoadStore (env : Env) (kenv : KeyEnv) (senv : StorageEnv)
    (l : SigChainLoader) (db : LocalDb) (ev : List LoadEvent) : LoadResult :=
  match l.chain with
  | none => ⟨none, none, l, db, ev, LoadOutcome.panicked⟩
  | some c =>
    match c.VerifyChain env with
    | (c1, some e) =>
      ⟨some c1, some e, { l with chain := some c1 }, db,
        ev ++ [LoadEvent.VerifyChain (some e)], LoadOutcome.returned⟩
    | (c1, none) =>
      match c1.Store senv db with
      | (db1, some e) =>
        ⟨some c1, some e, { l with chain := some c1 }, db1,
          ev ++ [LoadEvent.VerifyChain none, LoadEvent.ChainStore c1.chainLinks (some e)],
          LoadOutcome.returned⟩
      | (db1, none) =>
        match SigChainLoader.VerifySigsAndComputeKeys env kenv { l with chain := some c1 } with
        | none =>
          ⟨some c1, none, { l with chain := some c1 }, db1,
            ev ++ [LoadEvent.VerifyChain none, LoadEvent.ChainStore c1.chainLinks none],
            LoadOutcome.panicked⟩
        | some (l2, some e) =>
          ⟨l2.chain, some e, l2, db1,
            ev ++ [LoadEvent.VerifyChain none, LoadEvent.ChainStore c1.chainLinks none,
              LoadEvent.VerifySigsAndComputeKeys (some e)],
            LoadOutcome.returned⟩
        | some (l2, none) =>
          ⟨(l2.Store senv db1).loader.chain, (l2.Store senv db1).err,
            (l2.Store senv db1).loader, (l2.Store senv db1).db,
            ev ++ [LoadEvent.VerifyChain none, LoadEvent.ChainStore c1.chainLinks none,
              LoadEvent.VerifySigsAndComputeKeys none] ++ (l2.Store senv db1).events,
            if (l2.Store senv db1).panicked then LoadOutcome.panicked
            else LoadOutcome.returned⟩

/-- The part of `SigChainLoader.Load` from the stage "MakeSigChain" on.  `ev`
is the log so far. -/
def SigChainLoader.LoadFromChain (env : Env) (kenv : KeyEnv) (senv : StorageEnv) (now : Int)
    (l : SigChainLoader) (db : LocalDb) (ev : List LoadEvent) : LoadResult :=
  match l.MakeSigChain with
  | (l1, some e) => ⟨none, some e, l1, db, ev ++ [LoadEvent.MakeSigChain], LoadOutcome.returned⟩
  | (l1, none) =>
    match l1.chain with
    | none => ⟨none, none, l1, db, ev ++ [LoadEvent.MakeSigChain], LoadOutcome.panicked⟩
    | some c =>
      match c.VerifyChain env with
      | (c1, some e) =>
        ⟨some c1, some e, { l1 with chain := some c1 }, db,
          ev ++ [LoadEvent.MakeSigChain, LoadEvent.VerifyChain (some e)], LoadOutcome.returned⟩
      | (c1, none) =>
        match SigChainLoader.CheckFreshness env now { l1 with chain := some c1 } with
        | none =>
          ⟨some c1, none, { l1 with chain := some c1 }, db,
            ev ++ [LoadEvent.MakeSigChain, LoadEvent.VerifyChain none], LoadOutcome.panicked⟩
        | some (current, some e) =>
          ⟨some c1, some e, { l1 with chain := some c1 }, db,
            ev ++ [LoadEvent.MakeSigChain, LoadEvent.VerifyChain none,
              LoadEvent.CheckFreshness current (some e)], LoadOutcome.returned⟩
        | some (false, none) =>
          match SigChainLoader.LoadFromServer env { l1 with chain := some c1 } with
          | none =>
            ⟨some c1, none, { l1 with chain := some c1 }, db,
              ev ++ [LoadEvent.MakeSigChain, LoadEvent.VerifyChain none,
                LoadEvent.CheckFreshness false none], LoadOutcome.panicked⟩
          | some (l2, some e) =>
            ⟨l2.chain, some e, l2, db,
              ev ++ [LoadEvent.MakeSigChain, LoadEvent.VerifyChain none,
                LoadEvent.CheckFreshness false none,
                LoadEvent.LoadFromServer (SigChainLoader.GetMerkleTriple l1) (some e)],
              LoadOutcome.returned⟩
          | some (l2, none) =>
            l2.LoadStore env kenv senv db
              (ev ++ [LoadEvent.MakeSigChain, LoadEvent.VerifyChain none,
                LoadEvent.CheckFreshness false none,
                LoadEvent.LoadFromServer (SigChainLoader.GetMerkleTriple l1) none])
        | some (true, none) =>
          match c1.GetComputedKeyInfos with
          | none =>
            SigChainLoader.LoadStore env kenv senv { l1 with chain := some c1 } db
              (ev ++ [LoadEvent.MakeSigChain, LoadEvent.VerifyChain none,
                LoadEvent.CheckFreshness true none, LoadEvent.GetComputedKeyInfos true])
          | some _ =>
            ⟨some c1, none, { l1 with chain := some c1 }, db,
              ev ++ [LoadEvent.MakeSigChain, LoadEvent.VerifyChain none,
                LoadEvent.CheckFreshness true none, LoadEvent.GetComputedKeyInfos false],
              LoadOutcome.returned⟩

/-- Go `SigChainLoader.Load`, with `time.Now()` the argument `now`, the walk
of `LoadLinksFromStorage` bounded by `fuel`, and the local store `db` at the
call. -/
def SigChainLoader.Load (env : Env) (kenv : KeyEnv) (senv : StorageEnv) (now : Int)
    (fuel : Nat) (l : SigChainLoader) (db : LocalDb) : LoadResult :=
  match l.GetKeyFamily with
  | (l1, some e) => ⟨none, some e, l1, db, [LoadEvent.GetKeyFamily], LoadOutcome.returned⟩
  | (l1, none) =>
    match l1.AccessPreload with
    | (l2, preload, some e) =>
      ⟨none, some e, l2, db, [LoadEvent.GetKeyFamily, LoadEvent.AccessPreload preload],
        LoadOutcome.returned⟩
    | (l2, true, none) =>
      l2.LoadFromChain env kenv senv now db
        [LoadEvent.GetKeyFamily, LoadEvent.AccessPreload true]
    | (l2, false, none) =>
      match l2.LoadLinksFromStorage senv kenv fuel with
      | none =>
        ⟨none, none, l2, db, [LoadEvent.GetKeyFamily, LoadEvent.AccessPreload false],
          LoadOutcome.unfinished⟩
      | some (l3, some e) =>
        ⟨none, some e, l3, db,
          [LoadEvent.GetKeyFamily, LoadEvent.AccessPreload false,
            LoadEvent.LoadLinksFromStorage (some e)], LoadOutcome.returned⟩
      | some (l3, none) =>
        l3.LoadFromChain env kenv senv now db
          [LoadEvent.GetKeyFamily, LoadEvent.AccessPreload false,
            LoadEvent.LoadLinksFromStorage none]

/-- A link without what verification writes on it: the three verification
flags and the cached CKI. -/
def ChainLink.unflagged (c : ChainLink) : ChainLink :=
  { c with hashVerified := false, sigVerified := false, chainVerified := false, cki := none }

/-- The shapes of the log of the stages `VerifyChain`, `chain.Store`,
`VerifySigsAndComputeKeys`, `Store` of `Load`: each stage is entered when the
one before it has returned no error.  `panicked` tells whether the run ended
in the dereference of a nil pointer, which happens in
`VerifySigsAndComputeKeys`. -/
def storeStagesLog (panicked : Bool) (evs : List LoadEvent) : Prop :=
  (panicked = false ∧ ∃ e, evs = [LoadEvent.VerifyChain (some e)]) ∨
  (panicked = false ∧ ∃ ls e,
    evs = [LoadEvent.VerifyChain none, LoadEvent.ChainStore ls (some e)]) ∨
  (panicked = true ∧ ∃ ls,
    evs = [LoadEvent.VerifyChain none, LoadEvent.ChainStore ls none]) ∨
  (panicked = false ∧ ∃ ls e,
    evs = [LoadEvent.VerifyChain none, LoadEvent.ChainStore ls none,
      LoadEvent.VerifySigsAndComputeKeys (some e)]) ∨
  (panicked = false ∧ ∃ ls dt e,
    evs = [LoadEvent.VerifyChain none, LoadEvent.ChainStore ls none,
      LoadEvent.VerifySigsAndComputeKeys none, LoadEvent.StoreTail dt (some e)]) ∨
  (panicked = false ∧ ∃ ls dt ls2 e,
    evs = [LoadEvent.VerifyChain none, LoadEvent.ChainStore ls none,
      LoadEvent.VerifySigsAndComputeKeys none, LoadEvent.StoreTail dt none,
      LoadEvent.ChainStore ls2 e])

/-- The calls of `Load` that store or verify signatures: `chain.Store()`,
`VerifySigsAndComputeKeys()` and `StoreTail()`. -/
def LoadEvent.isStorePhase : LoadEvent → Bool
  | LoadEvent.ChainStore _ _ => true
  | LoadEvent.VerifySigsAndComputeKeys _ => true
  | LoadEvent.StoreTail _ _ => true
  | _ => false

/-- What holds of a run of `Load` that has entered the stages `VerifyChain`,
`chain.Store`, `VerifySigsAndComputeKeys`, `Store`, with `B` the log of these
stages, `db` the store before the run and `key` the key of the tail: the
loader holds the chain returned; the links `chain.Store()` was first called
on are those of that chain up to verification flags and caches; and the tails
of the store are as before, or a `StoreTail` with a non-nil `dirtyTail` has
returned no error and has put that triple under `key`. -/
def storeFacts (r : LoadResult) (db : LocalDb) (key : DbKey) (B : List LoadEvent) : Prop :=
  (∃ cf, r.loader.chain = some cf ∧ r.ret = some cf ∧
    ∀ ls e, B[1]? = some (LoadEvent.ChainStore ls e) →
      ls.map ChainLink.unflagged = cf.chainLinks.map ChainLink.unflagged) ∧
  (r.db.tails = db.tails ∨
    ∃ dt, B[3]? = some (LoadEvent.StoreTail (some dt) none) ∧
      r.db.tails = (key, dt) :: db.tails)

/-- The calls of `Load` around the freshness decision: `CheckFreshness()`,
`LoadFromServer()` and `GetComputedKeyInfos()`. -/
def LoadEvent.isDecision : LoadEvent → Bool
  | LoadEvent.CheckFreshness _ _ => true
  | LoadEvent.LoadFromServer _ _ => true
  | LoadEvent.GetComputedKeyInfos _ => true
  | _ => false

/-- The calls of `Load` before the stage "VerifyChain": `GetKeyFamily()`,
`AccessPreload()`, `LoadLinksFromStorage()` and `MakeSigChain()`. -/
def LoadEvent.isSetup : LoadEvent → Bool
  | LoadEvent.GetKeyFamily => true
  | LoadEvent.AccessPreload _ => true
  | LoadEvent.LoadLinksFromStorage _ => true
  | LoadEvent.MakeSigChain => true
  | _ => false

/-! ## The stages of `Load` before "MakeSigChain" -/

/-- The stages before "MakeSigChain" have returned no error and have left the
loader `l3`: `GetKeyFamily`, `AccessPreload` and, when there is no preload,
`LoadLinksFromStorage` within `fuel` iterations of its walk. -/
def loadSetup (senv : StorageEnv) (kenv : KeyEnv) (fuel : Nat) (l l3 : SigChainLoader) : Prop :=
  ((l.GetKeyFamily).1.AccessPreload).2 = (true, none) ∧
      l3 = ((l.GetKeyFamily).1.AccessPreload).1 ∨
    ((l.GetKeyFamily).1.AccessPreload).2 = (false, none) ∧
      SigChainLoader.LoadLinksFromStorage senv kenv fuel ((l.GetKeyFamily).1.AccessPreload).1
        = some (l3, none)

/-! ## Concrete keys and chains used as test inputs -/

/-- A link like `mkLink`, signed by the key `[signer]`, with the given role,
whose payload names the key it delegates and the key it revokes (`0` for
none). -/
def mkKeyLink (seqno : Int) (id : Nat) (prev : LinkId) (signer : Nat) (role : KeyRole)
    (delegated revoked : Nat) : ChainLink :=
  { mkLink seqno id prev with
    fokid := { Fp := none, Kid := some [signer] }
    role := role
    payload := [delegated, revoked] }

/-- A link like `mkLink` under the eldest key `[eldest]`. -/
def mkEldestLink (seqno : Int) (id : Nat) (prev : LinkId) (eldest : Nat) : ChainLink :=
  { mkLink seqno id prev with eldestFokid := { Fp := none, Kid := some [eldest] } }

/-- A key environment over CKIs whose entries are pairs of a key and a status
(`1` live, `0` revoked).  A signature verifies when the signing key is live;
a delegation adds the delegated key as live when the signer is live; a
revocation sets the status of the revoked key to `0`; FOKIDs are compared by
equality. -/
def testKeyEnv : KeyEnv :=
  { FOKID_Eq := fun f g => decide (f = g)
    MatchEldestFOKID := fun c f => decide (c.eldestFokid = f)
    MatchFingerprint := fun c fp => decide (c.fokid.Fp = some fp)
    KIDToFOKID := fun _ kid => { Fp := none, Kid := kid }
    eldestKey := fun _ kid => kid
    InsertEldestLink := fun _ cki link _ =>
      match link.fokid.Kid with
      | some k => ({ entries := cki.entries ++ [(k, 1)] }, none)
      | none => (cki, some (KbError.External 2))
    VerifySigWithKeyFamily := fun link _ cki =>
      match link.fokid.Kid with
      | some k => if (k, 1) ∈ cki.entries then (false, none) else (false, some (KbError.External 3))
      | none => (false, some (KbError.External 3))
    Delegate := fun _ cki link =>
      match link.fokid.Kid, link.payload with
      | some k, [d, _] =>
        if (k, 1) ∈ cki.entries then ({ entries := cki.entries ++ [([d], 1)] }, none)
        else (cki, some (KbError.External 4))
      | _, _ => (cki, some (KbError.External 4))
    VerifyReverseSig := fun _ _ => none
    Revoke := fun _ cki link =>
      match link.payload with
      | [_, r] =>
        ({ entries := cki.entries.map (fun e => if e.1 = [r] then (e.1, 0) else e) }, none)
      | _ => (cki, none)
    UpdateDevices := fun _ cki _ => (cki, none)
    InsertServerEldestKey := fun cki key _ =>
      match key with
      | some k => { entries := cki.entries ++ [(k, 1)] }
      | none => cki }

/-- A chain of ten links, seqnos 1 to 10, correctly linked; the links 1 to 4
are under the eldest key `[1]`, the links 5 to 10 under the eldest key `[2]`. -/
def chain10 : SigChain :=
  mkChain [mkEldestLink 1 1 none 1, mkEldestLink 2 2 (some [1]) 1,
    mkEldestLink 3 3 (some [2]) 1, mkEldestLink 4 4 (some [3]) 1,
    mkEldestLink 5 5 (some [4]) 2, mkEldestLink 6 6 (some [5]) 2,
    mkEldestLink 7 7 (some [6]) 2, mkEldestLink 8 8 (some [7]) 2,
    mkEldestLink 9 9 (some [8]) 2, mkEldestLink 10 10 (some [9]) 2]

/-- A chain of three links of which the last two carry the PGP fingerprint
`[7]`, the last one being `sigVerified`. -/
def fpChain3 : SigChain :=
  mkChain [mkLink 1 1 none,
    { mkLink 2 2 (some [1]) with fokid := { Fp := some [7], Kid := some [1] } },
    { mkLink 3 3 (some [2]) with fokid := { Fp := some [7], Kid := some [1] }
                                 sigVerified := true }]

/-- A chain of three links for the replay: the first is signed by the eldest
key `[10]`; the second, signed by `[10]`, delegates the key `[20]` as sibkey
and revokes `[10]`; the third is signed by `[20]`. -/
def rotationLinks : List ChainLink :=
  [mkKeyLink 1 1 none 10 KeyRole.DLG_NONE 0 0,
   mkKeyLink 2 2 (some [1]) 10 KeyRole.DLG_SIBKEY 20 10,
   mkKeyLink 3 3 (some [2]) 20 KeyRole.DLG_NONE 0 0]

/-- A storage side holding the links `stored`, read by id, and the tail
triple `tail`; every write succeeds. -/
def testStorage (stored : List ChainLink) (tail : Option MerkleTriple) : StorageEnv :=
  { GetInto := fun _ =>
      match tail with
      | some t => (t, true, none)
      | none => ({ Seqno := 0, LinkId := none, SigId := none }, false, none)
    ImportLinkFromStorage := fun id =>
      match stored.find? (fun l => decide (l.id = id)) with
      | some l => Except.ok l
      | none => Except.error (KbError.External 5)
    PutLink := fun _ => none
    PutObj := fun _ _ => none }


/-- A loader for the user `u` on the public chain, nothing loaded yet. -/
def mkLoader (allKeys : Bool) (leaf : Option MerkleUserLeaf) (kf : Option KeyFamily)
    (preload : Option SigChain) : SigChainLoader :=
  { user := { uid := [7], name := "u", keyFamily := kf }
    allKeys := allKeys
    leaf := leaf
    chain := none
    chainType := PublicChain 0
    links := []
    ckf := { kf := none, cki := none }
    dirtyTail := none
    preload := preload }

/-- The storage side holding the ten links of `chain10` and, as tail triple,
that of its last link. -/
def storage10 : StorageEnv :=
  testStorage chain10.chainLinks (some { Seqno := 10, LinkId := some [10], SigId := some [10] })


/-- The two-link chain whose last link holds a cached CKI, as a preload. -/
def cachedChain2 : SigChain :=
  mkChain [mkLink 1 1 none,
    { mkLink 2 2 (some [1]) with cki := some { entries := [([1], 1)] } }]

/-- A Merkle leaf whose public triple names the link of seqno `n` and id
`[n]`, with the eldest key `[1]`. -/
def mkLeaf (n : Nat) : MerkleUserLeaf :=
  { public := some { Seqno := n, LinkId := some [n], SigId := some [n] }
    eldest := some (some [1]) }

/-- The empty local store. -/
def emptyDb : LocalDb := { links := [], tails := [] }


/-- A loader with nothing loaded and no preload, whose Merkle leaf names the
link of seqno 1. -/
def staleLoader : SigChainLoader := mkLoader false (some (mkLeaf 1)) none none

/-- A loader preloaded with the two-link chain `chain2`, which holds no
cached CKI, whose Merkle leaf names the last link of that chain; the user
has a key family. -/
def currentLoader : SigChainLoader :=
  mkLoader false (some (mkLeaf 2)) (some { AllKeys := [] }) (some chain2)

/-- A storage side holding nothing, in which every write of a link fails. -/
def failingStorage : StorageEnv :=
  { testStorage [] none with PutLink := fun _ => some (KbError.External 6) }


/-- A one-link list whose link names no signing key, so that
`InsertEldestLink` of `testKeyEnv` returns an error on it. -/
def badFirstLinks : List ChainLink :=
  [{ mkLink 1 1 none with fokid := { Fp := none, Kid := none } }]

/-- A chain of three links, correctly linked, whose last two links have the
same link id `[1]`; the first has the id `[5]`. -/
def dupChain : SigChain :=
  mkChain [mkLink 1 5 none, mkLink 2 1 (some [5]), mkLink 3 1 (some [1])]

end libkb

namespace libkb

/-! ## Auxiliary facts on the accessors -/

theorem last_eq_getLast? (links : List ChainLink) : last links = links.getLast? := by
  unfold last
  cases links with
  | nil => simp
  | cons x xs => simp [List.getLast?_eq_getElem?]

theorem last_eq_none_iff (links : List ChainLink) : last links = none ↔ links = [] := by
  rw [last_eq_getLast?]; exact List.getLast?_eq_none_iff

/-! ## CheckFreshness -/

/-- C1 (rollback detection).  For every chain, clock value and non-null server
triple `srv`: if `srv.Seqno < 0`, or the chain has a last loaded link whose
seqno is greater than `srv.Seqno`, then `CheckFreshness` returns
`current = false` with a non-nil error, which is the "version-rollback
suspected" server-chain error. -/
theorem CheckFreshness_rollback (env : Env) (now : Int) (sc : SigChain) (srv : MerkleTriple)
    (h : srv.Seqno < 0 ∨ ∃ l, sc.GetLastLink = some l ∧ srv.Seqno < l.seqno) :
    (sc.CheckFreshness env now (some srv)).1 = false ∧
    (sc.CheckFreshness env now (some srv)).2 ≠ none ∧
    ∃ a, (sc.CheckFreshness env now (some srv)).2 =
      some (KbError.ServerChainError (ServerChainMsg.rollback a srv.Seqno)) := by
  unfold SigChain.CheckFreshness SigChain.GetCurrentTailTriple
  cases hl : sc.GetLastLink with
  | none =>
    have hb : srv.Seqno < 0 := by
      rcases h with h | ⟨l, h1, _⟩
      · exact h
      · rw [hl] at h1; cases h1
    simp [hb]
  | some l0 =>
    have hb : srv.Seqno < 0 ∨ l0.seqno > srv.Seqno := by
      rcases h with h | ⟨l, h1, h2⟩
      · exact Or.inl h
      · rw [hl] at h1; cases h1; exact Or.inr h2
    simp [ChainLink.ToMerkleTriple, hb]

/-- The value of `CheckFreshness` on an empty chain. -/
theorem CheckFreshness_empty (env : Env) (now : Int) (sc : SigChain) (srv : Option MerkleTriple)
    (hl : sc.GetLastLink = none) :
    sc.CheckFreshness env now srv =
      match srv with
      | none => (false, none)
      | some s =>
        if s.Seqno < 0 then
          (false, some (KbError.ServerChainError (ServerChainMsg.rollback (-1) s.Seqno)))
        else (false, none) := by
  unfold SigChain.CheckFreshness SigChain.GetCurrentTailTriple
  rw [hl]
  cases srv with
  | none => simp
  | some s =>
    by_cases hb : s.Seqno < 0
    · simp [hb]
    · have h1 : ¬ (-1 > s.Seqno) := by linarith
      have h2 : ¬ (s.Seqno = -1) := by intro h; apply hb; rw [h]; decide
      simp [hb, h1, h2]

/-- The value of `CheckFreshness` on a chain whose last loaded link is `l`. -/
theorem CheckFreshness_nonempty (env : Env) (now : Int) (sc : SigChain) (srv : Option MerkleTriple)
    (l : ChainLink) (hl : sc.GetLastLink = some l) :
    sc.CheckFreshness env now srv =
      match srv with
      | none => (false, some (KbError.ServerChainError (ServerChainMsg.lostUser l.seqno)))
      | some s =>
        if s.Seqno < 0 ∨ l.seqno > s.Seqno then
          (false, some (KbError.ServerChainError (ServerChainMsg.rollback l.seqno s.Seqno)))
        else if s.Seqno = l.seqno then
          (match sc.GetFutureChainTail env now with
            | none => true
            | some f => !decide (l.seqno < f.Seqno),
           if LinkId.Eq l.id s.LinkId then none
           else some (KbError.ServerChainError ServerChainMsg.wrongTail))
        else (false, none) := by
  unfold SigChain.CheckFreshness SigChain.GetCurrentTailTriple
  rw [hl]
  cases srv with
  | none => simp [ChainLink.ToMerkleTriple]
  | some s =>
    by_cases hb : s.Seqno < 0 ∨ l.seqno > s.Seqno
    · simp [ChainLink.ToMerkleTriple, hb]
    · by_cases he : s.Seqno = l.seqno
      · have hb0 : ¬ l.seqno < 0 := by
          intro h; apply hb; left; rw [he]; exact h
        cases hf : sc.GetFutureChainTail env now with
        | none =>
          by_cases hid : LinkId.Eq l.id s.LinkId = true <;>
            simp [ChainLink.ToMerkleTriple, hb, he, hid, hb0]
        | some f =>
          by_cases hid : LinkId.Eq l.id s.LinkId = true <;>
            by_cases hlt : l.seqno < f.Seqno <;>
              simp [ChainLink.ToMerkleTriple, hb, he, hid, hlt, hb0]
      · simp [ChainLink.ToMerkleTriple, hb, he]

/-- C3 (when `CheckFreshness` fails).  With `a` the seqno of the last loaded
link (`-1` for an empty chain) and `b = srv.Seqno`, `CheckFreshness` returns a
non-nil error if and only if (i) `srv` is null and the chain is non-empty, or
(ii) `srv` is non-null and `b < 0` or `a > b`, or (iii) `srv` is non-null, the
last link has seqno `b` and its id differs from `srv.LinkId`.  In every other
case the error is nil. -/
theorem CheckFreshness_error_iff (env : Env) (now : Int) (sc : SigChain)
    (srv : Option MerkleTriple) :
    (sc.CheckFreshness env now srv).2 ≠ none ↔
      ((srv = none ∧ sc.chainLinks ≠ []) ∨
       (∃ s, srv = some s ∧
          (s.Seqno < 0 ∨ (sc.GetLastLink.map ChainLink.seqno).getD (-1) > s.Seqno)) ∨
       (∃ s l, srv = some s ∧ sc.GetLastLink = some l ∧ l.seqno = s.Seqno ∧
          LinkId.Eq l.id s.LinkId = false)) := by
  cases hl : sc.GetLastLink with
  | none =>
    have hnil : sc.chainLinks = [] := (last_eq_none_iff _).mp hl
    rw [CheckFreshness_empty env now sc srv hl]
    cases srv with
    | none => simp [hnil]
    | some s =>
      by_cases hb : s.Seqno < 0
      · simp [hb]
      · have h1 : ¬ (-1 > s.Seqno) := by linarith
        simp [hb, h1]
  | some l =>
    have hne : sc.chainLinks ≠ [] := by
      intro h
      have := (last_eq_none_iff _).mpr h
      unfold SigChain.GetLastLink at hl
      rw [this] at hl; cases hl
    rw [CheckFreshness_nonempty env now sc srv l hl]
    cases srv with
    | none => simp [hne]
    | some s =>
      by_cases hb : s.Seqno < 0 ∨ l.seqno > s.Seqno
      · simp [hb]
      · by_cases he : s.Seqno = l.seqno
        · have hb0 : ¬ l.seqno < 0 := by
            intro h; apply hb; left; rw [he]; exact h
          by_cases hid : LinkId.Eq l.id s.LinkId = true
          · simp [he, hid, hb0]
          · simp [he, hid, hb0]
        · have he2 : ¬ l.seqno = s.Seqno := fun h => he h.symm
          simp [hb, he, he2]

/-- C4 (when `CheckFreshness` reports current).  Whenever `CheckFreshness`
returns no error, `current` is true if and only if `srv` is non-null, the last
loaded link has the seqno and the link id of `srv`, and `GetFutureChainTail()`
is null or has a seqno not greater than that of the last loaded link.  So an
unexpired future tail beyond the loaded tail gives `current = false`, as do a
server seqno above the local one and a null server triple. -/
theorem CheckFreshness_current_iff (env : Env) (now : Int) (sc : SigChain)
    (srv : Option MerkleTriple) (h : (sc.CheckFreshness env now srv).2 = none) :
    ((sc.CheckFreshness env now srv).1 = true ↔
      ∃ s l, srv = some s ∧ sc.GetLastLink = some l ∧ l.seqno = s.Seqno ∧
        LinkId.Eq l.id s.LinkId = true ∧
        (sc.GetFutureChainTail env now = none ∨
          ∃ f, sc.GetFutureChainTail env now = some f ∧ f.Seqno ≤ l.seqno)) ∧
    (∀ f l, sc.GetFutureChainTail env now = some f → sc.GetLastLink = some l →
        l.seqno < f.Seqno → (sc.CheckFreshness env now srv).1 = false) ∧
    (∀ s, srv = some s → (sc.GetLastLink.map ChainLink.seqno).getD (-1) < s.Seqno →
        (sc.CheckFreshness env now srv).1 = false) ∧
    (srv = none → (sc.CheckFreshness env now srv).1 = false) := by
  cases hl : sc.GetLastLink with
  | none =>
    rw [CheckFreshness_empty env now sc srv hl] at h ⊢
    cases srv with
    | none => simp
    | some s =>
      by_cases hb : s.Seqno < 0
      · simp [hb] at h
      · simp [hb]
  | some l =>
    rw [CheckFreshness_nonempty env now sc srv l hl] at h ⊢
    cases srv with
    | none => simp at h
    | some s =>
      by_cases hb : s.Seqno < 0 ∨ l.seqno > s.Seqno
      · simp [hb] at h
      · by_cases he : s.Seqno = l.seqno
        · have hb0 : ¬ l.seqno < 0 := by
            intro h; apply hb; left; rw [he]; exact h
          by_cases hid : LinkId.Eq l.id s.LinkId = true
          · cases hf : sc.GetFutureChainTail env now with
            | none => simp [he, hid, hb0]
            | some f =>
              by_cases hlt : l.seqno < f.Seqno
              · have hle : ¬ f.Seqno ≤ l.seqno := by linarith
                simp [he, hid, hb0, hlt, hle]
              · have hle : f.Seqno ≤ l.seqno := by linarith
                simp [he, hid, hb0, hlt, hle]
          · simp [he, hid, hb0] at h
        · have he2 : ¬ l.seqno = s.Seqno := fun h => he h.symm
          simp [hb, he, he2]

/-- C2, as stated, fails: on the five-link chain (tail seqno 5, id `[5]`) with
no local overlay, a server triple with seqno 5 and link id `[9]` makes
`CheckFreshness` return `current = true` together with the "wrong sigchain
tail" error, which is none of the three listed outcomes. -/
theorem CheckFreshness_current_with_error :
    chain5.CheckFreshness (testEnv []) 0 (some { Seqno := 5, LinkId := some [9], SigId := none })
        = (true, some (KbError.ServerChainError ServerChainMsg.wrongTail)) ∧
    ¬ (chain5.CheckFreshness (testEnv []) 0
          (some { Seqno := 5, LinkId := some [9], SigId := none }) = (true, none) ∨
       chain5.CheckFreshness (testEnv []) 0
          (some { Seqno := 5, LinkId := some [9], SigId := none }) = (false, none) ∨
       ((chain5.CheckFreshness (testEnv []) 0
          (some { Seqno := 5, LinkId := some [9], SigId := none })).1 = false ∧
        (chain5.CheckFreshness (testEnv []) 0
          (some { Seqno := 5, LinkId := some [9], SigId := none })).2 ≠ none)) := by
  decide

/-- C2, amended.  For every chain state, clock value and server triple,
`CheckFreshness` returns one of `(true, nil)`, `(false, nil)`,
`(false, err)` with `err` non-nil, or `(true, wrong-tail error)`; and the last
outcome happens exactly when `srv` is non-null, the last loaded link has the
seqno of `srv` (not negative) but another link id, and there is no unexpired
future tail with a seqno above that of the last loaded link. -/
theorem CheckFreshness_outcomes (env : Env) (now : Int) (sc : SigChain)
    (srv : Option MerkleTriple) :
    (sc.CheckFreshness env now srv = (true, none) ∨
     sc.CheckFreshness env now srv = (false, none) ∨
     ((sc.CheckFreshness env now srv).1 = false ∧ (sc.CheckFreshness env now srv).2 ≠ none) ∨
     sc.CheckFreshness env now srv
       = (true, some (KbError.ServerChainError ServerChainMsg.wrongTail))) ∧
    (((sc.CheckFreshness env now srv).1 = true ∧ (sc.CheckFreshness env now srv).2 ≠ none) ↔
      ∃ s l, srv = some s ∧ sc.GetLastLink = some l ∧ l.seqno = s.Seqno ∧ 0 ≤ s.Seqno ∧
        LinkId.Eq l.id s.LinkId = false ∧
        ¬ ∃ f, sc.GetFutureChainTail env now = some f ∧ l.seqno < f.Seqno) := by
  cases hl : sc.GetLastLink with
  | none =>
    rw [CheckFreshness_empty env now sc srv hl]
    cases srv with
    | none => simp
    | some s =>
      by_cases hb : s.Seqno < 0
      · simp [hb]
      · simp [hb]
  | some l =>
    rw [CheckFreshness_nonempty env now sc srv l hl]
    cases srv with
    | none => simp
    | some s =>
      by_cases hb : s.Seqno < 0 ∨ l.seqno > s.Seqno
      · have hx : ¬ (l.seqno = s.Seqno ∧ 0 ≤ s.Seqno) := by
          rintro ⟨h1, h2⟩
          rcases hb with hb | hb
          · linarith
          · rw [h1] at hb; exact lt_irrefl _ hb
        simp [hb]
        intro h1 h2
        exact absurd ⟨h1, h2⟩ hx
      · by_cases he : s.Seqno = l.seqno
        · have hb0 : ¬ l.seqno < 0 := by
            intro h; apply hb; left; rw [he]; exact h
          have hb1 : 0 ≤ l.seqno := not_lt.mp hb0
          by_cases hid : LinkId.Eq l.id s.LinkId = true
          · cases hf : sc.GetFutureChainTail env now with
            | none => simp [he, hid, hb0]
            | some f =>
              by_cases hlt : l.seqno < f.Seqno <;> simp [he, hid, hb0, hlt]
          · cases hf : sc.GetFutureChainTail env now with
            | none => simp [he, hid, hb0, hb1]
            | some f =>
              by_cases hlt : l.seqno < f.Seqno
              · simp [he, hid, hb0, hb1, hlt]
              · have hle : f.Seqno ≤ l.seqno := not_lt.mp hlt
                simp [he, hid, hb0, hb1, hlt, hle]
        · have he2 : ¬ l.seqno = s.Seqno := fun h => he h.symm
          simp [hb, he, he2]

/-- Witness of C1: local tail seqno 5, server triple seqno 3. -/
theorem CheckFreshness_rollback_witness :
    (∃ l, chain5.GetLastLink = some l ∧ (3 : Int) < l.seqno) ∧
    (chain5.CheckFreshness (testEnv []) 0
        (some { Seqno := 3, LinkId := some [3], SigId := some [3] })).1 = false ∧
    (chain5.CheckFreshness (testEnv []) 0
        (some { Seqno := 3, LinkId := some [3], SigId := some [3] })).2 ≠ none ∧
    ∃ a, (chain5.CheckFreshness (testEnv []) 0
        (some { Seqno := 3, LinkId := some [3], SigId := some [3] })).2 =
      some (KbError.ServerChainError (ServerChainMsg.rollback a 3)) :=
  ⟨⟨mkLink 5 5 (some [4]), by decide, by decide⟩,
   CheckFreshness_rollback (testEnv []) 0 chain5
     { Seqno := 3, LinkId := some [3], SigId := some [3] }
     (Or.inr ⟨mkLink 5 5 (some [4]), by decide, by decide⟩)⟩

/-- Witness of C4: the five-link chain against the server triple of its own
tail returns no error, and `current` is decided by the stated condition. -/
theorem CheckFreshness_current_iff_witness :
    (chain5.CheckFreshness (testEnv []) 0
        (some { Seqno := 5, LinkId := some [5], SigId := some [5] })).2 = none ∧
    (chain5.CheckFreshness (testEnv []) 0
        (some { Seqno := 5, LinkId := some [5], SigId := some [5] })).1 = true :=
  ⟨by decide,
   (CheckFreshness_current_iff (testEnv []) 0 chain5
      (some { Seqno := 5, LinkId := some [5], SigId := some [5] }) (by decide)).1.mpr
     ⟨{ Seqno := 5, LinkId := some [5], SigId := some [5] }, mkLink 5 5 (some [4]),
      rfl, by decide, by decide, by decide, Or.inl (by decide)⟩⟩

/-! ## VerifyChain -/

/-- One iteration of the loop of `VerifyChain` at index `i`, on a link not yet
flagged. -/
theorem VerifyChainLoop_succ (env : Env) (u : String) (uid : UID) (i : Nat)
    (links : List ChainLink) (curr : ChainLink)
    (hc : links[i]? = some curr) (hv : curr.chainVerified = false) :
    VerifyChainLoop env u uid (i + 1) links =
      match env.VerifyLinkCheck curr with
      | some err => (links, some err)
      | none =>
        if decide (0 < i) &&
            !(match links[i - 1]? with
              | some p => LinkId.Eq p.id curr.prev
              | none => true) then
          (links.set i { curr with hashVerified := true },
            some (KbError.ChainMismatch curr.seqno))
        else
          match env.CheckNameAndId { curr with hashVerified := true } u uid with
          | some err => (links.set i { curr with hashVerified := true }, some err)
          | none =>
            VerifyChainLoop env u uid i
              (links.set i { curr with hashVerified := true, chainVerified := true }) := by
  have hset : links.set i curr = links := by
    apply List.ext_getElem?
    intro j
    by_cases hj : i = j
    · subst hj
      rw [List.getElem?_set_self', hc]; rfl
    · rw [List.getElem?_set_ne hj]
  rw [VerifyChainLoop]
  simp only [hc, hv, ChainLink.VerifyLink]
  cases hvl : env.VerifyLinkCheck curr with
  | some err => simp [hset]
  | none =>
    simp only [Bool.false_eq_true, if_false]
    by_cases h0 : i = 0
    · subst h0
      simp only [List.set_set, lt_self_iff_false, decide_False, Bool.false_and,
        Bool.false_eq_true, if_false]
    · have hp : ∀ c : ChainLink, (links.set i c)[i - 1]? = links[i - 1]? := by
        intro c; apply List.getElem?_set_ne; omega
      simp only [hp, List.set_set]

/-- The loop stops at once on a flagged link. -/
theorem VerifyChainLoop_flagged (env : Env) (u : String) (uid : UID) (i : Nat)
    (links : List ChainLink) (curr : ChainLink)
    (hc : links[i]? = some curr) (hv : curr.chainVerified = true) :
    VerifyChainLoop env u uid (i + 1) links = (links, none) := by
  rw [VerifyChainLoop]
  simp only [hc, hv, if_true]

/-- Replacing a link by one with the same image under `f` keeps the images. -/
theorem map_set_same {β : Type} (f : ChainLink → β) (links : List ChainLink) (i : Nat)
    (curr c : ChainLink) (hc : links[i]? = some curr) (hfc : f c = f curr) :
    (links.set i c).map f = links.map f := by
  apply List.ext_getElem?
  intro j
  by_cases hj : i = j
  · subst hj
    rw [List.map_set, List.getElem?_set_self', List.getElem?_map, hc, hfc]; rfl
  · rw [List.map_set, List.getElem?_set_ne hj]

/-- The loop of `VerifyChain` only writes the two flags `hashVerified` and
`chainVerified`: every projection of the links that ignores them is kept. -/
theorem VerifyChainLoop_map {β : Type} (f : ChainLink → β)
    (hf : ∀ (c : ChainLink) (b1 b2 : Bool),
      f { c with hashVerified := b1, chainVerified := b2 } = f c)
    (env : Env) (u : String) (uid : UID) :
    ∀ (n : Nat) (links : List ChainLink),
      (VerifyChainLoop env u uid n links).1.map f = links.map f := by
  intro n
  induction n with
  | zero => intro links; rfl
  | succ i ih =>
    intro links
    cases hc : links[i]? with
    | none => rw [VerifyChainLoop]; simp only [hc]
    | some curr =>
      by_cases hv : curr.chainVerified = true
      · rw [VerifyChainLoop_flagged env u uid i links curr hc hv]
      · have hv2 : curr.chainVerified = false := by simpa using hv
        rw [VerifyChainLoop_succ env u uid i links curr hc hv2]
        have h1 : (links.set i { curr with hashVerified := true }).map f = links.map f :=
          map_set_same f links i curr _ hc (hf curr true curr.chainVerified)
        have h2 : (links.set i { curr with hashVerified := true, chainVerified := true }).map f
            = links.map f :=
          map_set_same f links i curr _ hc (hf curr true true)
        cases env.VerifyLinkCheck curr with
        | some err => rfl
        | none =>
          dsimp only
          split
          · exact h1
          · cases env.CheckNameAndId { curr with hashVerified := true } u uid with
            | some err => exact h1
            | none => dsimp only; rw [ih, h2]

/-- The loop of `VerifyChain` started at index `n - 1` leaves the links at
index `n` and above as they are. -/
theorem VerifyChainLoop_above (env : Env) (u : String) (uid : UID) :
    ∀ (n : Nat) (links : List ChainLink) (j : Nat), n ≤ j →
      (VerifyChainLoop env u uid n links).1[j]? = links[j]? := by
  intro n
  induction n with
  | zero => intro links j _; rfl
  | succ i ih =>
    intro links j hj
    cases hc : links[i]? with
    | none => rw [VerifyChainLoop]; simp only [hc]
    | some curr =>
      by_cases hv : curr.chainVerified = true
      · rw [VerifyChainLoop_flagged env u uid i links curr hc hv]
      · have hv2 : curr.chainVerified = false := by simpa using hv
        rw [VerifyChainLoop_succ env u uid i links curr hc hv2]
        have hne : i ≠ j := by omega
        cases env.VerifyLinkCheck curr with
        | some err => rfl
        | none =>
          dsimp only
          split
          · exact List.getElem?_set_ne hne
          · cases env.CheckNameAndId { curr with hashVerified := true } u uid with
            | some err => exact List.getElem?_set_ne hne
            | none =>
              dsimp only
              rw [ih _ j (by omega)]
              exact List.getElem?_set_ne hne

/-- A run of the loop of `VerifyChain` over unflagged links that returns no
error flags every link it visited, and has found every visited link with a
predecessor to point at it. -/
theorem VerifyChainLoop_ok (env : Env) (u : String) (uid : UID) :
    ∀ (n : Nat) (links : List ChainLink), n ≤ links.length →
      (∀ j l, j < n → links[j]? = some l → l.chainVerified = false) →
      (VerifyChainLoop env u uid n links).2 = none →
      (∀ j l, j < n → (VerifyChainLoop env u uid n links).1[j]? = some l →
          l.chainVerified = true) ∧
      (∀ j p l, 0 < j → j < n → links[j - 1]? = some p → links[j]? = some l →
          LinkId.Eq p.id l.prev = true) := by
  intro n
  induction n with
  | zero =>
    intro links _ _ _
    exact ⟨fun j l hj => absurd hj (Nat.not_lt_zero j),
      fun j p l _ hj => absurd hj (Nat.not_lt_zero j)⟩
  | succ i ih =>
    intro links hlen hun h
    have hi : i < links.length := hlen
    have hc : links[i]? = some links[i] := List.getElem?_eq_getElem hi
    have hv2 : links[i].chainVerified = false := hun i _ (Nat.lt_succ_self i) hc
    have hstep := VerifyChainLoop_succ env u uid i links links[i] hc hv2
    cases hvl : env.VerifyLinkCheck links[i] with
    | some err => rw [hstep, hvl] at h; cases h
    | none =>
      rw [hvl] at hstep
      dsimp only at hstep
      split at hstep
      next hm => rw [hstep] at h; cases h
      next hm =>
        cases hcn : env.CheckNameAndId { links[i] with hashVerified := true } u uid with
        | some err => rw [hcn] at hstep; rw [hstep] at h; cases h
        | none =>
          rw [hcn] at hstep
          dsimp only at hstep
          rw [hstep] at h ⊢
          have hun2 : ∀ j l, j < i →
              (links.set i { links[i] with hashVerified := true, chainVerified := true })[j]?
                = some l → l.chainVerified = false := by
            intro j l hj hjl
            rw [List.getElem?_set_ne (by omega)] at hjl
            exact hun j l (by omega) hjl
          obtain ⟨ihF, ihL⟩ := ih _ (by rw [List.length_set]; omega) hun2 h
          refine ⟨?_, ?_⟩
          · intro j l hj hjl
            by_cases hji : j < i
            · exact ihF j l hji hjl
            · have hje : j = i := by omega
              subst hje
              rw [VerifyChainLoop_above env u uid j _ j (le_refl j),
                List.getElem?_set_self hi] at hjl
              cases hjl
              rfl
          · intro j p l hj0 hj hp hl
            by_cases hji : j < i
            · apply ihL j p l hj0 hji
              · rw [List.getElem?_set_ne (by omega)]; exact hp
              · rw [List.getElem?_set_ne (by omega)]; exact hl
            · have hje : j = i := by omega
              subst hje
              rw [hc] at hl
              cases hl
              rw [hp] at hm
              simpa [hj0] using hm

/-- What the loop of `VerifyChain` returns at an index is the link that was
there, up to the two flags: id, prev and seqno are the same. -/
theorem VerifyChainLoop_getElem? (env : Env) (u : String) (uid : UID) (n : Nat)
    (links : List ChainLink) (j : Nat) (l : ChainLink)
    (h : (VerifyChainLoop env u uid n links).1[j]? = some l) :
    ∃ l0, links[j]? = some l0 ∧ l0.id = l.id ∧ l0.prev = l.prev ∧ l0.seqno = l.seqno := by
  have hm := VerifyChainLoop_map (fun c : ChainLink => (c.id, c.prev, c.seqno))
    (fun _ _ _ => rfl) env u uid n links
  have hj := congrArg (fun xs => xs[j]?) hm
  simp only [List.getElem?_map, h, Option.map_some'] at hj
  cases hl : links[j]? with
  | none => rw [hl] at hj; cases hj
  | some l0 =>
    rw [hl] at hj
    simp only [Option.map_some', Option.some.injEq, Prod.mk.injEq] at hj
    exact ⟨l0, rfl, hj.1.symm, hj.2.1.symm, hj.2.2.symm⟩

/-- The loop of `VerifyChain` keeps the number of links. -/
theorem VerifyChainLoop_length (env : Env) (u : String) (uid : UID) (n : Nat)
    (links : List ChainLink) :
    (VerifyChainLoop env u uid n links).1.length = links.length := by
  have hm := VerifyChainLoop_map (fun _ : ChainLink => ()) (fun _ _ _ => rfl) env u uid n links
  have := congrArg List.length hm
  simpa using this

/-- C6 (hash-chain linkage).  For a chain whose links all have
`chainVerified = false`: if `VerifyChain` returns no error, then in the chain
it leaves every link with a predecessor has `prev` equal to the predecessor's
id (`LinkId.Eq`), every link has `chainVerified = true`, and the links are as
many as before; and if some adjacent pair of the chain violates the equality,
`VerifyChain` returns an error. -/
theorem VerifyChain_linkage (env : Env) (sc : SigChain)
    (hun : ∀ l ∈ sc.chainLinks, l.chainVerified = false) :
    ((sc.VerifyChain env).2 = none →
      (∀ i p l, 0 < i → (sc.VerifyChain env).1.chainLinks[i - 1]? = some p →
          (sc.VerifyChain env).1.chainLinks[i]? = some l →
          LinkId.Eq p.id l.prev = true ∧ l.prev = p.id) ∧
      (∀ l ∈ (sc.VerifyChain env).1.chainLinks, l.chainVerified = true) ∧
      (sc.VerifyChain env).1.chainLinks.length = sc.chainLinks.length) ∧
    ((∃ i p l, 0 < i ∧ sc.chainLinks[i - 1]? = some p ∧ sc.chainLinks[i]? = some l ∧
        LinkId.Eq p.id l.prev = false) → (sc.VerifyChain env).2 ≠ none) := by
  have hun2 : ∀ j l, j < sc.chainLinks.length → sc.chainLinks[j]? = some l →
      l.chainVerified = false := by
    intro j l _ hjl
    exact hun l (List.mem_iff_getElem?.mpr ⟨j, hjl⟩)
  have hlen : (sc.VerifyChain env).1.chainLinks.length = sc.chainLinks.length :=
    VerifyChainLoop_length env sc.username sc.uid sc.chainLinks.length sc.chainLinks
  constructor
  · intro h
    obtain ⟨hF, hL⟩ := VerifyChainLoop_ok env sc.username sc.uid sc.chainLinks.length
      sc.chainLinks (le_refl _) hun2 h
    refine ⟨?_, ?_, hlen⟩
    · intro i p l hi hp hl
      obtain ⟨p0, hp0, hpid, _, _⟩ :=
        VerifyChainLoop_getElem? env sc.username sc.uid _ _ _ _ hp
      obtain ⟨l0, hl0, _, hlprev, _⟩ :=
        VerifyChainLoop_getElem? env sc.username sc.uid _ _ _ _ hl
      have hil : i < sc.chainLinks.length := by
        by_contra hge
        rw [List.getElem?_eq_none (by omega)] at hl0
        cases hl0
      have := hL i p0 l0 hi hil hp0 hl0
      rw [hpid, hlprev] at this
      refine ⟨this, ?_⟩
      unfold LinkId.Eq at this
      exact (of_decide_eq_true this).symm
    · intro l hmem
      obtain ⟨j, hj⟩ := List.mem_iff_getElem?.mp hmem
      have hjl : j < sc.chainLinks.length := by
        by_contra hge
        have hnone : (sc.VerifyChain env).1.chainLinks[j]? = none :=
          List.getElem?_eq_none (by rw [hlen]; omega)
        rw [hnone] at hj
        cases hj
      exact hF j l hjl hj
  · rintro ⟨i, p, l, hi, hp, hl, hne⟩ h
    obtain ⟨_, hL⟩ := VerifyChainLoop_ok env sc.username sc.uid sc.chainLinks.length
      sc.chainLinks (le_refl _) hun2 h
    have hil : i < sc.chainLinks.length := by
      by_contra hge
      rw [List.getElem?_eq_none (by omega)] at hl
      cases hl
    have := hL i p l hi hil hp hl
    rw [hne] at this
    cases this

/-- Witness of C6: the five-link chain, correctly linked and unflagged, is
accepted by `VerifyChain` with every link flagged. -/
theorem VerifyChain_linkage_witness :
    (∀ l ∈ chain5.chainLinks, l.chainVerified = false) ∧
    (chain5.VerifyChain (testEnv [])).2 = none ∧
    (∀ l ∈ (chain5.VerifyChain (testEnv [])).1.chainLinks, l.chainVerified = true) ∧
    ((brokenChain3.VerifyChain (testEnv [])).2 ≠ none) :=
  ⟨by decide, by decide,
   ((VerifyChain_linkage (testEnv []) chain5 (by decide)).1 (by decide)).2.1,
   (VerifyChain_linkage (testEnv []) brokenChain3 (by decide)).2
     ⟨1, mkLink 1 1 none, mkLink 2 2 (some [9]), by decide, by decide, by decide, by decide⟩⟩

/-- C5 fails on the code.  On the three-link chain whose middle link does not
point at the first one, all links unflagged and every per-link check
passing, `VerifyChain` returns the chain-mismatch error for seqno 2 and yet
leaves the last link flagged `chainVerified`, above the broken middle link;
a second `VerifyChain` on the chain so left stops at that flag and returns no
error. -/
theorem VerifyChain_flags_left_after_error :
    (∀ l ∈ brokenChain3.chainLinks, l.chainVerified = false) ∧
    (brokenChain3.VerifyChain (testEnv [])).2 = some (KbError.ChainMismatch 2) ∧
    (brokenChain3.VerifyChain (testEnv [])).1.chainLinks.map ChainLink.chainVerified
      = [false, false, true] ∧
    (((brokenChain3.VerifyChain (testEnv [])).1).VerifyChain (testEnv [])).2 = none := by
  decide

/-! ## LoadFromServer -/

theorem last_append_cons (xs : List ChainLink) (y : ChainLink) (ys : List ChainLink) :
    last (xs ++ y :: ys) = last (y :: ys) := by
  rw [last_eq_getLast?, last_eq_getLast?, List.getLast?_append]
  rw [List.getLast?_eq_getLast (y :: ys) (List.cons_ne_nil y ys)]
  rfl

theorem last_toList (tail : Option ChainLink) : last tail.toList = tail := by
  cases tail <;> rfl

/-- What the loop of `LoadFromServer` returns when no `return` is taken inside
it: every entry was imported, `links` has received the imported links with a
seqno above `low`, in order, and `tail` is the last of them (the old `tail`
when there is none). -/
theorem LoadFromServerLoop_ok (env : Env) (sc : SigChain) (low : Seqno)
    (t : Option MerkleTriple) :
    ∀ (v : List JsonWrapper) (links : List ChainLink) (tail : Option ChainLink) (found : Bool)
      (r : List ChainLink × Option ChainLink × Bool),
      LoadFromServerLoop env sc low t v links tail found = Except.ok r →
      ∃ imported,
        List.Forall₂ (fun raw l => env.ImportLinkFromServer sc raw = Except.ok l) v imported ∧
        r.1 = links ++ imported.filter (fun l => decide (low < l.seqno)) ∧
        r.2.1 = last (tail.toList ++ imported.filter (fun l => decide (low < l.seqno))) := by
  intro v
  induction v with
  | nil =>
    intro links tail found r h
    rw [LoadFromServerLoop] at h
    cases h
    exact ⟨[], List.Forall₂.nil, by simp, by simp [last_toList]⟩
  | cons raw rest ih =>
    intro links tail found r h
    rw [LoadFromServerLoop] at h
    cases himp : env.ImportLinkFromServer sc raw with
    | error e => rw [himp] at h; cases h
    | ok link =>
      rw [himp] at h
      dsimp only at h
      by_cases hlow : link.seqno ≤ low
      · rw [if_pos hlow] at h
        obtain ⟨imported, hF, h1, h2⟩ := ih links tail found r h
        have hnot : ¬ low < link.seqno := not_lt.mpr hlow
        exact ⟨link :: imported, List.Forall₂.cons himp hF,
          by simp [List.filter_cons, hnot, h1], by simp [List.filter_cons, hnot, h2]⟩
      · rw [if_neg hlow] at h
        have hgt : low < link.seqno := not_le.mp hlow
        have key : ∀ f, LoadFromServerLoop env sc low t rest (links ++ [link]) (some link) f
            = Except.ok r →
            ∃ imported,
              List.Forall₂ (fun raw l => env.ImportLinkFromServer sc raw = Except.ok l)
                (raw :: rest) imported ∧
              r.1 = links ++ imported.filter (fun l => decide (low < l.seqno)) ∧
              r.2.1 = last (tail.toList ++ imported.filter (fun l => decide (low < l.seqno))) := by
          intro f hf
          obtain ⟨imported, hF, h1, h2⟩ := ih _ _ _ r hf
          refine ⟨link :: imported, List.Forall₂.cons himp hF, ?_, ?_⟩
          · simp [List.filter_cons, hgt, h1]
          · rw [h2]
            simp only [List.filter_cons, hgt, decide_True, if_true, Option.toList]
            rw [last_append_cons]
            rfl
        cases t with
        | none => exact key _ h
        | some tt =>
          dsimp only at h
          by_cases hfound : found = true
          · rw [if_pos hfound] at h
            exact key _ h
          · rw [if_neg hfound] at h
            cases hchk : env.checkAgainstMerkleTree link tt with
            | mk f e =>
              rw [hchk] at h
              cases e with
              | some err => cases h
              | none => exact key _ h

/-- A `LoadFromServer` that returns no error has fetched the reply, imported
every entry of it, and ended in `LoadFromServerFinish` on the imported links
with a seqno above the last loaded seqno. -/
theorem LoadFromServer_ok (env : Env) (sc : SigChain) (t : Option MerkleTriple)
    (h : (sc.LoadFromServer env t).2.2 = none) :
    ∃ res v imported found,
      env.API_Get sc.uid sc.GetLastLoadedSeqno = Except.ok res ∧
      res.sigs = Except.ok v ∧
      List.Forall₂ (fun raw l => env.ImportLinkFromServer sc raw = Except.ok l) v imported ∧
      sc.LoadFromServer env t =
        LoadFromServerFinish sc t
          (imported.filter (fun l => decide (sc.GetLastLoadedSeqno < l.seqno)))
          (last (imported.filter (fun l => decide (sc.GetLastLoadedSeqno < l.seqno)))) found := by
  cases hapi : env.API_Get sc.uid sc.GetLastLoadedSeqno with
  | error e => simp [SigChain.LoadFromServer, hapi] at h
  | ok res =>
    cases hsigs : res.sigs with
    | error e => simp [SigChain.LoadFromServer, hapi, hsigs] at h
    | ok v =>
      cases hloop : LoadFromServerLoop env sc sc.GetLastLoadedSeqno t v [] none false with
      | error e => simp [SigChain.LoadFromServer, hapi, hsigs, hloop] at h
      | ok r =>
        obtain ⟨imported, hF, h1, h2⟩ := LoadFromServerLoop_ok env sc _ t v [] none false r hloop
        obtain ⟨links, tail, found⟩ := r
        simp only [List.nil_append, Option.toList] at h1 h2
        subst h1
        subst h2
        refine ⟨res, v, imported, found, rfl, hsigs, hF, ?_⟩
        simp only [SigChain.LoadFromServer, hapi, hsigs, hloop]

/-- What `LoadFromServerFinish` leaves when it returns no error. -/
theorem LoadFromServerFinish_ok (sc : SigChain) (t : Option MerkleTriple)
    (links : List ChainLink) (tail : Option ChainLink) (found : Bool)
    (h : (LoadFromServerFinish sc t links tail found).2.2 = none) :
    (LoadFromServerFinish sc t links tail found).1.chainLinks = sc.chainLinks ++ links ∧
    (LoadFromServerFinish sc t links tail found).2.1 = tail.map ChainLink.ToMerkleTriple ∧
    (tail = none →
      (LoadFromServerFinish sc t links tail found).1.localChainTail = sc.localChainTail ∧
      (LoadFromServerFinish sc t links tail found).1.localCki = sc.localCki) ∧
    (∀ tl, tail = some tl →
      ((∃ lt, sc.localChainTail = some lt ∧ lt.Seqno < tl.seqno) →
        (LoadFromServerFinish sc t links tail found).1.localChainTail = none ∧
        (LoadFromServerFinish sc t links tail found).1.localCki = none) ∧
      ((¬ ∃ lt, sc.localChainTail = some lt ∧ lt.Seqno < tl.seqno) →
        (LoadFromServerFinish sc t links tail found).1.localChainTail = sc.localChainTail ∧
        (LoadFromServerFinish sc t links tail found).1.localCki = sc.localCki)) := by
  have hbranch : t = none ∨ found = true := by
    cases t with
    | none => exact Or.inl rfl
    | some tt =>
      cases found with
      | true => exact Or.inr rfl
      | false => simp [LoadFromServerFinish] at h
  have hfin : ∀ tl, LoadFromServerFinish sc t links (some tl) found =
      if (match sc.localChainTail with
          | some lt => lt.Less tl.ToMerkleTriple
          | none => false) = true then
        ({ sc with localChainTail := none, localCki := none,
                   chainLinks := sc.chainLinks ++ links }, some tl.ToMerkleTriple, none)
      else
        ({ sc with chainLinks := sc.chainLinks ++ links }, some tl.ToMerkleTriple, none) := by
    intro tl
    rcases hbranch with hb | hb <;> subst hb
    · rfl
    · cases t <;> rfl
  have hnone : LoadFromServerFinish sc t links none found =
      ({ sc with chainLinks := sc.chainLinks ++ links }, none, none) := by
    rcases hbranch with hb | hb <;> subst hb
    · rfl
    · cases t <;> rfl
  cases tail with
  | none => rw [hnone]; simp
  | some tl =>
    rw [hfin tl]
    cases hlt : sc.localChainTail with
    | none => simp
    | some lt =>
      by_cases hless : lt.Seqno < tl.seqno
      · simp [MerkleTriple.Less, ChainLink.ToMerkleTriple, hless]
      · have hle : tl.seqno ≤ lt.Seqno := not_lt.mp hless
        simp [MerkleTriple.Less, ChainLink.ToMerkleTriple, hless, hlt, hle]

/-- The loop of `LoadFromServer` on a reply whose entries all import and whose
links above `low` are all reported as no match by `checkAgainstMerkleTree`:
it runs to the end with `found_tail` still false. -/
theorem LoadFromServerLoop_miss (env : Env) (sc : SigChain) (low : Seqno) (tt : MerkleTriple) :
    ∀ (v : List JsonWrapper) (imported links : List ChainLink) (tail : Option ChainLink),
      List.Forall₂ (fun raw l => env.ImportLinkFromServer sc raw = Except.ok l) v imported →
      (∀ l ∈ imported, low < l.seqno → env.checkAgainstMerkleTree l tt = (false, none)) →
      ∃ links1 tail1,
        LoadFromServerLoop env sc low (some tt) v links tail false
          = Except.ok (links1, tail1, false) := by
  intro v
  induction v with
  | nil =>
    intro imported links tail _ _
    exact ⟨links, tail, by rw [LoadFromServerLoop]⟩
  | cons raw rest ih =>
    intro imported links tail hF hmiss
    cases hF with
    | cons himp hrest =>
      rename_i link imported1
      have hmiss1 : ∀ l ∈ imported1, low < l.seqno →
          env.checkAgainstMerkleTree l tt = (false, none) :=
        fun l hl => hmiss l (List.mem_cons_of_mem _ hl)
      rw [LoadFromServerLoop, himp]
      dsimp only
      by_cases hlow : link.seqno ≤ low
      · rw [if_pos hlow]
        exact ih imported1 links tail hrest hmiss1
      · rw [if_neg hlow]
        have hchk := hmiss link (List.mem_cons_self _ _) (not_le.mp hlow)
        simp only [Bool.false_eq_true, if_false, hchk]
        exact ih imported1 _ _ hrest hmiss1

/-- Every `return` of `LoadFromServer` with an error leaves the chain as it
was and `dirtyTail` nil. -/
theorem LoadFromServer_error_frame (env : Env) (sc : SigChain) (t : Option MerkleTriple)
    (e : KbError) (h : (sc.LoadFromServer env t).2.2 = some e) :
    (sc.LoadFromServer env t).1 = sc ∧ (sc.LoadFromServer env t).2.1 = none := by
  cases hapi : env.API_Get sc.uid sc.GetLastLoadedSeqno with
  | error e => simp [SigChain.LoadFromServer, hapi]
  | ok res =>
    cases hsigs : res.sigs with
    | error e => simp [SigChain.LoadFromServer, hapi, hsigs]
    | ok v =>
      cases hloop : LoadFromServerLoop env sc sc.GetLastLoadedSeqno t v [] none false with
      | error e => simp [SigChain.LoadFromServer, hapi, hsigs, hloop]
      | ok r =>
        obtain ⟨links, tail, found⟩ := r
        have heq : sc.LoadFromServer env t = LoadFromServerFinish sc t links tail found := by
          simp only [SigChain.LoadFromServer, hapi, hsigs, hloop]
        rw [heq] at h ⊢
        cases t with
        | none =>
          cases tail with
          | none => simp [LoadFromServerFinish] at h
          | some tl =>
            simp only [LoadFromServerFinish] at h
            split at h <;> cases h
        | some tt =>
          cases found with
          | false => simp [LoadFromServerFinish]
          | true =>
            cases tail with
            | none => simp [LoadFromServerFinish] at h
            | some tl =>
              simp only [LoadFromServerFinish] at h
              split at h <;> cases h

/-- C8 (Merkle miss).  For every chain and non-null Merkle triple `tt`: when
the server reply is fetched, every entry of it imports, and
`checkAgainstMerkleTree` reports no match on each imported link with
`seqno > low` (`low` the last loaded seqno), `LoadFromServer` returns the
"Failed to reach" server-chain error with a nil `dirtyTail` and the chain,
`chainLinks`, `localChainTail` and `localCki` included, exactly as before.
Moreover whatever error `LoadFromServer` returns, for any triple, the chain is
as before and `dirtyTail` is nil. -/
theorem LoadFromServer_merkle_miss (env : Env) (sc : SigChain) (tt : MerkleTriple)
    (res : ApiRes) (v : List JsonWrapper) (imported : List ChainLink)
    (hapi : env.API_Get sc.uid sc.GetLastLoadedSeqno = Except.ok res)
    (hsigs : res.sigs = Except.ok v)
    (himp : List.Forall₂ (fun raw l => env.ImportLinkFromServer sc raw = Except.ok l) v imported)
    (hmiss : ∀ l ∈ imported, sc.GetLastLoadedSeqno < l.seqno →
      env.checkAgainstMerkleTree l tt = (false, none)) :
    sc.LoadFromServer env (some tt) =
      (sc, none,
        some (KbError.ServerChainError (ServerChainMsg.failedToReach tt.LinkId tt.Seqno))) ∧
    (sc.LoadFromServer env (some tt)).1.chainLinks = sc.chainLinks ∧
    (sc.LoadFromServer env (some tt)).1.localChainTail = sc.localChainTail ∧
    (sc.LoadFromServer env (some tt)).1.localCki = sc.localCki ∧
    (∀ t e, (sc.LoadFromServer env t).2.2 = some e →
      (sc.LoadFromServer env t).1 = sc ∧ (sc.LoadFromServer env t).2.1 = none) := by
  obtain ⟨links1, tail1, hloop⟩ :=
    LoadFromServerLoop_miss env sc sc.GetLastLoadedSeqno tt v imported [] none himp hmiss
  have heq : sc.LoadFromServer env (some tt) =
      (sc, none,
        some (KbError.ServerChainError (ServerChainMsg.failedToReach tt.LinkId tt.Seqno))) := by
    simp only [SigChain.LoadFromServer, hapi, hsigs, hloop, LoadFromServerFinish]
  refine ⟨heq, ?_, ?_, ?_, fun t e h => LoadFromServer_error_frame env sc t e h⟩ <;> rw [heq]

/-- Witness of C8: the two-link chain, a reply with the three new links of
seqno 3, 4 and 5, and a Merkle triple (seqno 9) that none of them matches. -/
theorem LoadFromServer_merkle_miss_witness :
    chain2.LoadFromServer (testEnv reply345)
        (some { Seqno := 9, LinkId := some [9], SigId := none }) =
      (chain2, none,
        some (KbError.ServerChainError (ServerChainMsg.failedToReach (some [9]) 9))) :=
  (LoadFromServer_merkle_miss (testEnv reply345) chain2
    { Seqno := 9, LinkId := some [9], SigId := none }
    { sigs := Except.ok reply345 } reply345
    [mkLink 3 3 (some [2]), mkLink 4 4 (some [3]), mkLink 5 5 (some [4])]
    rfl rfl
    (List.Forall₂.cons rfl (List.Forall₂.cons rfl (List.Forall₂.cons rfl List.Forall₂.nil)))
    (by decide)).1

/-- C9 (append-only load).  Whenever `LoadFromServer` returns no error, the
reply was fetched and every entry imported; the new `chainLinks` is the old
`chainLinks` followed by exactly the imported links with seqno greater than
`low` (the last loaded seqno before the call), in reply order; so the old
links are a prefix, every appended link has `low < seqno`, and `dirtyTail` is
the Merkle triple of the last appended link, nil when none was appended. -/
theorem LoadFromServer_append (env : Env) (sc : SigChain) (t : Option MerkleTriple)
    (h : (sc.LoadFromServer env t).2.2 = none) :
    ∃ res v imported,
      env.API_Get sc.uid sc.GetLastLoadedSeqno = Except.ok res ∧
      res.sigs = Except.ok v ∧
      List.Forall₂ (fun raw l => env.ImportLinkFromServer sc raw = Except.ok l) v imported ∧
      (sc.LoadFromServer env t).1.chainLinks =
        sc.chainLinks ++ imported.filter (fun l => decide (sc.GetLastLoadedSeqno < l.seqno)) ∧
      sc.chainLinks <+: (sc.LoadFromServer env t).1.chainLinks ∧
      (∀ l ∈ imported.filter (fun l => decide (sc.GetLastLoadedSeqno < l.seqno)),
        ¬ l.seqno ≤ sc.GetLastLoadedSeqno) ∧
      (sc.LoadFromServer env t).2.1 =
        (last (imported.filter (fun l => decide (sc.GetLastLoadedSeqno < l.seqno)))).map
          ChainLink.ToMerkleTriple := by
  obtain ⟨res, v, imported, found, hapi, hsigs, hF, heq⟩ := LoadFromServer_ok env sc t h
  rw [heq] at h
  obtain ⟨h1, h2, _, _⟩ := LoadFromServerFinish_ok sc t _ _ found h
  refine ⟨res, v, imported, hapi, hsigs, hF, ?_, ?_, ?_, ?_⟩
  · rw [heq]; exact h1
  · rw [heq, h1]; exact List.prefix_append _ _
  · intro l hl
    have := (List.mem_filter.mp hl).2
    exact not_le.mpr (of_decide_eq_true this)
  · rw [heq]; exact h2

/-- Witness of C9: the two-link chain and a reply that repeats the link of
seqno 2 and brings those of seqno 3 and 4; the Merkle triple is that of the
link of seqno 4.  The load succeeds, appends the links 3 and 4 only and
returns the triple of link 4. -/
theorem LoadFromServer_append_witness :
    (chain2.LoadFromServer (testEnv reply234)
        (some { Seqno := 4, LinkId := some [4], SigId := some [4] })).2.2 = none ∧
    (chain2.LoadFromServer (testEnv reply234)
        (some { Seqno := 4, LinkId := some [4], SigId := some [4] })).1.chainLinks
      = chain2.chainLinks ++ [mkLink 3 3 (some [2]), mkLink 4 4 (some [3])] ∧
    (chain2.LoadFromServer (testEnv reply234)
        (some { Seqno := 4, LinkId := some [4], SigId := some [4] })).2.1
      = some { Seqno := 4, LinkId := some [4], SigId := some [4] } ∧
    ∃ res v imported,
      (testEnv reply234).API_Get chain2.uid chain2.GetLastLoadedSeqno = Except.ok res ∧
      res.sigs = Except.ok v ∧
      List.Forall₂ (fun raw l => (testEnv reply234).ImportLinkFromServer chain2 raw = Except.ok l)
        v imported ∧
      (chain2.LoadFromServer (testEnv reply234)
          (some { Seqno := 4, LinkId := some [4], SigId := some [4] })).1.chainLinks =
        chain2.chainLinks ++
          imported.filter (fun l => decide (chain2.GetLastLoadedSeqno < l.seqno)) ∧
      chain2.chainLinks <+: (chain2.LoadFromServer (testEnv reply234)
          (some { Seqno := 4, LinkId := some [4], SigId := some [4] })).1.chainLinks ∧
      (∀ l ∈ imported.filter (fun l => decide (chain2.GetLastLoadedSeqno < l.seqno)),
        ¬ l.seqno ≤ chain2.GetLastLoadedSeqno) ∧
      (chain2.LoadFromServer (testEnv reply234)
          (some { Seqno := 4, LinkId := some [4], SigId := some [4] })).2.1 =
        (last (imported.filter (fun l => decide (chain2.GetLastLoadedSeqno < l.seqno)))).map
          ChainLink.ToMerkleTriple :=
  ⟨by decide, by decide, by decide,
   LoadFromServer_append (testEnv reply234) chain2
     (some { Seqno := 4, LinkId := some [4], SigId := some [4] }) (by decide)⟩

/-- C10 (overlay discard).  After a `LoadFromServer` that returns no error:
if it appended at least one link, the chain has a last link `tl` (the newly
loaded tail, whose triple is `dirtyTail`), and the overlay (`localChainTail`
and `localCki`) is cleared when `localChainTail` was non-null with a seqno
strictly less than that of `tl`, and is unchanged otherwise (overlay tail
absent, or its seqno greater than or equal to that of `tl`); if it appended
nothing, `localChainTail` and `localCki` are unchanged. -/
theorem LoadFromServer_overlay (env : Env) (sc : SigChain) (t : Option MerkleTriple)
    (h : (sc.LoadFromServer env t).2.2 = none) :
    (sc.chainLinks.length < (sc.LoadFromServer env t).1.chainLinks.length →
      ∃ tl, (sc.LoadFromServer env t).1.GetLastLink = some tl ∧
        (sc.LoadFromServer env t).2.1 = some tl.ToMerkleTriple ∧
        ((∃ lt, sc.localChainTail = some lt ∧ lt.Seqno < tl.seqno) →
          (sc.LoadFromServer env t).1.localChainTail = none ∧
          (sc.LoadFromServer env t).1.localCki = none) ∧
        ((¬ ∃ lt, sc.localChainTail = some lt ∧ lt.Seqno < tl.seqno) →
          (sc.LoadFromServer env t).1.localChainTail = sc.localChainTail ∧
          (sc.LoadFromServer env t).1.localCki = sc.localCki)) ∧
    ((sc.LoadFromServer env t).1.chainLinks.length = sc.chainLinks.length →
      (sc.LoadFromServer env t).1.localChainTail = sc.localChainTail ∧
      (sc.LoadFromServer env t).1.localCki = sc.localCki) := by
  obtain ⟨res, v, imported, found, hapi, hsigs, hF, heq⟩ := LoadFromServer_ok env sc t h
  rw [heq] at h
  obtain ⟨h1, h2, h3, h4⟩ := LoadFromServerFinish_ok sc t _ _ found h
  rw [heq]
  generalize imported.filter (fun l => decide (sc.GetLastLoadedSeqno < l.seqno)) = app
    at h h1 h2 h3 h4 ⊢
  constructor
  · intro hlen
    rw [h1, List.length_append] at hlen
    have hne : app ≠ [] := by
      intro hnil; rw [hnil] at hlen; simp at hlen
    have hsome : ∃ tl, last app = some tl := by
      cases hl : last app with
      | none => exact absurd ((last_eq_none_iff app).mp hl) hne
      | some tl => exact ⟨tl, rfl⟩
    obtain ⟨tl, hlast⟩ := hsome
    have hlast2 : last (sc.chainLinks ++ app) = some tl := by
      obtain ⟨y, ys, rfl⟩ := List.exists_cons_of_ne_nil hne
      rw [last_append_cons]; exact hlast
    refine ⟨tl, ?_, ?_, ?_⟩
    · unfold SigChain.GetLastLink; rw [h1]; exact hlast2
    · rw [h2, hlast]; rfl
    · exact h4 tl hlast
  · intro hlen
    rw [h1, List.length_append] at hlen
    have hnil : app = [] := List.eq_nil_of_length_eq_zero (by omega)
    subst hnil
    exact h3 rfl

/-- Witness of C10: the two-link chain with a local tail of seqno 3 and a
local CKI loads the links of seqno 3 and 4; the new tail has seqno 4, above
the overlay's, and the overlay is cleared. -/
theorem LoadFromServer_overlay_witness :
    overlayChain2.localChainTail ≠ none ∧ overlayChain2.localCki ≠ none ∧
    (overlayChain2.LoadFromServer (testEnv reply234)
        (some { Seqno := 4, LinkId := some [4], SigId := some [4] })).2.2 = none ∧
    ∃ tl, (overlayChain2.LoadFromServer (testEnv reply234)
        (some { Seqno := 4, LinkId := some [4], SigId := some [4] })).1.GetLastLink = some tl ∧
      tl.seqno = 4 ∧
      (overlayChain2.LoadFromServer (testEnv reply234)
        (some { Seqno := 4, LinkId := some [4], SigId := some [4] })).1.localChainTail = none ∧
      (overlayChain2.LoadFromServer (testEnv reply234)
        (some { Seqno := 4, LinkId := some [4], SigId := some [4] })).1.localCki = none := by
  refine ⟨by decide, by decide, by decide, ?_⟩
  obtain ⟨tl, h1, _, h3, _⟩ :=
    (LoadFromServer_overlay (testEnv reply234) overlayChain2
      (some { Seqno := 4, LinkId := some [4], SigId := some [4] }) (by decide)).1 (by decide)
  have htl : tl = mkLink 4 4 (some [3]) := by
    have h0 : (overlayChain2.LoadFromServer (testEnv reply234)
        (some { Seqno := 4, LinkId := some [4], SigId := some [4] })).1.GetLastLink
          = some (mkLink 4 4 (some [3])) := by decide
    rw [h0] at h1
    exact (Option.some.inj h1).symm
  subst htl
  exact ⟨_, h1, by decide, h3 ⟨_, rfl, by decide⟩⟩

/-! ## Seqnos along a loaded chain -/

/-- C7, as stated, fails: starting from the empty chain, a server reply with a
link of seqno 1 and a link of seqno 3 pointing at it is loaded without error
by `LoadFromServer` (the Merkle triple is that of the second link), the loaded
links are all unverified, `VerifyChain` then succeeds on them, and the two
links of the resulting chain have seqnos 1 and 3, not consecutive. -/
theorem VerifyChain_accepts_seqno_gap :
    ((mkChain []).LoadFromServer (testEnv reply13)
        (some { Seqno := 3, LinkId := some [3], SigId := some [3] })).2.2 = none ∧
    (∀ l ∈ ((mkChain []).LoadFromServer (testEnv reply13)
        (some { Seqno := 3, LinkId := some [3], SigId := some [3] })).1.chainLinks,
      l.chainVerified = false) ∧
    ((((mkChain []).LoadFromServer (testEnv reply13)
        (some { Seqno := 3, LinkId := some [3], SigId := some [3] })).1).VerifyChain
          (testEnv reply13)).2 = none ∧
    ((((mkChain []).LoadFromServer (testEnv reply13)
        (some { Seqno := 3, LinkId := some [3], SigId := some [3] })).1).VerifyChain
          (testEnv reply13)).1.chainLinks.map ChainLink.seqno = [1, 3] ∧
    ¬ (∀ i p l, 0 < i →
        ((((mkChain []).LoadFromServer (testEnv reply13)
          (some { Seqno := 3, LinkId := some [3], SigId := some [3] })).1).VerifyChain
            (testEnv reply13)).1.chainLinks[i - 1]? = some p →
        ((((mkChain []).LoadFromServer (testEnv reply13)
          (some { Seqno := 3, LinkId := some [3], SigId := some [3] })).1).VerifyChain
            (testEnv reply13)).1.chainLinks[i]? = some l →
        l.seqno = p.seqno + 1) := by
  refine ⟨by decide, by decide, by decide, by decide, ?_⟩
  intro hall
  have h := hall 1
    { mkLink 1 1 none with hashVerified := true, chainVerified := true }
    { mkLink 3 3 (some [1]) with hashVerified := true, chainVerified := true }
    (by decide) (by decide) (by decide)
  revert h
  decide

/-- C7, amended.  `LoadFromServer` and `VerifyChain` do not compare the seqnos
of adjacent links.  What holds after a `LoadFromServer` that returns no
error, and after a `VerifyChain` on the chain it leaves: every link at an
index past the previously loaded links has a seqno strictly greater than the
last loaded seqno before the call (`0` for an empty chain), and therefore the
first appended link has a seqno strictly greater than that of the link before
it. -/
theorem LoadFromServer_seqno_above_low (env : Env) (sc : SigChain) (t : Option MerkleTriple)
    (h : (sc.LoadFromServer env t).2.2 = none) :
    (∀ i l, sc.chainLinks.length ≤ i →
      (((sc.LoadFromServer env t).1).VerifyChain env).1.chainLinks[i]? = some l →
      sc.GetLastLoadedSeqno < l.seqno) ∧
    (∀ p l, 0 < sc.chainLinks.length →
      (((sc.LoadFromServer env t).1).VerifyChain env).1.chainLinks[sc.chainLinks.length - 1]?
        = some p →
      (((sc.LoadFromServer env t).1).VerifyChain env).1.chainLinks[sc.chainLinks.length]?
        = some l →
      p.seqno < l.seqno) := by
  obtain ⟨res, v, imported, found, _, _, _, heq⟩ := LoadFromServer_ok env sc t h
  rw [heq] at h
  obtain ⟨h1, _, _, _⟩ := LoadFromServerFinish_ok sc t _ _ found h
  rw [← heq] at h1
  have habove : ∀ i l, sc.chainLinks.length ≤ i →
      (((sc.LoadFromServer env t).1).VerifyChain env).1.chainLinks[i]? = some l →
      sc.GetLastLoadedSeqno < l.seqno := by
    intro i l hi hl
    obtain ⟨l0, hl0, _, _, hseq⟩ := VerifyChainLoop_getElem? env _ _ _ _ _ _ hl
    rw [h1, List.getElem?_append_right hi] at hl0
    have hmem := List.getElem?_mem hl0
    have := (List.mem_filter.mp hmem).2
    rw [← hseq]
    exact of_decide_eq_true this
  refine ⟨habove, ?_⟩
  intro p l hpos hp hl
  have hl2 := habove _ l (le_refl _) hl
  obtain ⟨p0, hp0, _, _, hseq⟩ := VerifyChainLoop_getElem? env _ _ _ _ _ _ hp
  rw [h1, List.getElem?_append_left (by omega)] at hp0
  have hlast : last sc.chainLinks = some p0 := by
    unfold last
    rw [if_neg (by omega)]
    exact hp0
  have hlow : sc.GetLastLoadedSeqno = p0.seqno := by
    unfold SigChain.GetLastLoadedSeqno
    rw [hlast]
  rw [← hseq, ← hlow]
  exact hl2

/-- Witness of the amended C7: the two-link chain loading the links of seqno 3
and 4; the link appended first has seqno 3, above the old tail's 2. -/
theorem LoadFromServer_seqno_above_low_witness :
    (chain2.LoadFromServer (testEnv reply234)
        (some { Seqno := 4, LinkId := some [4], SigId := some [4] })).2.2 = none ∧
    (∀ p l, 0 < chain2.chainLinks.length →
      (((chain2.LoadFromServer (testEnv reply234)
        (some { Seqno := 4, LinkId := some [4], SigId := some [4] })).1).VerifyChain
          (testEnv reply234)).1.chainLinks[chain2.chainLinks.length - 1]? = some p →
      (((chain2.LoadFromServer (testEnv reply234)
        (some { Seqno := 4, LinkId := some [4], SigId := some [4] })).1).VerifyChain
          (testEnv reply234)).1.chainLinks[chain2.chainLinks.length]? = some l →
      p.seqno < l.seqno) :=
  ⟨by decide,
   (LoadFromServer_seqno_above_low (testEnv reply234) chain2
     (some { Seqno := 4, LinkId := some [4], SigId := some [4] }) (by decide)).2⟩

/-! ## Suffixes of matching links -/

/-- Every link of `links.drop k` satisfies `p` when all links at the indices
from `k` on do. -/
theorem drop_all_of_getElem? (p : ChainLink → Bool) (links : List ChainLink) (k : Nat)
    (h : ∀ j c, k ≤ j → j < links.length → links[j]? = some c → p c = true) :
    ∀ x ∈ links.drop k, p x = true := by
  intro x hx
  obtain ⟨j, hj⟩ := List.mem_iff_getElem?.mp hx
  rw [List.getElem?_drop] at hj
  have hlt : k + j < links.length := by
    by_contra hge
    rw [List.getElem?_eq_none (by omega)] at hj
    cases hj
  exact h (k + j) x (Nat.le_add_right k j) hlt hj

/-- A suffix all of whose links satisfy `p` lies inside `links.drop k` when
the link just before index `k` does not satisfy `p`. -/
theorem suffix_drop_of_unmatched (p : ChainLink → Bool) (links : List ChainLink) (k : Nat)
    (hk : k = 0 ∨ ∃ q, links[k - 1]? = some q ∧ p q = false)
    (t : List ChainLink) (ht : t <:+ links) (hall : ∀ x ∈ t, p x = true) :
    t <:+ links.drop k := by
  have hlen := ht.length_le
  rw [List.suffix_iff_eq_drop] at ht
  rcases hk with hk | ⟨q, hq, hpq⟩
  · subst hk; rw [List.drop_zero]; rw [ht]; exact List.drop_suffix _ _
  · by_cases hjk : k ≤ links.length - t.length
    · rw [ht]; exact List.drop_suffix_drop_left links hjk
    · exfalso
      have hk1 : k - 1 < links.length := by
        by_contra hge
        rw [List.getElem?_eq_none (by omega)] at hq
        cases hq
      have hmem : q ∈ t := by
        rw [ht]
        apply List.mem_iff_getElem?.mpr
        refine ⟨k - 1 - (links.length - t.length), ?_⟩
        rw [List.getElem?_drop]
        have : links.length - t.length + (k - 1 - (links.length - t.length)) = k - 1 := by
          omega
        rw [this]; exact hq
      have := hall q hmem
      rw [hpq] at this
      cases this

/-! ## LimitToEldestFOKID -/

/-- The loop of `LimitToEldestFOKID` either leaves `lastGood` as it is, the
link it tested first not matching, or returns an index below the start from
which on every tested link matches, the link before it not matching. -/
theorem LimitToEldestFOKIDLoop_spec (kenv : KeyEnv) (fokid : FOKID) (links : List ChainLink) :
    ∀ (n lastGood : Nat), n ≤ links.length →
      (LimitToEldestFOKIDLoop kenv fokid links n lastGood = lastGood ∧
        (n = 0 ∨ ∃ q, links[n - 1]? = some q ∧ kenv.MatchEldestFOKID q fokid = false)) ∨
      (LimitToEldestFOKIDLoop kenv fokid links n lastGood < n ∧
        (∀ j c, LimitToEldestFOKIDLoop kenv fokid links n lastGood ≤ j → j < n →
          links[j]? = some c → kenv.MatchEldestFOKID c fokid = true) ∧
        (LimitToEldestFOKIDLoop kenv fokid links n lastGood = 0 ∨
          ∃ q, links[LimitToEldestFOKIDLoop kenv fokid links n lastGood - 1]? = some q ∧
            kenv.MatchEldestFOKID q fokid = false)) := by
  intro n
  induction n with
  | zero => intro lastGood _; left; exact ⟨rfl, Or.inl rfl⟩
  | succ i ih =>
    intro lastGood hlen
    have hi : i < links.length := hlen
    have hc : links[i]? = some links[i] := List.getElem?_eq_getElem hi
    rw [LimitToEldestFOKIDLoop]
    simp only [hc]
    by_cases hm : kenv.MatchEldestFOKID links[i] fokid = true
    · rw [if_pos hm]
      right
      rcases ih i (Nat.le_of_lt hi) with ⟨heq, hprev⟩ | ⟨hlt, hall, hprev⟩
      · rw [heq]
        refine ⟨Nat.lt_succ_self i, ?_, ?_⟩
        · intro j c hj1 hj2 hjc
          have hji : j = i := by omega
          subst hji
          rw [hc] at hjc; cases hjc; exact hm
        · exact hprev
      · refine ⟨by omega, ?_, hprev⟩
        intro j c hj1 hj2 hjc
        by_cases hji : j < i
        · exact hall j c hj1 hji hjc
        · have hje : j = i := by omega
          subst hje
          rw [hc] at hjc; cases hjc; exact hm
    · rw [if_neg hm]
      left
      refine ⟨rfl, Or.inr ⟨links[i], ?_, by simpa using hm⟩⟩
      simp

/-- C11 (limit to eldest).  For every chain and FOKID `f`,
`LimitToEldestFOKID(f)` is `chainLinks` without its first `k` links for some
`k`: a suffix of `chainLinks`, every link of which satisfies
`MatchEldestFOKID(f)`, and maximal, in that `k = 0` (the whole chain) or the
link at index `k - 1`, immediately before the suffix, does not match `f`;
every suffix of matching links lies inside it; and a chain whose last link
does not match `f` gives the empty result. -/
theorem LimitToEldestFOKID_maximal_suffix (kenv : KeyEnv) (sc : SigChain) (fokid : FOKID) :
    ∃ k, k ≤ sc.chainLinks.length ∧
      sc.LimitToEldestFOKID kenv fokid = sc.chainLinks.drop k ∧
      sc.LimitToEldestFOKID kenv fokid <:+ sc.chainLinks ∧
      (∀ l ∈ sc.LimitToEldestFOKID kenv fokid, kenv.MatchEldestFOKID l fokid = true) ∧
      (k = 0 ∨ ∃ q, sc.chainLinks[k - 1]? = some q ∧ kenv.MatchEldestFOKID q fokid = false) ∧
      (∀ t, t <:+ sc.chainLinks → (∀ x ∈ t, kenv.MatchEldestFOKID x fokid = true) →
        t <:+ sc.LimitToEldestFOKID kenv fokid) ∧
      (∀ l, sc.GetLastLink = some l → kenv.MatchEldestFOKID l fokid = false →
        sc.LimitToEldestFOKID kenv fokid = []) := by
  have key : ∃ k, k ≤ sc.chainLinks.length ∧
      sc.LimitToEldestFOKID kenv fokid = sc.chainLinks.drop k ∧
      (∀ j c, k ≤ j → j < sc.chainLinks.length → sc.chainLinks[j]? = some c →
        kenv.MatchEldestFOKID c fokid = true) ∧
      (k = 0 ∨ ∃ q, sc.chainLinks[k - 1]? = some q ∧
        kenv.MatchEldestFOKID q fokid = false) := by
    unfold SigChain.LimitToEldestFOKID
    rcases LimitToEldestFOKIDLoop_spec kenv fokid sc.chainLinks sc.chainLinks.length
      sc.chainLinks.length (le_refl _) with ⟨heq, hprev⟩ | ⟨hlt, hall, hprev⟩
    · refine ⟨sc.chainLinks.length, le_refl _, ?_, ?_, hprev⟩
      · simp only [heq]
        split
        · rename_i h0
          rw [List.drop_length]
          exact List.eq_nil_of_length_eq_zero h0
        · rfl
      · intro j c h1 h2; omega
    · refine ⟨_, Nat.le_of_lt hlt, ?_, hall, hprev⟩
      simp only []
      split
      · rename_i h0
        rw [h0, List.drop_zero]
      · rfl
  obtain ⟨k, hk, heq, hall, hprev⟩ := key
  have hmatch := drop_all_of_getElem? (fun c => kenv.MatchEldestFOKID c fokid) sc.chainLinks k hall
  refine ⟨k, hk, heq, ?_, ?_, hprev, ?_, ?_⟩
  · rw [heq]; exact List.drop_suffix _ _
  · rw [heq]; exact hmatch
  · intro t ht hallt
    rw [heq]
    exact suffix_drop_of_unmatched (fun c => kenv.MatchEldestFOKID c fokid) sc.chainLinks k
      hprev t ht hallt
  · intro l hl hnm
    rw [heq]
    by_cases hkl : k < sc.chainLinks.length
    · exfalso
      have hlast : sc.chainLinks[sc.chainLinks.length - 1]? = some l := by
        unfold SigChain.GetLastLink last at hl
        rw [if_neg (by omega)] at hl
        exact hl
      have := hall (sc.chainLinks.length - 1) l (by omega) (by omega) hlast
      rw [hnm] at this
      cases this
    · exact List.drop_eq_nil_of_le (by omega)

/-- Witness of C11: in the ten-link chain with the links 1 to 4 under the
eldest key `[1]` and the links 5 to 10 under `[2]`, `LimitToEldestFOKID` for
the second key returns exactly the links 5 to 10, all of which match. -/
theorem LimitToEldestFOKID_maximal_suffix_witness :
    (chain10.LimitToEldestFOKID testKeyEnv { Fp := none, Kid := some [2] }).map ChainLink.seqno
      = [5, 6, 7, 8, 9, 10] ∧
    chain10.LimitToEldestFOKID testKeyEnv { Fp := none, Kid := some [2] }
      = chain10.chainLinks.drop 4 ∧
    (∀ l ∈ chain10.LimitToEldestFOKID testKeyEnv { Fp := none, Kid := some [2] },
      testKeyEnv.MatchEldestFOKID l { Fp := none, Kid := some [2] } = true) :=
  ⟨by decide, by decide,
   (LimitToEldestFOKID_maximal_suffix testKeyEnv chain10
      { Fp := none, Kid := some [2] }).elim (fun _ h => h.2.2.2.1)⟩

/-! ## VerifiedChainLinks -/

/-- The loop of `VerifiedChainLinks` either leaves `start` as it is, the link
it tested first not matching, or returns an index below the start from which
on every tested link matches, the link before it not matching. -/
theorem VerifiedChainLinksLoop_spec (kenv : KeyEnv) (fp : PgpFingerprint)
    (links : List ChainLink) :
    ∀ (n : Nat) (start : Int), n ≤ links.length →
      (VerifiedChainLinksLoop kenv fp links n start = start ∧
        (n = 0 ∨ ∃ q, links[n - 1]? = some q ∧ kenv.MatchFingerprint q fp = false)) ∨
      (∃ k : Nat, VerifiedChainLinksLoop kenv fp links n start = (k : Int) ∧ k < n ∧
        (∀ j c, k ≤ j → j < n → links[j]? = some c → kenv.MatchFingerprint c fp = true) ∧
        (k = 0 ∨ ∃ q, links[k - 1]? = some q ∧ kenv.MatchFingerprint q fp = false)) := by
  intro n
  induction n with
  | zero => intro start _; left; exact ⟨rfl, Or.inl rfl⟩
  | succ i ih =>
    intro start hlen
    have hi : i < links.length := hlen
    have hc : links[i]? = some links[i] := List.getElem?_eq_getElem hi
    rw [VerifiedChainLinksLoop]
    simp only [hc]
    by_cases hm : kenv.MatchFingerprint links[i] fp = true
    · rw [if_pos hm]
      right
      rcases ih (i : Int) (Nat.le_of_lt hi) with ⟨heq, hprev⟩ | ⟨k, heq, hlt, hall, hprev⟩
      · refine ⟨i, heq, Nat.lt_succ_self i, ?_, hprev⟩
        intro j c hj1 hj2 hjc
        have hji : j = i := by omega
        subst hji
        rw [hc] at hjc; cases hjc; exact hm
      · refine ⟨k, heq, by omega, ?_, hprev⟩
        intro j c hj1 hj2 hjc
        by_cases hji : j < i
        · exact hall j c hj1 hji hjc
        · have hje : j = i := by omega
          subst hje
          rw [hc] at hjc; cases hjc; exact hm
    · rw [if_neg hm]
      left
      refine ⟨rfl, Or.inr ⟨links[i], ?_, by simpa using hm⟩⟩
      simp

/-- C17 (verified chain links).  `VerifiedChainLinks(fp)` is empty when the
chain is empty or its last link is not `sigVerified`.  Otherwise it is
`chainLinks` without its first `k` links for some `k`: a suffix of
`chainLinks` all of whose links satisfy `MatchFingerprint(fp)`, the longest
one (every suffix of matching links lies inside it, and `k = 0` or the link
at index `k - 1` does not match); it is empty when the last link does not
match and the whole chain when every link matches. -/
theorem VerifiedChainLinks_longest_suffix (kenv : KeyEnv) (sc : SigChain) (fp : PgpFingerprint) :
    (sc.chainLinks = [] → sc.VerifiedChainLinks kenv fp = []) ∧
    (∀ l, sc.GetLastLink = some l → l.sigVerified = false →
      sc.VerifiedChainLinks kenv fp = []) ∧
    (∀ l, sc.GetLastLink = some l → l.sigVerified = true →
      ∃ k, k ≤ sc.chainLinks.length ∧
        sc.VerifiedChainLinks kenv fp = sc.chainLinks.drop k ∧
        sc.VerifiedChainLinks kenv fp <:+ sc.chainLinks ∧
        (∀ x ∈ sc.VerifiedChainLinks kenv fp, kenv.MatchFingerprint x fp = true) ∧
        (k = 0 ∨ ∃ q, sc.chainLinks[k - 1]? = some q ∧ kenv.MatchFingerprint q fp = false) ∧
        (∀ t, t <:+ sc.chainLinks → (∀ x ∈ t, kenv.MatchFingerprint x fp = true) →
          t <:+ sc.VerifiedChainLinks kenv fp) ∧
        (kenv.MatchFingerprint l fp = false → sc.VerifiedChainLinks kenv fp = []) ∧
        ((∀ x ∈ sc.chainLinks, kenv.MatchFingerprint x fp = true) →
          sc.VerifiedChainLinks kenv fp = sc.chainLinks)) := by
  refine ⟨?_, ?_, ?_⟩
  · intro hnil
    have hl : sc.GetLastLink = none := (last_eq_none_iff _).mpr hnil
    simp [SigChain.VerifiedChainLinks, hl]
  · intro l hl hsv
    simp [SigChain.VerifiedChainLinks, hl, hsv]
  · intro l hl hsv
    have hne : sc.chainLinks.length ≠ 0 := by
      intro h0
      have := (last_eq_none_iff _).mpr (List.eq_nil_of_length_eq_zero h0)
      unfold SigChain.GetLastLink at hl
      rw [this] at hl; cases hl
    have hlast : sc.chainLinks[sc.chainLinks.length - 1]? = some l := by
      unfold SigChain.GetLastLink last at hl
      rw [if_neg hne] at hl
      exact hl
    have key : ∃ k, k ≤ sc.chainLinks.length ∧
        sc.VerifiedChainLinks kenv fp = sc.chainLinks.drop k ∧
        (∀ j c, k ≤ j → j < sc.chainLinks.length → sc.chainLinks[j]? = some c →
          kenv.MatchFingerprint c fp = true) ∧
        (k = 0 ∨ ∃ q, sc.chainLinks[k - 1]? = some q ∧
          kenv.MatchFingerprint q fp = false) := by
      rcases VerifiedChainLinksLoop_spec kenv fp sc.chainLinks sc.chainLinks.length (-1)
        (le_refl _) with ⟨heq, hprev⟩ | ⟨k, heq, hlt, hall, hprev⟩
      · refine ⟨sc.chainLinks.length, le_refl _, ?_, ?_, hprev⟩
        · simp [SigChain.VerifiedChainLinks, hl, hsv, heq]
        · intro j c h1 h2; omega
      · refine ⟨k, Nat.le_of_lt hlt, ?_, hall, hprev⟩
        simp [SigChain.VerifiedChainLinks, hl, hsv, heq]
    obtain ⟨k, hk, heq, hall, hprev⟩ := key
    have hmatch := drop_all_of_getElem? (fun c => kenv.MatchFingerprint c fp) sc.chainLinks k hall
    refine ⟨k, hk, heq, ?_, ?_, hprev, ?_, ?_, ?_⟩
    · rw [heq]; exact List.drop_suffix _ _
    · rw [heq]; exact hmatch
    · intro t ht hallt
      rw [heq]
      exact suffix_drop_of_unmatched (fun c => kenv.MatchFingerprint c fp) sc.chainLinks k
        hprev t ht hallt
    · intro hnm
      rw [heq]
      by_cases hkl : k < sc.chainLinks.length
      · exfalso
        have := hall (sc.chainLinks.length - 1) l (by omega) (by omega) hlast
        rw [hnm] at this
        cases this
      · exact List.drop_eq_nil_of_le (by omega)
    · intro hallm
      rw [heq]
      rcases hprev with h0 | ⟨q, hq, hnq⟩
      · rw [h0, List.drop_zero]
      · have := hallm q (List.getElem?_mem hq)
        rw [hnq] at this
        cases this

/-- Witness of C17: in the three-link chain whose last two links carry the
fingerprint `[7]` and whose last link is `sigVerified`, `VerifiedChainLinks`
returns exactly the last two links. -/
theorem VerifiedChainLinks_longest_suffix_witness :
    (fpChain3.VerifiedChainLinks testKeyEnv [7]).map ChainLink.seqno = [2, 3] ∧
    ∃ k, k ≤ fpChain3.chainLinks.length ∧
      fpChain3.VerifiedChainLinks testKeyEnv [7] = fpChain3.chainLinks.drop k ∧
      fpChain3.VerifiedChainLinks testKeyEnv [7] <:+ fpChain3.chainLinks :=
  ⟨by decide,
   ((VerifiedChainLinks_longest_suffix testKeyEnv fpChain3 [7]).2.2
      { mkLink 3 3 (some [2]) with fokid := { Fp := some [7], Kid := some [1] }
                                   sigVerified := true }
      (by decide) (by decide)).elim (fun k h => ⟨k, h.1, h.2.1, h.2.2.1⟩)⟩

/-! ## The local overlay -/

/-- C14 (tail-overlay expiry).  `GetFutureChainTail` evaluated at time `t1`
returns a non-null triple if and only if `localChainTail` is set and
`t1 - localChainUpdateTime < SERVER_UPDATE_LAG`, and then it is
`localChainTail`.  Hence after `Bump(mt)` at time `t0`, a query at `t1` with
`t1 - t0 >= SERVER_UPDATE_LAG` returns null, and a query with
`t1 - t0 < SERVER_UPDATE_LAG` returns the bumped triple (`mt` with the seqno
`Bump` gave it). -/
theorem GetFutureChainTail_expiry (env : Env) (sc : SigChain) (t1 : Int) :
    (sc.GetFutureChainTail env t1 ≠ none ↔
      (sc.localChainTail ≠ none ∧ t1 - sc.localChainUpdateTime < env.SERVER_UPDATE_LAG)) ∧
    (∀ r, sc.GetFutureChainTail env t1 = some r → sc.localChainTail = some r) ∧
    (∀ mt t0, t1 - t0 ≥ env.SERVER_UPDATE_LAG →
      (sc.Bump mt t0).GetFutureChainTail env t1 = none) ∧
    (∀ mt t0, t1 - t0 < env.SERVER_UPDATE_LAG →
      (sc.Bump mt t0).GetFutureChainTail env t1
        = some { mt with Seqno := wrapInt64 (sc.GetLastKnownSeqno + 1) }) := by
  refine ⟨?_, ?_, ?_, ?_⟩
  · unfold SigChain.GetFutureChainTail
    constructor
    · intro h
      by_contra hcond
      rw [if_neg hcond] at h
      exact h rfl
    · intro hcond
      rw [if_pos hcond]
      exact hcond.1
  · intro r h
    unfold SigChain.GetFutureChainTail at h
    split at h
    · exact h
    · cases h
  · intro mt t0 hge
    unfold SigChain.GetFutureChainTail SigChain.Bump
    have : ¬ (t1 - t0 < env.SERVER_UPDATE_LAG) := not_lt.mpr hge
    simp [this]
  · intro mt t0 hlt
    unfold SigChain.GetFutureChainTail SigChain.Bump
    simp [hlt]

/-- Witness of C14: the five-link chain bumped at time 100 with a lag of 1000;
at time 1099 the bumped triple (seqno 6) is returned, at time 1100 nothing. -/
theorem GetFutureChainTail_expiry_witness :
    ((chain5.Bump { Seqno := 0, LinkId := some [66], SigId := none } 100).GetFutureChainTail
        (testEnv []) 1099 = some { Seqno := 6, LinkId := some [66], SigId := none }) ∧
    ((chain5.Bump { Seqno := 0, LinkId := some [66], SigId := none } 100).GetFutureChainTail
        (testEnv []) 1100 = none) :=
  ⟨(GetFutureChainTail_expiry (testEnv []) chain5 1099).2.2.2
      { Seqno := 0, LinkId := some [66], SigId := none } 100 (by decide),
   (GetFutureChainTail_expiry (testEnv []) chain5 1100).2.2.1
      { Seqno := 0, LinkId := some [66], SigId := none } 100 (by decide)⟩

/-- C15, as stated, fails: the two-link chain with a local tail (seqno 3, id
`[33]`) and a local CKI written at time 0, queried at time 5000 with a lag of
1000.  The overlay has expired (`GetFutureChainTail` is null), yet
`GetLastKnownSeqno` is 3 and not the last loaded seqno 2, `GetLastKnownId` is
`[33]` and not the last loaded id `[2]`, and `GetComputedKeyInfos` is the
local CKI and not the CKI cached on the last loaded link (none). -/
theorem overlay_getters_ignore_expiry :
    (5000 : Int) - overlayChain2.localChainUpdateTime ≥ (testEnv []).SERVER_UPDATE_LAG ∧
    overlayChain2.GetFutureChainTail (testEnv []) 5000 = none ∧
    overlayChain2.GetLastKnownSeqno = 3 ∧ overlayChain2.GetLastLoadedSeqno = 2 ∧
    overlayChain2.GetLastKnownSeqno ≠ overlayChain2.GetLastLoadedSeqno ∧
    overlayChain2.GetLastKnownId ≠ overlayChain2.GetLastLoadedId ∧
    overlayChain2.GetComputedKeyInfos = overlayChain2.localCki ∧
    overlayChain2.GetComputedKeyInfos ≠ (overlayChain2.GetLastLink.bind ChainLink.cki) := by
  decide

/-- C15, amended.  The overlay getters do not read the clock.
`GetLastKnownSeqno()` and `GetLastKnownId()` return the seqno and link id of
`localChainTail` whenever it is non-null, and the last loaded seqno and id
when it is null.  `GetComputedKeyInfos()` returns `localCki` whenever it is
non-null, and the CKI cached on the last loaded link when it is null.  In
particular, once `SERVER_UPDATE_LAG` or more has elapsed since the update
time of a non-null `localChainTail`, `GetFutureChainTail()` is null while
`GetLastKnownSeqno()` and `GetLastKnownId()` still return the seqno and link
id of `localChainTail`. -/
theorem overlay_getters (env : Env) (now : Int) (sc : SigChain) :
    (∀ t, sc.localChainTail = some t →
      sc.GetLastKnownSeqno = t.Seqno ∧ sc.GetLastKnownId = t.LinkId) ∧
    (sc.localChainTail = none →
      sc.GetLastKnownSeqno = sc.GetLastLoadedSeqno ∧
      sc.GetLastKnownId = sc.GetLastLoadedId) ∧
    (∀ c, sc.localCki = some c → sc.GetComputedKeyInfos = some c) ∧
    (sc.localCki = none → sc.GetComputedKeyInfos = sc.GetLastLink.bind ChainLink.cki) ∧
    (∀ t, sc.localChainTail = some t →
      now - sc.localChainUpdateTime ≥ env.SERVER_UPDATE_LAG →
      sc.GetFutureChainTail env now = none ∧
      sc.GetLastKnownSeqno = t.Seqno ∧ sc.GetLastKnownId = t.LinkId) := by
  refine ⟨?_, ?_, ?_, ?_, ?_⟩
  · intro t ht
    simp [SigChain.GetLastKnownSeqno, SigChain.GetLastKnownId, ht]
  · intro ht
    simp [SigChain.GetLastKnownSeqno, SigChain.GetLastKnownId, ht]
  · intro c hc
    simp [SigChain.GetComputedKeyInfos, hc]
  · intro hc
    unfold SigChain.GetComputedKeyInfos
    rw [hc]
    cases sc.GetLastLink <;> rfl
  · intro t ht hge
    have : ¬ (now - sc.localChainUpdateTime < env.SERVER_UPDATE_LAG) := not_lt.mpr hge
    simp [SigChain.GetFutureChainTail, SigChain.GetLastKnownSeqno, SigChain.GetLastKnownId,
      ht, this]

/-- C15, amended, on a concrete input: the two-link chain with a local tail
(seqno 3, id `[33]`) written at time 0, queried at time 5000 with a lag of
1000: `GetFutureChainTail` is null, and the getters return the seqno and the
id of the local tail. -/
theorem overlay_getters_witness :
    overlayChain2.GetFutureChainTail (testEnv []) 5000 = none ∧
    overlayChain2.GetLastKnownSeqno = 3 ∧ overlayChain2.GetLastKnownId = some [33] :=
  (overlay_getters (testEnv []) 5000 overlayChain2).2.2.2.2
    { Seqno := 3, LinkId := some [33], SigId := none } rfl (by decide)

/-- Within the 64-bit range the reduction leaves a value as it is. -/
theorem wrapInt64_of_range (x : Int) (h1 : -9223372036854775808 ≤ x)
    (h2 : x ≤ 9223372036854775807) : wrapInt64 x = x := by
  unfold wrapInt64
  omega

/-- C16, as stated, fails: a chain whose last loaded link has the largest
64-bit seqno, `9223372036854775807`.  After `Bump` the last known seqno is
`-9223372036854775808`, not the value before the call plus 1. -/
theorem Bump_wraps_at_max :
    (mkChain [mkLink 9223372036854775807 1 none]).GetLastKnownSeqno = 9223372036854775807 ∧
    ((mkChain [mkLink 9223372036854775807 1 none]).Bump
        { Seqno := 0, LinkId := some [61], SigId := none } 10).GetLastKnownSeqno
      = -9223372036854775808 ∧
    ((mkChain [mkLink 9223372036854775807 1 none]).Bump
        { Seqno := 0, LinkId := some [61], SigId := none } 10).GetLastKnownSeqno
      ≠ (mkChain [mkLink 9223372036854775807 1 none]).GetLastKnownSeqno + 1 := by
  decide

/-- C16, amended (`Bump`).  For every chain, triple `mt` and clock value,
after `Bump(mt)`: when the last known seqno before the call is a 64-bit value
below the largest one, `GetLastKnownSeqno()` is that value plus 1, whatever
seqno `mt` carried, and when it is the largest 64-bit value,
`GetLastKnownSeqno()` is the smallest one; `GetLastKnownId()` is the link id
of `mt`; `chainLinks`, hence `GetLastLoadedSeqno()`, is unchanged.  After any
sequence of `n` Bumps, `chainLinks` and `GetLastLoadedSeqno()` are unchanged,
and `GetLastKnownSeqno()` is its first value plus `n` when that first value
is a 64-bit value and the sum does not exceed the largest 64-bit value. -/
theorem Bump_last_known (sc : SigChain) (mt : MerkleTriple) (now : Int) :
    (-9223372036854775808 ≤ sc.GetLastKnownSeqno →
      sc.GetLastKnownSeqno < 9223372036854775807 →
      (sc.Bump mt now).GetLastKnownSeqno = sc.GetLastKnownSeqno + 1) ∧
    (sc.GetLastKnownSeqno = 9223372036854775807 →
      (sc.Bump mt now).GetLastKnownSeqno = -9223372036854775808) ∧
    (sc.Bump mt now).GetLastKnownId = mt.LinkId ∧
    (sc.Bump mt now).chainLinks = sc.chainLinks ∧
    (sc.Bump mt now).GetLastLoadedSeqno = sc.GetLastLoadedSeqno ∧
    (∀ (bumps : List (MerkleTriple × Int)) (sc0 : SigChain),
      (bumps.foldl (fun c b => c.Bump b.1 b.2) sc0).chainLinks = sc0.chainLinks ∧
      (bumps.foldl (fun c b => c.Bump b.1 b.2) sc0).GetLastLoadedSeqno
        = sc0.GetLastLoadedSeqno) ∧
    (∀ (bumps : List (MerkleTriple × Int)) (sc0 : SigChain),
      -9223372036854775808 ≤ sc0.GetLastKnownSeqno →
      sc0.GetLastKnownSeqno + (bumps.length : Int) ≤ 9223372036854775807 →
      (bumps.foldl (fun c b => c.Bump b.1 b.2) sc0).GetLastKnownSeqno
        = sc0.GetLastKnownSeqno + (bumps.length : Int)) := by
  have h0 : ∀ (c : SigChain) (m : MerkleTriple) (t : Int),
      (c.Bump m t).GetLastKnownSeqno = wrapInt64 (c.GetLastKnownSeqno + 1) := by
    intro c m t; rfl
  have h1 : ∀ (c : SigChain) (m : MerkleTriple) (t : Int),
      -9223372036854775808 ≤ c.GetLastKnownSeqno →
      c.GetLastKnownSeqno < 9223372036854775807 →
      (c.Bump m t).GetLastKnownSeqno = c.GetLastKnownSeqno + 1 := by
    intro c m t hlo hhi
    rw [h0]
    generalize c.GetLastKnownSeqno = x at hlo hhi
    have hx1 : -9223372036854775808 ≤ (x : Int) := hlo
    have hx2 : (x : Int) < 9223372036854775807 := hhi
    exact wrapInt64_of_range (x + 1) (by linarith) (by linarith)
  have h2 : ∀ (c : SigChain) (m : MerkleTriple) (t : Int),
      (c.Bump m t).chainLinks = c.chainLinks := by
    intro c m t; rfl
  refine ⟨h1 sc mt now, ?_, rfl, rfl, rfl, ?_, ?_⟩
  · intro hmax
    rw [h0, hmax]
    decide
  · intro bumps
    induction bumps with
    | nil => intro sc0; simp
    | cons b bs ih =>
      intro sc0
      obtain ⟨i2, i3⟩ := ih (sc0.Bump b.1 b.2)
      simp only [List.foldl_cons]
      exact ⟨by rw [i2, h2], by rw [i3]; rfl⟩
  · intro bumps
    induction bumps with
    | nil => intro sc0 _ _; simp
    | cons b bs ih =>
      intro sc0 hlo hhi
      simp only [List.foldl_cons, List.length_cons] at hhi ⊢
      have hn : (0 : Int) ≤ (bs.length : Int) := Int.natCast_nonneg _
      have hstep : (sc0.Bump b.1 b.2).GetLastKnownSeqno = sc0.GetLastKnownSeqno + 1 := by
        apply h1 sc0 b.1 b.2 hlo
        generalize sc0.GetLastKnownSeqno = x at hhi
        have hx : (x : Int) + ((bs.length : Int) + 1) ≤ 9223372036854775807 := by
          push_cast at hhi; exact hhi
        show (x : Int) < 9223372036854775807
        linarith
      have := ih (sc0.Bump b.1 b.2)
        (by
          rw [hstep]
          generalize sc0.GetLastKnownSeqno = x at hlo
          have hx : -9223372036854775808 ≤ (x : Int) := hlo
          show -9223372036854775808 ≤ (x : Int) + 1
          linarith)
        (by
          rw [hstep]
          generalize sc0.GetLastKnownSeqno = x at hhi
          have hx : (x : Int) + ((bs.length : Int) + 1) ≤ 9223372036854775807 := by
            push_cast at hhi; exact hhi
          show (x : Int) + 1 + (bs.length : Int) ≤ 9223372036854775807
          linarith)
      rw [this, hstep]
      push_cast
      ring

/-- C16 amended, on a concrete input: three Bumps on the five-link chain, with
triples carrying the seqnos 0, 40 and 7, leave the last known seqno at 8, the
last known id at that of the third triple and the last loaded seqno at 5. -/
theorem Bump_last_known_witness :
    (((chain5.Bump { Seqno := 0, LinkId := some [61], SigId := none } 10).Bump
        { Seqno := 40, LinkId := some [62], SigId := none } 20).Bump
        { Seqno := 7, LinkId := some [63], SigId := none } 30).GetLastKnownSeqno
      = chain5.GetLastKnownSeqno + 3 ∧
    (((chain5.Bump { Seqno := 0, LinkId := some [61], SigId := none } 10).Bump
        { Seqno := 40, LinkId := some [62], SigId := none } 20).Bump
        { Seqno := 7, LinkId := some [63], SigId := none } 30).GetLastKnownId = some [63] ∧
    (((chain5.Bump { Seqno := 0, LinkId := some [61], SigId := none } 10).Bump
        { Seqno := 40, LinkId := some [62], SigId := none } 20).Bump
        { Seqno := 7, LinkId := some [63], SigId := none } 30).GetLastLoadedSeqno = 5 :=
  ⟨(Bump_last_known chain5 { Seqno := 0, LinkId := none, SigId := none } 0).2.2.2.2.2.2
      [({ Seqno := 0, LinkId := some [61], SigId := none }, 10),
       ({ Seqno := 40, LinkId := some [62], SigId := none }, 20),
       ({ Seqno := 7, LinkId := some [63], SigId := none }, 30)] chain5
      (by decide) (by decide),
   by decide, by decide⟩

/-! ## The replay of `verifySubchain`: one link -/

theorem ReplayState.call_of_err (s : ReplayState) (op : ReplayOp) (i : Nat)
    (f : ComputedKeyInfos → ComputedKeyInfos × Option KbError) (e : KbError)
    (h : s.err = some e) : s.call op i f = s := by
  unfold ReplayState.call
  rw [h]

theorem ReplayState.call_of_ok (s : ReplayState) (op : ReplayOp) (i : Nat)
    (f : ComputedKeyInfos → ComputedKeyInfos × Option KbError) (h : s.err = none) :
    s.call op i f =
      { cki := (f s.cki).1
        calls := s.calls ++
          [{ op := op, linkIndex := i, cki := s.cki, ckiOut := (f s.cki).1, err := (f s.cki).2 }]
        err := (f s.cki).2 } := by
  unfold ReplayState.call
  rw [h]

/-- The loop body of `verifySubchain` is the run of its six steps. -/
theorem verifySubchainLink_eq_runPlan (kenv : KeyEnv) (kf : KeyFamily) (un : String)
    (links : List ChainLink) (i : Nat) (link : ChainLink) (first : Bool) (s : ReplayState) :
    verifySubchainLink kenv kf un links i link first s
      = runPlan i (linkPlan kenv kf un links i link first) s := rfl

/-- Once the function has returned, no further step is run. -/
theorem runPlan_of_err (i : Nat) :
    ∀ (plan : List PlanStep) (s : ReplayState) (e : KbError), s.err = some e →
      runPlan i plan s = s := by
  intro plan
  induction plan with
  | nil => intro s e _; rfl
  | cons st rest ih =>
    intro s e h
    rw [runPlan]
    by_cases hr : st.run = true
    · rw [if_pos hr, ReplayState.call_of_err s _ _ _ e h]
      exact ih s e h
    · rw [if_neg hr]
      exact ih s e h

/-- The calls a run of steps adds to the log: their names are, in order, a
prefix of the names of the steps to take, all of them when the run ends
without error; each was made for the link at index `i` and records what its
step did on the CKI it received. -/
theorem runPlan_calls (i : Nat) :
    ∀ (plan : List PlanStep) (s : ReplayState),
      ∃ new,
        (runPlan i plan s).calls = s.calls ++ new ∧
        new.map ReplayCall.op <+: (plan.filter (fun st => st.run)).map PlanStep.op ∧
        (∀ c ∈ new, c.linkIndex = i ∧
          ∃ st ∈ plan, st.run = true ∧ st.op = c.op ∧
            c.ckiOut = (st.f c.cki).1 ∧ c.err = (st.f c.cki).2) ∧
        (s.err ≠ none → new = []) ∧
        ((runPlan i plan s).err = none →
          s.err = none ∧
          new.map ReplayCall.op = (plan.filter (fun st => st.run)).map PlanStep.op ∧
          ∀ c ∈ new, c.err = none) ∧
        (∀ c, new.head? = some c → c.cki = s.cki) := by
  intro plan
  induction plan with
  | nil =>
    intro s
    exact ⟨[], by simp [runPlan], by simp, by simp, fun _ => rfl,
      fun h => ⟨h, by simp, by simp⟩, by simp⟩
  | cons st rest ih =>
    intro s
    rw [runPlan]
    by_cases hr : st.run = true
    · rw [if_pos hr]
      cases hs : s.err with
      | some e =>
        rw [ReplayState.call_of_err s _ _ _ e hs]
        obtain ⟨new, h1, h2, h3, h4, h5, h6⟩ := ih s
        have hnil : new = [] := h4 (by rw [hs]; simp)
        subst hnil
        refine ⟨[], h1, by simp, by simp, fun _ => rfl, ?_, by simp⟩
        intro herr
        have := (h5 herr).1
        rw [hs] at this
        cases this
      | none =>
        rw [ReplayState.call_of_ok s _ _ _ hs]
        obtain ⟨new, h1, h2, h3, h4, h5, h6⟩ := ih
          { cki := (st.f s.cki).1
            calls := s.calls ++
              [{ op := st.op, linkIndex := i, cki := s.cki, ckiOut := (st.f s.cki).1,
                 err := (st.f s.cki).2 }]
            err := (st.f s.cki).2 }
        refine ⟨{ op := st.op, linkIndex := i, cki := s.cki, ckiOut := (st.f s.cki).1,
                  err := (st.f s.cki).2 } :: new, ?_, ?_, ?_, ?_, ?_, ?_⟩
        · rw [h1]; simp
        · simp only [List.map_cons, List.filter_cons, hr, if_true]
          exact List.prefix_cons_inj _ |>.mpr h2
        · intro c hc
          rcases List.mem_cons.mp hc with hc | hc
          · subst hc
            exact ⟨rfl, st, List.mem_cons_self _ _, hr, rfl, rfl, rfl⟩
          · obtain ⟨hi, st2, hst2, hrest⟩ := h3 c hc
            exact ⟨hi, st2, List.mem_cons_of_mem _ hst2, hrest⟩
        · intro hne; exact absurd rfl hne
        · intro herr
          obtain ⟨e1, e2, e3⟩ := h5 herr
          refine ⟨rfl, ?_, ?_⟩
          · simp only [List.map_cons, List.filter_cons, hr, if_true, e2]
          · intro c hc
            rcases List.mem_cons.mp hc with hc | hc
            · subst hc; exact e1
            · exact e3 c hc
        · intro c hc
          simp only [List.head?_cons, Option.some.injEq] at hc
          subst hc; rfl
    · rw [if_neg hr]
      obtain ⟨new, h1, h2, h3, h4, h5, h6⟩ := ih s
      refine ⟨new, h1, ?_, ?_, h4, ?_, h6⟩
      · simp only [List.filter_cons, hr]
        exact h2
      · intro c hc
        obtain ⟨hi, st2, hst2, hrest⟩ := h3 c hc
        exact ⟨hi, st2, List.mem_cons_of_mem _ hst2, hrest⟩
      · intro herr
        obtain ⟨e1, e2, e3⟩ := h5 herr
        refine ⟨e1, ?_, e3⟩
        simp only [List.filter_cons, hr]
        exact e2

theorem ReplayState.wellLogged_mono (s : ReplayState) (i k k2 : Nat)
    (h : s.wellLogged i k) (hk : k ≤ k2) : s.wellLogged i k2 := by
  refine ⟨h.1, ?_⟩
  intro c hc
  obtain ⟨h1, h2, h3⟩ := h.2 c hc
  refine ⟨h1, h2, ?_⟩
  intro he
  rcases h3 he with ⟨ha, hb⟩ | hb
  · exact Or.inl ⟨ha, by omega⟩
  · exact Or.inr hb

/-- A step of the loop body keeps the log well formed. -/
theorem ReplayState.wellLogged_step (s : ReplayState) (i k : Nat) (run : Bool) (op : ReplayOp)
    (f : ComputedKeyInfos → ComputedKeyInfos × Option KbError)
    (h : s.wellLogged i k) (hk : k ≤ op.rank) :
    (if run then s.call op i f else s).wellLogged i (op.rank + 1) := by
  by_cases hr : run = true
  · rw [if_pos hr]
    cases hs : s.err with
    | some e =>
      rw [ReplayState.call_of_err s _ _ _ e hs]
      exact ReplayState.wellLogged_mono s i k _ h (by omega)
    | none =>
      rw [ReplayState.call_of_ok s _ _ _ hs]
      constructor
      · apply List.Chain'.append h.1 (List.chain'_singleton _)
        intro x hx y hy
        simp only [List.head?_cons, Option.mem_def, Option.some.injEq] at hy
        subst hy
        obtain ⟨h1, h2, h3⟩ := h.2 x hx
        refine ⟨by rw [h2, hs], h1.symm, ?_⟩
        rcases h3 hs with ⟨ha, hb⟩ | hb
        · exact Or.inl ⟨ha.symm, by show x.op.rank < op.rank; omega⟩
        · exact Or.inr hb.symm
      · intro c hc
        simp only [List.getLast?_append, List.getLast?_singleton, Option.or_some,
          Option.some.injEq] at hc
        subst hc
        exact ⟨rfl, rfl, fun _ => Or.inl ⟨rfl, Nat.lt_succ_self _⟩⟩
  · rw [if_neg hr]
    exact ReplayState.wellLogged_mono s i k _ h (by omega)

/-- The loop body keeps the log well formed. -/
theorem verifySubchainLink_wellLogged (kenv : KeyEnv) (kf : KeyFamily) (un : String)
    (links : List ChainLink) (i : Nat) (link : ChainLink) (first : Bool) (s : ReplayState)
    (h : s.wellLogged i 0) :
    (verifySubchainLink kenv kf un links i link first s).wellLogged i 6 := by
  rw [verifySubchainLink_eq_runPlan]
  simp only [linkPlan, runPlan]
  have h1 := ReplayState.wellLogged_step s i 0 first ReplayOp.InsertEldestLink
    (replayStep kenv kf un link ReplayOp.InsertEldestLink) h (Nat.zero_le _)
  have h2 := ReplayState.wellLogged_step _ i _ (sigCheckDueB kenv links i link)
    ReplayOp.VerifySigWithKeyFamily
    (replayStep kenv kf un link ReplayOp.VerifySigWithKeyFamily) h1 (le_refl _)
  have h3 := ReplayState.wellLogged_step _ i _ (decide (link.GetRole ≠ KeyRole.DLG_NONE))
    ReplayOp.Delegate (replayStep kenv kf un link ReplayOp.Delegate) h2 (le_refl _)
  have h4 := ReplayState.wellLogged_step _ i _ true ReplayOp.VerifyReverseSig
    (replayStep kenv kf un link ReplayOp.VerifyReverseSig) h3 (le_refl _)
  have h5 := ReplayState.wellLogged_step _ i _ true ReplayOp.Revoke
    (replayStep kenv kf un link ReplayOp.Revoke) h4 (le_refl _)
  have h6 := ReplayState.wellLogged_step _ i _ true ReplayOp.UpdateDevices
    (replayStep kenv kf un link ReplayOp.UpdateDevices) h5 (le_refl _)
  exact h6

/-- The calls the loop body adds to the log for one link. -/
theorem verifySubchainLink_calls (kenv : KeyEnv) (kf : KeyFamily) (un : String)
    (links : List ChainLink) (i : Nat) (link : ChainLink) (first : Bool) (s : ReplayState) :
    ∃ new,
      (verifySubchainLink kenv kf un links i link first s).calls = s.calls ++ new ∧
      (∀ c ∈ new, c.linkIndex = i ∧ c.op ≠ ReplayOp.PutSigCheckCache ∧
        c.ckiOut = (replayStep kenv kf un link c.op c.cki).1 ∧
        c.err = (replayStep kenv kf un link c.op c.cki).2 ∧
        (c.op = ReplayOp.InsertEldestLink → first = true) ∧
        (c.op = ReplayOp.VerifySigWithKeyFamily → sigCheckDueB kenv links i link = true) ∧
        (c.op = ReplayOp.Delegate → link.GetRole ≠ KeyRole.DLG_NONE)) ∧
      (s.err ≠ none → new = []) ∧
      ((verifySubchainLink kenv kf un links i link first s).err = none →
        s.err = none ∧ new ≠ [] ∧ (∀ c ∈ new, c.err = none) ∧
        (∃ c ∈ new, c.op = ReplayOp.VerifyReverseSig) ∧
        (∃ c ∈ new, c.op = ReplayOp.Revoke) ∧
        (∃ c ∈ new, c.op = ReplayOp.UpdateDevices) ∧
        (link.GetRole ≠ KeyRole.DLG_NONE → ∃ c ∈ new, c.op = ReplayOp.Delegate) ∧
        (sigCheckDueB kenv links i link = true →
          ∃ c ∈ new, c.op = ReplayOp.VerifySigWithKeyFamily) ∧
        (first = true → ∃ c ∈ new, c.op = ReplayOp.InsertEldestLink)) ∧
      (∀ c, new.head? = some c → c.cki = s.cki) := by
  rw [verifySubchainLink_eq_runPlan]
  obtain ⟨new, h1, h2, h3, h4, h5, h6⟩ :=
    runPlan_calls i (linkPlan kenv kf un links i link first) s
  refine ⟨new, h1, ?_, h4, ?_, h6⟩
  · intro c hc
    obtain ⟨hi, st, hst, hrun, hop, hout, herr⟩ := h3 c hc
    simp only [linkPlan, List.mem_cons, List.mem_singleton, List.not_mem_nil, or_false] at hst
    rcases hst with rfl | rfl | rfl | rfl | rfl | rfl <;>
      simp only at hop hrun hout herr <;>
      rw [← hop] <;>
      refine ⟨hi, by simp, hout, herr, ?_, ?_, ?_⟩ <;>
      first
        | (intro _; exact hrun)
        | (intro _; simpa using hrun)
        | (intro hcontra; cases hcontra)
  · intro herr
    obtain ⟨e1, e2, e3⟩ := h5 herr
    have hmem : ∀ op, op ∈ ((linkPlan kenv kf un links i link first).filter
        (fun st => st.run)).map PlanStep.op → ∃ c ∈ new, c.op = op := by
      intro op hop
      rw [← e2] at hop
      obtain ⟨c, hc, hcop⟩ := List.mem_map.mp hop
      exact ⟨c, hc, hcop⟩
    have hmem2 : ∀ st, st ∈ linkPlan kenv kf un links i link first → st.run = true →
        ∃ c ∈ new, c.op = st.op := fun st hst hrun =>
      hmem st.op (List.mem_map.mpr ⟨st, List.mem_filter.mpr ⟨hst, by simpa using hrun⟩, rfl⟩)
    have hud := hmem2 ⟨true, ReplayOp.UpdateDevices,
      replayStep kenv kf un link ReplayOp.UpdateDevices⟩ (by simp [linkPlan]) rfl
    have hne : new ≠ [] := by
      obtain ⟨c, hc, _⟩ := hud
      exact List.ne_nil_of_mem hc
    refine ⟨e1, hne, e3, ?_, ?_, hud, ?_, ?_, ?_⟩
    · exact hmem2 ⟨true, ReplayOp.VerifyReverseSig,
        replayStep kenv kf un link ReplayOp.VerifyReverseSig⟩ (by simp [linkPlan]) rfl
    · exact hmem2 ⟨true, ReplayOp.Revoke,
        replayStep kenv kf un link ReplayOp.Revoke⟩ (by simp [linkPlan]) rfl
    · intro hd
      exact hmem2 ⟨decide (link.GetRole ≠ KeyRole.DLG_NONE), ReplayOp.Delegate,
        replayStep kenv kf un link ReplayOp.Delegate⟩ (by simp [linkPlan])
        (by simpa using hd)
    · intro hd
      exact hmem2 ⟨sigCheckDueB kenv links i link, ReplayOp.VerifySigWithKeyFamily,
        replayStep kenv kf un link ReplayOp.VerifySigWithKeyFamily⟩ (by simp [linkPlan]) hd
    · intro hd
      exact hmem2 ⟨first, ReplayOp.InsertEldestLink,
        replayStep kenv kf un link ReplayOp.InsertEldestLink⟩ (by simp [linkPlan]) hd

/-- Once the function has returned, the loop body does nothing. -/
theorem verifySubchainLink_of_err (kenv : KeyEnv) (kf : KeyFamily) (un : String)
    (links : List ChainLink) (i : Nat) (link : ChainLink) (first : Bool) (s : ReplayState)
    (e : KbError) (h : s.err = some e) :
    verifySubchainLink kenv kf un links i link first s = s := by
  rw [verifySubchainLink_eq_runPlan]
  exact runPlan_of_err i _ s e h

/-- On the first link the loop body starts with `InsertEldestLink`, on the
CKI it is entered with. -/
theorem verifySubchainLink_insert (kenv : KeyEnv) (kf : KeyFamily) (un : String)
    (links : List ChainLink) (i : Nat) (link : ChainLink) (s : ReplayState)
    (hs : s.err = none) :
    ∃ tl, (verifySubchainLink kenv kf un links i link true s).calls =
      s.calls ++
        { op := ReplayOp.InsertEldestLink, linkIndex := i, cki := s.cki,
          ckiOut := (kenv.InsertEldestLink kf s.cki link un).1,
          err := (kenv.InsertEldestLink kf s.cki link un).2 } :: tl := by
  rw [verifySubchainLink_eq_runPlan, linkPlan, runPlan]
  simp only [if_true]
  rw [ReplayState.call_of_ok s _ _ _ hs]
  obtain ⟨new, h1, _⟩ := runPlan_calls i
    [⟨sigCheckDueB kenv links i link, ReplayOp.VerifySigWithKeyFamily,
        replayStep kenv kf un link ReplayOp.VerifySigWithKeyFamily⟩,
      ⟨decide (link.GetRole ≠ KeyRole.DLG_NONE), ReplayOp.Delegate,
        replayStep kenv kf un link ReplayOp.Delegate⟩,
      ⟨true, ReplayOp.VerifyReverseSig, replayStep kenv kf un link ReplayOp.VerifyReverseSig⟩,
      ⟨true, ReplayOp.Revoke, replayStep kenv kf un link ReplayOp.Revoke⟩,
      ⟨true, ReplayOp.UpdateDevices, replayStep kenv kf un link ReplayOp.UpdateDevices⟩]
    { cki := (replayStep kenv kf un link ReplayOp.InsertEldestLink s.cki).1
      calls := s.calls ++
        [{ op := ReplayOp.InsertEldestLink, linkIndex := i, cki := s.cki,
           ckiOut := (replayStep kenv kf un link ReplayOp.InsertEldestLink s.cki).1,
           err := (replayStep kenv kf un link ReplayOp.InsertEldestLink s.cki).2 }]
      err := (replayStep kenv kf un link ReplayOp.InsertEldestLink s.cki).2 }
  refine ⟨new, ?_⟩
  rw [h1]
  simp [replayStep]

/-- When the loop body reaches its signature check and the check is due,
`VerifySigWithKeyFamily` is called. -/
theorem verifySubchainLink_sigcheck (kenv : KeyEnv) (kf : KeyFamily) (un : String)
    (links : List ChainLink) (i : Nat) (link : ChainLink) (first : Bool) (s : ReplayState)
    (hs : s.err = none)
    (hins : first = true → (kenv.InsertEldestLink kf s.cki link un).2 = none)
    (hdue : sigCheckDueB kenv links i link = true) :
    ∃ c ∈ (verifySubchainLink kenv kf un links i link first s).calls,
      c.op = ReplayOp.VerifySigWithKeyFamily ∧ c.linkIndex = i := by
  rw [verifySubchainLink_eq_runPlan, linkPlan, runPlan, runPlan]
  simp only [hdue, if_true]
  have hs1 : (if first = true then
      s.call ReplayOp.InsertEldestLink i (replayStep kenv kf un link ReplayOp.InsertEldestLink)
      else s).err = none := by
    by_cases hf : first = true
    · rw [if_pos hf, ReplayState.call_of_ok s _ _ _ hs]
      exact hins hf
    · rw [if_neg hf]; exact hs
  rw [ReplayState.call_of_ok _ _ _ _ hs1]
  obtain ⟨new, h1, _⟩ := runPlan_calls i
    [⟨decide (link.GetRole ≠ KeyRole.DLG_NONE), ReplayOp.Delegate,
        replayStep kenv kf un link ReplayOp.Delegate⟩,
      ⟨true, ReplayOp.VerifyReverseSig, replayStep kenv kf un link ReplayOp.VerifyReverseSig⟩,
      ⟨true, ReplayOp.Revoke, replayStep kenv kf un link ReplayOp.Revoke⟩,
      ⟨true, ReplayOp.UpdateDevices, replayStep kenv kf un link ReplayOp.UpdateDevices⟩]
    { cki := (replayStep kenv kf un link ReplayOp.VerifySigWithKeyFamily
        (if first = true then
          s.call ReplayOp.InsertEldestLink i
            (replayStep kenv kf un link ReplayOp.InsertEldestLink)
          else s).cki).1
      calls := (if first = true then
          s.call ReplayOp.InsertEldestLink i
            (replayStep kenv kf un link ReplayOp.InsertEldestLink)
          else s).calls ++
        [{ op := ReplayOp.VerifySigWithKeyFamily, linkIndex := i,
           cki := (if first = true then
              s.call ReplayOp.InsertEldestLink i
                (replayStep kenv kf un link ReplayOp.InsertEldestLink)
              else s).cki,
           ckiOut := (replayStep kenv kf un link ReplayOp.VerifySigWithKeyFamily
              (if first = true then
                s.call ReplayOp.InsertEldestLink i
                  (replayStep kenv kf un link ReplayOp.InsertEldestLink)
                else s).cki).1,
           err := (replayStep kenv kf un link ReplayOp.VerifySigWithKeyFamily
              (if first = true then
                s.call ReplayOp.InsertEldestLink i
                  (replayStep kenv kf un link ReplayOp.InsertEldestLink)
                else s).cki).2 }]
      err := (replayStep kenv kf un link ReplayOp.VerifySigWithKeyFamily
        (if first = true then
          s.call ReplayOp.InsertEldestLink i
            (replayStep kenv kf un link ReplayOp.InsertEldestLink)
          else s).cki).2 }
  rw [h1]
  exact ⟨_, List.mem_append_left _ (List.mem_append_right _ (List.mem_singleton_self _)),
    rfl, rfl⟩

/-! ## The replay of `verifySubchain`: the loop -/

/-- Once the function has returned, the loop does nothing. -/
theorem verifySubchainLoop_of_err (kenv : KeyEnv) (kf : KeyFamily) (un : String)
    (links : List ChainLink) (rest : List ChainLink) (i : Nat) (first : Bool) (s : ReplayState)
    (e : KbError) (h : s.err = some e) :
    verifySubchainLoop kenv kf un links rest i first s = s := by
  cases rest with
  | nil => rfl
  | cons link rest2 =>
    rw [verifySubchainLoop]
    simp only [verifySubchainLink_of_err kenv kf un links i link first s e h, h]

/-- The loop over `xs ++ ys` is the loop over `xs` followed by the loop over
`ys`. -/
theorem verifySubchainLoop_append (kenv : KeyEnv) (kf : KeyFamily) (un : String)
    (links : List ChainLink) (ys : List ChainLink) :
    ∀ (xs : List ChainLink) (i : Nat) (first : Bool) (s : ReplayState),
      verifySubchainLoop kenv kf un links (xs ++ ys) i first s =
        verifySubchainLoop kenv kf un links ys (i + xs.length) (first && xs.isEmpty)
          (verifySubchainLoop kenv kf un links xs i first s) := by
  intro xs
  induction xs with
  | nil => intro i first s; simp [verifySubchainLoop]
  | cons x xs2 ih =>
    intro i first s
    rw [List.cons_append, verifySubchainLoop, verifySubchainLoop]
    cases hb : (verifySubchainLink kenv kf un links i x first s).err with
    | some e =>
      simp only [List.isEmpty_cons, Bool.and_false]
      rw [verifySubchainLoop_of_err kenv kf un links ys _ false _ e hb]
    | none =>
      simp only [List.isEmpty_cons, Bool.and_false]
      rw [ih (i + 1) false _]
      simp only [Bool.false_and, List.length_cons]
      have : i + 1 + xs2.length = i + (xs2.length + 1) := by omega
      rw [this]

/-- The calls the loop adds to the log: each was made for a link of the list
at an index the loop went through and records what the collaborator of its
name did on that link and on the CKI it received; `InsertEldestLink` is only
called for the first link, `VerifySigWithKeyFamily` only when the check is
due, `Delegate` only on a delegating link, `PutSigCheckCache` never. -/
theorem verifySubchainLoop_calls (kenv : KeyEnv) (kf : KeyFamily) (un : String)
    (links : List ChainLink) :
    ∀ (rest : List ChainLink) (i : Nat) (first : Bool) (s : ReplayState),
      rest = links.drop i →
      ∃ new,
        (verifySubchainLoop kenv kf un links rest i first s).calls = s.calls ++ new ∧
        (∀ c ∈ new, i ≤ c.linkIndex ∧ c.linkIndex < i + rest.length ∧
          c.op ≠ ReplayOp.PutSigCheckCache ∧
          ∃ link, links[c.linkIndex]? = some link ∧
            c.ckiOut = (replayStep kenv kf un link c.op c.cki).1 ∧
            c.err = (replayStep kenv kf un link c.op c.cki).2 ∧
            (c.op = ReplayOp.InsertEldestLink → first = true ∧ c.linkIndex = i) ∧
            (c.op = ReplayOp.VerifySigWithKeyFamily →
              sigCheckDueB kenv links c.linkIndex link = true) ∧
            (c.op = ReplayOp.Delegate → link.GetRole ≠ KeyRole.DLG_NONE)) := by
  intro rest
  induction rest with
  | nil => intro i first s _; exact ⟨[], by simp [verifySubchainLoop], by simp⟩
  | cons link rest2 ih =>
    intro i first s hdrop
    have hlink : links[i]? = some link := by
      have := congrArg (fun l => l[0]?) hdrop
      simp only [List.getElem?_cons_zero, List.getElem?_drop, Nat.add_zero] at this
      exact this.symm
    have hrest2 : rest2 = links.drop (i + 1) := by
      have := congrArg List.tail hdrop
      simp only [List.tail_cons, List.tail_drop] at this
      exact this
    obtain ⟨newb, hb1, hb2, _, _, _⟩ := verifySubchainLink_calls kenv kf un links i link first s
    have hfacts : ∀ c ∈ newb, i ≤ c.linkIndex ∧ c.linkIndex < i + (link :: rest2).length ∧
        c.op ≠ ReplayOp.PutSigCheckCache ∧
        ∃ link, links[c.linkIndex]? = some link ∧
          c.ckiOut = (replayStep kenv kf un link c.op c.cki).1 ∧
          c.err = (replayStep kenv kf un link c.op c.cki).2 ∧
          (c.op = ReplayOp.InsertEldestLink → first = true ∧ c.linkIndex = i) ∧
          (c.op = ReplayOp.VerifySigWithKeyFamily →
            sigCheckDueB kenv links c.linkIndex link = true) ∧
          (c.op = ReplayOp.Delegate → link.GetRole ≠ KeyRole.DLG_NONE) := by
      intro c hc
      obtain ⟨hi, hput, hout, herr, hins, hsig, hdel⟩ := hb2 c hc
      refine ⟨by omega, by simp only [List.length_cons]; omega, hput, link, by rw [hi]; exact hlink,
        hout, herr, fun h => ⟨hins h, hi⟩, ?_, hdel⟩
      intro h; rw [hi]; exact hsig h
    rw [verifySubchainLoop]
    cases hberr : (verifySubchainLink kenv kf un links i link first s).err with
    | some e => exact ⟨newb, hb1, hfacts⟩
    | none =>
      obtain ⟨new2, h1, h2⟩ := ih (i + 1) false
        (verifySubchainLink kenv kf un links i link first s) hrest2
      refine ⟨newb ++ new2, ?_, ?_⟩
      · simp only []
        rw [h1, hb1, List.append_assoc]
      · intro c hc
        rcases List.mem_append.mp hc with hc | hc
        · exact hfacts c hc
        · obtain ⟨g1, g2, g3, l2, g4, g5, g6, g7, g8, g9⟩ := h2 c hc
          refine ⟨by omega, by simp only [List.length_cons]; omega, g3, l2, g4, g5, g6, ?_, g8, g9⟩
          intro h
          have := (g7 h).1
          cases this

/-- The test of the loop body is the proposition `sigCheckDue`. -/
theorem sigCheckDueB_iff (kenv : KeyEnv) (links : List ChainLink) (i : Nat) (link : ChainLink)
    (hl : links[i]? = some link) :
    sigCheckDueB kenv links i link = true ↔ sigCheckDue kenv links i := by
  unfold sigCheckDueB sigCheckDue
  constructor
  · intro h
    refine ⟨link, hl, ?_⟩
    simp only [Bool.or_eq_true, decide_eq_true_eq, Bool.not_eq_true'] at h
    rcases h with (h | h) | h | h
    · exact Or.inl h
    · exact Or.inr (Or.inl h)
    · exact Or.inr (Or.inl h)
    · right; right
      cases hn : links[i + 1]? with
      | none => rw [hn] at h; cases h
      | some next => rw [hn] at h; exact ⟨next, rfl, h⟩
  · rintro ⟨link2, hl2, h⟩
    rw [hl] at hl2
    cases hl2
    simp only [Bool.or_eq_true, decide_eq_true_eq, Bool.not_eq_true']
    rcases h with h | h | ⟨next, hn, h⟩
    · exact Or.inl (Or.inl h)
    · exact Or.inl (Or.inr h)
    · right; right
      rw [hn]; exact h

theorem linkCompleted_mono (kenv : KeyEnv) (links : List ChainLink)
    (calls calls2 : List ReplayCall) (j : Nat) (hsub : ∀ c ∈ calls, c ∈ calls2)
    (h : linkCompleted kenv links calls j) : linkCompleted kenv links calls2 j := by
  obtain ⟨⟨c1, m1, p1⟩, ⟨c2, m2, p2⟩, ⟨c3, m3, p3⟩, h4, h5⟩ := h
  refine ⟨⟨c1, hsub c1 m1, p1⟩, ⟨c2, hsub c2 m2, p2⟩, ⟨c3, hsub c3 m3, p3⟩, ?_, ?_⟩
  · intro link hl hr
    obtain ⟨c, m, q⟩ := h4 link hl hr
    exact ⟨c, hsub c m, q⟩
  · intro hd
    obtain ⟨c, m, q⟩ := h5 hd
    exact ⟨c, hsub c m, q⟩

/-- A link is only entered by the loop when the steps of the link before it
have all completed; and when the loop ends without error the steps of every
link it went through have completed. -/
theorem verifySubchainLoop_completed (kenv : KeyEnv) (kf : KeyFamily) (un : String)
    (links : List ChainLink) :
    ∀ (rest : List ChainLink) (i : Nat) (first : Bool) (s : ReplayState),
      rest = links.drop i → (∀ c ∈ s.calls, c.linkIndex < i) →
      (∀ c ∈ (verifySubchainLoop kenv kf un links rest i first s).calls, ∀ j, i ≤ j →
        c.linkIndex = j + 1 →
        linkCompleted kenv links (verifySubchainLoop kenv kf un links rest i first s).calls j) ∧
      ((verifySubchainLoop kenv kf un links rest i first s).err = none →
        ∀ j, i ≤ j → j < i + rest.length →
        linkCompleted kenv links (verifySubchainLoop kenv kf un links rest i first s).calls j) := by
  intro rest
  induction rest with
  | nil =>
    intro i first s _ hold
    refine ⟨?_, ?_⟩
    · intro c hc j hj hcj
      have := hold c hc
      omega
    · intro _ j h1 h2
      simp only [List.length_nil] at h2
      omega
  | cons link rest2 ih =>
    intro i first s hdrop hold
    have hlink : links[i]? = some link := by
      have := congrArg (fun l => l[0]?) hdrop
      simp only [List.getElem?_cons_zero, List.getElem?_drop, Nat.add_zero] at this
      exact this.symm
    have hrest2 : rest2 = links.drop (i + 1) := by
      have := congrArg List.tail hdrop
      simp only [List.tail_cons, List.tail_drop] at this
      exact this
    obtain ⟨newb, hb1, hb2, _, hb5, _⟩ := verifySubchainLink_calls kenv kf un links i link first s
    rw [verifySubchainLoop]
    cases hberr : (verifySubchainLink kenv kf un links i link first s).err with
    | some e =>
      simp only []
      refine ⟨?_, ?_⟩
      · intro c hc j hj hcj
        rw [hb1] at hc
        rcases List.mem_append.mp hc with hc | hc
        · have := hold c hc; omega
        · have := (hb2 c hc).1; omega
      · intro h; rw [hberr] at h; cases h
    | none =>
      simp only []
      obtain ⟨e1, _, e3, ⟨c1, m1, p1⟩, ⟨c2, m2, p2⟩, ⟨c3, m3, p3⟩, e7, e8, _⟩ := hb5 hberr
      have hsubb : ∀ c ∈ newb,
          c ∈ (verifySubchainLink kenv kf un links i link first s).calls := by
        intro c hc; rw [hb1]; exact List.mem_append_right _ hc
      have hcompb : linkCompleted kenv links
          (verifySubchainLink kenv kf un links i link first s).calls i := by
        refine ⟨⟨c1, hsubb c1 m1, p1, (hb2 c1 m1).1, e3 c1 m1⟩,
          ⟨c2, hsubb c2 m2, p2, (hb2 c2 m2).1, e3 c2 m2⟩,
          ⟨c3, hsubb c3 m3, p3, (hb2 c3 m3).1, e3 c3 m3⟩, ?_, ?_⟩
        · intro link2 hl2 hr
          rw [hlink] at hl2
          cases hl2
          obtain ⟨c, m, q⟩ := e7 hr
          exact ⟨c, hsubb c m, q, (hb2 c m).1, e3 c m⟩
        · intro hd
          obtain ⟨c, m, q⟩ := e8 ((sigCheckDueB_iff kenv links i link hlink).mpr hd)
          exact ⟨c, hsubb c m, q, (hb2 c m).1, e3 c m⟩
      obtain ⟨new2, hl1, _⟩ := verifySubchainLoop_calls kenv kf un links rest2 (i + 1) false
        (verifySubchainLink kenv kf un links i link first s) hrest2
      have hsub2 : ∀ c ∈ (verifySubchainLink kenv kf un links i link first s).calls,
          c ∈ (verifySubchainLoop kenv kf un links rest2 (i + 1) false
            (verifySubchainLink kenv kf un links i link first s)).calls := by
        intro c hc; rw [hl1]; exact List.mem_append_left _ hc
      have holdb : ∀ c ∈ (verifySubchainLink kenv kf un links i link first s).calls,
          c.linkIndex < i + 1 := by
        intro c hc
        rw [hb1] at hc
        rcases List.mem_append.mp hc with hc | hc
        · have := hold c hc; omega
        · have := (hb2 c hc).1; omega
      obtain ⟨ih1, ih2⟩ := ih (i + 1) false
        (verifySubchainLink kenv kf un links i link first s) hrest2 holdb
      have hcomp := linkCompleted_mono kenv links _ _ i hsub2 hcompb
      refine ⟨?_, ?_⟩
      · intro c hc j hj hcj
        by_cases hji : j = i
        · subst hji; exact hcomp
        · exact ih1 c hc j (by omega) hcj
      · intro herr j hj1 hj2
        by_cases hji : j = i
        · subst hji; exact hcomp
        · exact ih2 herr j (by omega) (by simp only [List.length_cons] at hj2; omega)

/-- The loop keeps the log well formed: each logged call follows the one
before it and the last one left the CKI and the `err` of the state; when the
loop ends without error the last call was a step of the last link. -/
theorem verifySubchainLoop_wellLogged (kenv : KeyEnv) (kf : KeyFamily) (un : String)
    (links : List ChainLink) :
    ∀ (rest : List ChainLink) (i : Nat) (first : Bool) (s : ReplayState),
      s.wellLogged i 0 →
      List.Chain' ReplayCall.follows (verifySubchainLoop kenv kf un links rest i first s).calls ∧
      (∀ c, (verifySubchainLoop kenv kf un links rest i first s).calls.getLast? = some c →
        c.ckiOut = (verifySubchainLoop kenv kf un links rest i first s).cki ∧
        c.err = (verifySubchainLoop kenv kf un links rest i first s).err) ∧
      ((verifySubchainLoop kenv kf un links rest i first s).err = none → rest ≠ [] →
        ∀ c, (verifySubchainLoop kenv kf un links rest i first s).calls.getLast? = some c →
          c.linkIndex + 1 = i + rest.length ∧ c.op.rank < 6) := by
  intro rest
  induction rest with
  | nil =>
    intro i first s h
    refine ⟨h.1, fun c hc => ⟨(h.2 c hc).1, (h.2 c hc).2.1⟩, fun _ hne => absurd rfl hne⟩
  | cons link rest2 ih =>
    intro i first s h
    have hb := verifySubchainLink_wellLogged kenv kf un links i link first s h
    obtain ⟨newb, hb1, hb2, _, hb5, _⟩ := verifySubchainLink_calls kenv kf un links i link first s
    rw [verifySubchainLoop]
    cases hberr : (verifySubchainLink kenv kf un links i link first s).err with
    | some e =>
      simp only []
      refine ⟨hb.1, fun c hc => ⟨(hb.2 c hc).1, (hb.2 c hc).2.1⟩, ?_⟩
      intro herr; rw [hberr] at herr; cases herr
    | none =>
      simp only []
      obtain ⟨_, hne, _⟩ := hb5 hberr
      have hlastb : ∀ c, (verifySubchainLink kenv kf un links i link first s).calls.getLast?
          = some c → c.linkIndex = i := by
        intro c hc
        rw [hb1, List.getLast?_append_of_ne_nil _ hne] at hc
        exact (hb2 c (List.mem_of_getLast?_eq_some hc)).1
      have hnext : (verifySubchainLink kenv kf un links i link first s).wellLogged (i + 1) 0 := by
        refine ⟨hb.1, ?_⟩
        intro c hc
        obtain ⟨g1, g2, _⟩ := hb.2 c hc
        exact ⟨g1, g2, fun _ => Or.inr (by rw [hlastb c hc])⟩
      obtain ⟨i1, i2, i3⟩ := ih (i + 1) false _ hnext
      refine ⟨i1, i2, ?_⟩
      intro herr _ c hc
      cases rest2 with
      | nil =>
        rw [verifySubchainLoop] at hc
        have hi := hlastb c hc
        obtain ⟨_, _, g3⟩ := hb.2 c hc
        rcases g3 hberr with ⟨_, hr⟩ | hcontra
        · exact ⟨by simp only [List.length_cons, List.length_nil]; omega, hr⟩
        · omega
      | cons l2 r3 =>
        obtain ⟨k1, k2⟩ := i3 herr (List.cons_ne_nil _ _) c hc
        exact ⟨by simp only [List.length_cons] at k1 ⊢; omega, k2⟩

/-! ## `verifySubchain` -/

/-- The result of `verifySubchain` on an empty list. -/
theorem verifySubchain_nil (kenv : KeyEnv) (sc : SigChain) (kf : KeyFamily) :
    sc.verifySubchain kenv kf [] =
      { links := [], cached := false, cki := none, err := some KbError.InternalError,
        calls := [] } := by
  simp [SigChain.verifySubchain]

/-- The result of `verifySubchain` when the last link holds a cached CKI. -/
theorem verifySubchain_cached (kenv : KeyEnv) (sc : SigChain) (kf : KeyFamily)
    (links : List ChainLink) (lst : ChainLink) (cki : ComputedKeyInfos)
    (hl : last links = some lst) (hc : lst.GetSigCheckCache = some cki) :
    sc.verifySubchain kenv kf links =
      { links := links, cached := true, cki := some cki, err := none, calls := [] } := by
  have hne : ¬ links.length = 0 := by
    intro h0
    rw [(last_eq_none_iff links).mpr (List.eq_nil_of_length_eq_zero h0)] at hl
    cases hl
  have hget : links[links.length - 1]? = some lst := by
    unfold last at hl; rw [if_neg hne] at hl; exact hl
  simp only [SigChain.verifySubchain, hne, if_false, hget, hc]

/-- The result of `verifySubchain` when the last link holds no cached CKI: the
uncached replay, followed by `PutSigCheckCache` on the last link when it ends
without error. -/
theorem verifySubchain_uncached (kenv : KeyEnv) (sc : SigChain) (kf : KeyFamily)
    (links : List ChainLink) (lst : ChainLink)
    (hl : last links = some lst) (hc : lst.GetSigCheckCache = none) :
    (∀ e, (replayAll kenv kf sc.username links).err = some e →
      sc.verifySubchain kenv kf links =
        { links := links, cached := false,
          cki := some (replayAll kenv kf sc.username links).cki, err := some e,
          calls := (replayAll kenv kf sc.username links).calls }) ∧
    ((replayAll kenv kf sc.username links).err = none →
      sc.verifySubchain kenv kf links =
        { links := links.set (links.length - 1)
            (lst.PutSigCheckCache (replayAll kenv kf sc.username links).cki)
          cached := false
          cki := some (replayAll kenv kf sc.username links).cki
          err := none
          calls := (replayAll kenv kf sc.username links).calls ++
            [{ op := ReplayOp.PutSigCheckCache, linkIndex := links.length - 1,
               cki := (replayAll kenv kf sc.username links).cki,
               ckiOut := (replayAll kenv kf sc.username links).cki, err := none }] }) := by
  have hne : ¬ links.length = 0 := by
    intro h0
    rw [(last_eq_none_iff links).mpr (List.eq_nil_of_length_eq_zero h0)] at hl
    cases hl
  have hget : links[links.length - 1]? = some lst := by
    unfold last at hl; rw [if_neg hne] at hl; exact hl
  constructor
  · intro e he
    unfold replayAll at he
    simp only [SigChain.verifySubchain, hne, if_false, hget, hc, he, replayAll]
  · intro he
    unfold replayAll at he
    simp only [SigChain.verifySubchain, hne, if_false, hget, hc, he, replayAll]

/-- Every list of links is empty, or ends in a link that holds a cached CKI,
or ends in a link that holds none. -/
theorem last_cases (links : List ChainLink) :
    links = [] ∨ (∃ lst cki, last links = some lst ∧ lst.GetSigCheckCache = some cki) ∨
      (∃ lst, last links = some lst ∧ lst.GetSigCheckCache = none) := by
  cases hl : last links with
  | none => exact Or.inl ((last_eq_none_iff links).mp hl)
  | some lst =>
    cases hc : lst.GetSigCheckCache with
    | none => exact Or.inr (Or.inr ⟨lst, rfl, hc⟩)
    | some cki => exact Or.inr (Or.inl ⟨lst, cki, rfl, hc⟩)

/-- C12 (idempotent subchain verify).  If `verifySubchain(kf, L)` returns no
error with `cached = false`, then `L` is not empty and a `verifySubchain` that
follows at once on the same links (as the first call left them) returns
`cached = true`, no error and the CKI of the first call, leaves the links as
they are, and makes no call of `InsertEldestLink`, `VerifySigWithKeyFamily`,
`Delegate`, `VerifyReverseSig`, `Revoke`, `UpdateDevices` (or
`PutSigCheckCache`): its log of calls is empty. -/
theorem verifySubchain_idempotent (kenv : KeyEnv) (sc : SigChain) (kf : KeyFamily)
    (L : List ChainLink)
    (hok : (sc.verifySubchain kenv kf L).err = none)
    (hunc : (sc.verifySubchain kenv kf L).cached = false) :
    L ≠ [] ∧
    (sc.verifySubchain kenv kf (sc.verifySubchain kenv kf L).links).cached = true ∧
    (sc.verifySubchain kenv kf (sc.verifySubchain kenv kf L).links).err = none ∧
    (sc.verifySubchain kenv kf (sc.verifySubchain kenv kf L).links).cki
      = (sc.verifySubchain kenv kf L).cki ∧
    (sc.verifySubchain kenv kf (sc.verifySubchain kenv kf L).links).calls = [] ∧
    (sc.verifySubchain kenv kf (sc.verifySubchain kenv kf L).links).links
      = (sc.verifySubchain kenv kf L).links := by
  rcases last_cases L with hnil | ⟨lst, cki, hl, hc⟩ | ⟨lst, hl, hc⟩
  · subst hnil
    rw [verifySubchain_nil] at hok
    cases hok
  · rw [verifySubchain_cached kenv sc kf L lst cki hl hc] at hunc
    cases hunc
  · obtain ⟨herr, hsucc⟩ := verifySubchain_uncached kenv sc kf L lst hl hc
    have hne : L ≠ [] := by
      intro h; rw [(last_eq_none_iff L).mpr h] at hl; cases hl
    have hlen : ¬ L.length = 0 := fun h => hne (List.eq_nil_of_length_eq_zero h)
    cases he : (replayAll kenv kf sc.username L).err with
    | some e =>
      rw [herr e he] at hok
      cases hok
    | none =>
      rw [hsucc he]
      have hl2 : last (L.set (L.length - 1)
          (lst.PutSigCheckCache (replayAll kenv kf sc.username L).cki))
          = some (lst.PutSigCheckCache (replayAll kenv kf sc.username L).cki) := by
        unfold last
        rw [List.length_set, if_neg hlen]
        exact List.getElem?_set_self (by omega)
      rw [verifySubchain_cached kenv sc kf _ _ (replayAll kenv kf sc.username L).cki hl2 rfl]
      exact ⟨hne, rfl, rfl, rfl, rfl, rfl⟩

/-- Witness of C12: the three-link rotation chain is replayed without error and
not from the cache; the second call answers from the cache with the same
CKI and an empty log. -/
theorem verifySubchain_idempotent_witness :
    ((mkChain []).verifySubchain testKeyEnv { AllKeys := [] } rotationLinks).err = none ∧
    ((mkChain []).verifySubchain testKeyEnv { AllKeys := [] } rotationLinks).cached = false ∧
    ((mkChain []).verifySubchain testKeyEnv { AllKeys := [] }
      ((mkChain []).verifySubchain testKeyEnv { AllKeys := [] } rotationLinks).links).cached
        = true ∧
    ((mkChain []).verifySubchain testKeyEnv { AllKeys := [] }
      ((mkChain []).verifySubchain testKeyEnv { AllKeys := [] } rotationLinks).links).calls
        = [] ∧
    ((mkChain []).verifySubchain testKeyEnv { AllKeys := [] }
      ((mkChain []).verifySubchain testKeyEnv { AllKeys := [] } rotationLinks).links).cki
        = some { entries := [([10], 0), ([20], 1)] } :=
  ⟨by decide, by decide,
   (verifySubchain_idempotent testKeyEnv (mkChain []) { AllKeys := [] } rotationLinks
      (by decide) (by decide)).2.1,
   (verifySubchain_idempotent testKeyEnv (mkChain []) { AllKeys := [] } rotationLinks
      (by decide) (by decide)).2.2.2.2.1,
   by decide⟩

/-! ## The uncached replay -/

/-- The log of the uncached replay: it is well formed, its calls are made for
links of the list and record what the collaborators did, and a link is only
entered when the link before it has completed. -/
theorem replayAll_facts (kenv : KeyEnv) (kf : KeyFamily) (un : String) (L : List ChainLink) :
    List.Chain' ReplayCall.follows (replayAll kenv kf un L).calls ∧
    (∀ c, (replayAll kenv kf un L).calls.getLast? = some c →
      c.ckiOut = (replayAll kenv kf un L).cki ∧ c.err = (replayAll kenv kf un L).err) ∧
    ((replayAll kenv kf un L).err = none → L ≠ [] →
      ∀ c, (replayAll kenv kf un L).calls.getLast? = some c →
        c.linkIndex + 1 = L.length ∧ c.op.rank < 6) ∧
    (∀ c ∈ (replayAll kenv kf un L).calls,
      c.linkIndex < L.length ∧ c.op ≠ ReplayOp.PutSigCheckCache ∧
      ∃ link, L[c.linkIndex]? = some link ∧
        c.ckiOut = (replayStep kenv kf un link c.op c.cki).1 ∧
        c.err = (replayStep kenv kf un link c.op c.cki).2 ∧
        (c.op = ReplayOp.InsertEldestLink → c.linkIndex = 0) ∧
        (c.op = ReplayOp.VerifySigWithKeyFamily → sigCheckDue kenv L c.linkIndex) ∧
        (c.op = ReplayOp.Delegate → link.GetRole ≠ KeyRole.DLG_NONE)) ∧
    (∀ c ∈ (replayAll kenv kf un L).calls, ∀ j, c.linkIndex = j + 1 →
      linkCompleted kenv L (replayAll kenv kf un L).calls j) ∧
    ((replayAll kenv kf un L).err = none → ∀ j, j < L.length →
      linkCompleted kenv L (replayAll kenv kf un L).calls j) := by
  have hinit : ({ cki := NewComputedKeyInfos, calls := [], err := none } :
      ReplayState).wellLogged 0 0 := by
    refine ⟨List.chain'_nil, ?_⟩
    intro c hc
    simp at hc
  obtain ⟨w1, w2, w3⟩ := verifySubchainLoop_wellLogged kenv kf un L L 0 true _ hinit
  obtain ⟨new, c1, c2⟩ := verifySubchainLoop_calls kenv kf un L L 0 true
    { cki := NewComputedKeyInfos, calls := [], err := none } (by simp)
  obtain ⟨d1, d2⟩ := verifySubchainLoop_completed kenv kf un L L 0 true
    { cki := NewComputedKeyInfos, calls := [], err := none } (by simp) (by simp)
  refine ⟨w1, w2, ?_, ?_, ?_, ?_⟩
  · intro herr hne c hc
    have := w3 herr hne c hc
    simpa using this
  · intro c hc
    unfold replayAll at hc
    rw [c1] at hc
    simp only [List.nil_append] at hc
    obtain ⟨_, g2, g3, link, g4, g5, g6, g7, g8, g9⟩ := c2 c hc
    refine ⟨by omega, g3, link, g4, g5, g6, fun h => (g7 h).2, ?_, g9⟩
    intro h
    exact (sigCheckDueB_iff kenv L c.linkIndex link g4).mp (g8 h)
  · intro c hc j hj
    exact d1 c hc j (Nat.zero_le _) hj
  · intro herr j hj
    exact d2 herr j (Nat.zero_le _) (by omega)

/-- The uncached replay over a non-empty list starts with `InsertEldestLink`
on the first link and a fresh CKI. -/
theorem replayAll_head (kenv : KeyEnv) (kf : KeyFamily) (un : String)
    (l0 : ChainLink) (rest : List ChainLink) :
    ∃ tl, (replayAll kenv kf un (l0 :: rest)).calls =
      { op := ReplayOp.InsertEldestLink, linkIndex := 0, cki := NewComputedKeyInfos,
        ckiOut := (kenv.InsertEldestLink kf NewComputedKeyInfos l0 un).1,
        err := (kenv.InsertEldestLink kf NewComputedKeyInfos l0 un).2 } :: tl := by
  obtain ⟨tl0, h0⟩ := verifySubchainLink_insert kenv kf un (l0 :: rest) 0 l0
    { cki := NewComputedKeyInfos, calls := [], err := none } rfl
  simp only [List.nil_append] at h0
  unfold replayAll
  rw [verifySubchainLoop]
  cases hberr : (verifySubchainLink kenv kf un (l0 :: rest) 0 l0 true
      { cki := NewComputedKeyInfos, calls := [], err := none }).err with
  | some e => exact ⟨tl0, h0⟩
  | none =>
    obtain ⟨new2, h1, _⟩ := verifySubchainLoop_calls kenv kf un (l0 :: rest) rest 1 false
      (verifySubchainLink kenv kf un (l0 :: rest) 0 l0 true
        { cki := NewComputedKeyInfos, calls := [], err := none }) (by simp)
    refine ⟨tl0 ++ new2, ?_⟩
    simp only []
    rw [h1, h0]
    simp

/-- The uncached replay is the loop over the links from index `i` on, run
from the state in which the replay arrives at `i`. -/
theorem replayAll_eq_from (kenv : KeyEnv) (kf : KeyFamily) (un : String) (L : List ChainLink)
    (i : Nat) (hi : i ≤ L.length) :
    replayAll kenv kf un L =
      verifySubchainLoop kenv kf un L (L.drop i) i (decide (i = 0)) (replayUpTo kenv kf un L i) := by
  unfold replayAll replayUpTo
  have h := verifySubchainLoop_append kenv kf un L (L.drop i) (L.take i) 0 true
    { cki := NewComputedKeyInfos, calls := [], err := none }
  rw [List.take_append_drop] at h
  rw [h]
  have hlen : 0 + (L.take i).length = i := by
    rw [List.length_take]; omega
  have hemp : (true && (L.take i).isEmpty) = decide (i = 0) := by
    cases i with
    | zero => simp
    | succ n =>
      cases L with
      | nil => simp at hi
      | cons x xs => simp
  rw [hlen, hemp]

/-- When the replay arrives at the index `i` without error and, for `i = 0`,
`InsertEldestLink` returns no error, a due signature check of the link at `i`
is made. -/
theorem replayAll_sigcheck (kenv : KeyEnv) (kf : KeyFamily) (un : String) (L : List ChainLink)
    (i : Nat) (link : ChainLink) (hl : L[i]? = some link)
    (harr : (replayUpTo kenv kf un L i).err = none)
    (hins : i = 0 → (kenv.InsertEldestLink kf NewComputedKeyInfos link un).2 = none)
    (hdue : sigCheckDue kenv L i) :
    ∃ c ∈ (replayAll kenv kf un L).calls,
      c.op = ReplayOp.VerifySigWithKeyFamily ∧ c.linkIndex = i := by
  have hi : i < L.length := by
    by_contra hge
    rw [List.getElem?_eq_none (by omega)] at hl
    cases hl
  have hdrop : L.drop i = link :: L.drop (i + 1) := by
    rw [List.drop_eq_getElem_cons hi]
    have : L[i] = link := by
      rw [List.getElem?_eq_getElem hi] at hl
      exact Option.some.inj hl
    rw [this]
  have hcki : i = 0 → (replayUpTo kenv kf un L i).cki = NewComputedKeyInfos := by
    intro h0; subst h0
    simp [replayUpTo, verifySubchainLoop]
  obtain ⟨c, hc, hop, hidx⟩ := verifySubchainLink_sigcheck kenv kf un L i link (decide (i = 0))
    (replayUpTo kenv kf un L i) harr
    (by
      intro h0
      have h00 : i = 0 := of_decide_eq_true h0
      rw [hcki h00]
      exact hins h00)
    ((sigCheckDueB_iff kenv L i link hl).mpr hdue)
  refine ⟨c, ?_, hop, hidx⟩
  rw [replayAll_eq_from kenv kf un L i (Nat.le_of_lt hi), hdrop, verifySubchainLoop]
  cases hberr : (verifySubchainLink kenv kf un L i link (decide (i = 0))
      (replayUpTo kenv kf un L i)).err with
  | some e => exact hc
  | none =>
    obtain ⟨new2, h1, _⟩ := verifySubchainLoop_calls kenv kf un L (L.drop (i + 1)) (i + 1) false
      (verifySubchainLink kenv kf un L i link (decide (i = 0)) (replayUpTo kenv kf un L i)) rfl
    simp only []
    rw [h1]
    exact List.mem_append_left _ hc

/-- The log of `verifySubchain`, in every case: it is well formed, it starts
from a fresh CKI, its calls are made for links of the list and record what
the collaborators did, a link is only entered when the link before it has
completed, and `PutSigCheckCache` is only called, last, when every link has
completed. -/
theorem verifySubchain_log (kenv : KeyEnv) (sc : SigChain) (kf : KeyFamily) (L : List ChainLink) :
    List.Chain' ReplayCall.follows (sc.verifySubchain kenv kf L).calls ∧
    (∀ c, (sc.verifySubchain kenv kf L).calls.head? = some c → c.cki = NewComputedKeyInfos) ∧
    (∀ c ∈ (sc.verifySubchain kenv kf L).calls,
      c.linkIndex < L.length ∧
      ∃ link, L[c.linkIndex]? = some link ∧
        c.ckiOut = (replayStep kenv kf sc.username link c.op c.cki).1 ∧
        c.err = (replayStep kenv kf sc.username link c.op c.cki).2 ∧
        (c.op = ReplayOp.InsertEldestLink → c.linkIndex = 0) ∧
        (c.op = ReplayOp.VerifySigWithKeyFamily → sigCheckDue kenv L c.linkIndex) ∧
        (c.op = ReplayOp.Delegate → link.GetRole ≠ KeyRole.DLG_NONE)) ∧
    (∀ c ∈ (sc.verifySubchain kenv kf L).calls, ∀ j, c.linkIndex = j + 1 →
      linkCompleted kenv L (sc.verifySubchain kenv kf L).calls j) ∧
    ((sc.verifySubchain kenv kf L).err = none → (sc.verifySubchain kenv kf L).cached = false →
      ∀ j, j < L.length → linkCompleted kenv L (sc.verifySubchain kenv kf L).calls j) ∧
    ((sc.verifySubchain kenv kf L).err ≠ none →
      (sc.verifySubchain kenv kf L).links = L ∧
      ∀ c ∈ (sc.verifySubchain kenv kf L).calls, c.op ≠ ReplayOp.PutSigCheckCache) ∧
    (∀ c ∈ (sc.verifySubchain kenv kf L).calls, c.op = ReplayOp.PutSigCheckCache →
      (sc.verifySubchain kenv kf L).err = none ∧
      (sc.verifySubchain kenv kf L).calls.getLast? = some c ∧
      ∀ j, j < L.length → linkCompleted kenv L (sc.verifySubchain kenv kf L).calls j) := by
  rcases last_cases L with hnil | ⟨lst, cki, hl, hc⟩ | ⟨lst, hl, hc⟩
  · subst hnil
    rw [verifySubchain_nil]
    simp
  · rw [verifySubchain_cached kenv sc kf L lst cki hl hc]
    simp
  · obtain ⟨herr, hsucc⟩ := verifySubchain_uncached kenv sc kf L lst hl hc
    obtain ⟨f1, f2, f3, f4, f5, f6⟩ := replayAll_facts kenv kf sc.username L
    have hne : L ≠ [] := by
      intro h; rw [(last_eq_none_iff L).mpr h] at hl; cases hl
    have hlen : ¬ L.length = 0 := fun h => hne (List.eq_nil_of_length_eq_zero h)
    have hget : L[L.length - 1]? = some lst := by
      unfold last at hl; rw [if_neg hlen] at hl; exact hl
    obtain ⟨l0, rest, hL⟩ := List.exists_cons_of_ne_nil hne
    obtain ⟨tl, hhead⟩ := replayAll_head kenv kf sc.username l0 rest
    rw [← hL] at hhead
    have hfacts : ∀ c ∈ (replayAll kenv kf sc.username L).calls,
        c.linkIndex < L.length ∧
        ∃ link, L[c.linkIndex]? = some link ∧
          c.ckiOut = (replayStep kenv kf sc.username link c.op c.cki).1 ∧
          c.err = (replayStep kenv kf sc.username link c.op c.cki).2 ∧
          (c.op = ReplayOp.InsertEldestLink → c.linkIndex = 0) ∧
          (c.op = ReplayOp.VerifySigWithKeyFamily → sigCheckDue kenv L c.linkIndex) ∧
          (c.op = ReplayOp.Delegate → link.GetRole ≠ KeyRole.DLG_NONE) := by
      intro c hc
      obtain ⟨g1, _, link, g3⟩ := f4 c hc
      exact ⟨g1, link, g3⟩
    cases he : (replayAll kenv kf sc.username L).err with
    | some e =>
      rw [herr e he]
      refine ⟨f1, ?_, hfacts, f5, ?_, ?_, ?_⟩
      · intro c hc
        simp only [hhead, List.head?_cons, Option.some.injEq] at hc
        subst hc; rfl
      · intro h; cases h
      · intro _
        exact ⟨rfl, fun c hc => (f4 c hc).2.1⟩
      · intro c hc hput
        exact absurd hput (f4 c hc).2.1
    | none =>
      rw [hsucc he]
      have hcomp : ∀ j, j < L.length → linkCompleted kenv L
          ((replayAll kenv kf sc.username L).calls ++
            [{ op := ReplayOp.PutSigCheckCache, linkIndex := L.length - 1,
               cki := (replayAll kenv kf sc.username L).cki,
               ckiOut := (replayAll kenv kf sc.username L).cki, err := none }]) j := by
        intro j hj
        exact linkCompleted_mono kenv L _ _ j (fun c hc => List.mem_append_left _ hc)
          (f6 he j hj)
      refine ⟨?_, ?_, ?_, ?_, ?_, ?_, ?_⟩
      · apply List.Chain'.append f1 (List.chain'_singleton _)
        intro x hx y hy
        simp only [List.head?_cons, Option.mem_def, Option.some.injEq] at hy
        subst hy
        obtain ⟨g1, g2⟩ := f2 x hx
        obtain ⟨g3, g4⟩ := f3 he hne x hx
        refine ⟨by rw [g2, he], g1.symm, Or.inl ⟨?_, g4⟩⟩
        show L.length - 1 = x.linkIndex
        omega
      · intro c hc
        simp only [hhead, List.cons_append, List.head?_cons, Option.some.injEq] at hc
        subst hc; rfl
      · intro c hc
        rcases List.mem_append.mp hc with hc | hc
        · exact hfacts c hc
        · simp only [List.mem_singleton] at hc
          subst hc
          refine ⟨by show L.length - 1 < L.length; omega, lst, hget, rfl, rfl, ?_, ?_, ?_⟩ <;>
            intro h <;> cases h
      · intro c hc j hj
        rcases List.mem_append.mp hc with hc | hc
        · exact linkCompleted_mono kenv L _ _ j (fun c hc => List.mem_append_left _ hc)
            (f5 c hc j hj)
        · simp only [List.mem_singleton] at hc
          subst hc
          have hj2 : L.length - 1 = j + 1 := hj
          exact hcomp j (by omega)
      · intro _ _ j hj
        exact hcomp j hj
      · intro h; exact absurd rfl h
      · intro c hc hput
        refine ⟨rfl, ?_, hcomp⟩
        rcases List.mem_append.mp hc with hc | hc
        · exact absurd hput (f4 c hc).2.1
        · simp only [List.mem_singleton] at hc
          subst hc
          simp

/-! ## A failed replay leaves no cache -/

/-- C13 (no partial cache).  For every key environment, key family and list of
links `L`: when `verifySubchain` returns an error, the links it leaves are
the links it was given, so the sig-check cache of every link, in particular
of the last one, is what it was before the call, and `PutSigCheckCache` is
not among the calls made; and whenever `PutSigCheckCache` is among the calls
made, it is the last call, the steps of every link of `L` have completed
without error before it, and the call returns no error. -/
theorem verifySubchain_no_partial_cache (kenv : KeyEnv) (sc : SigChain) (kf : KeyFamily)
    (L : List ChainLink) :
    ((sc.verifySubchain kenv kf L).err ≠ none →
      (sc.verifySubchain kenv kf L).links = L ∧
      (∀ i : Nat, ((sc.verifySubchain kenv kf L).links[i]?).map ChainLink.GetSigCheckCache =
        (L[i]?).map ChainLink.GetSigCheckCache) ∧
      (last (sc.verifySubchain kenv kf L).links).map ChainLink.GetSigCheckCache =
        (last L).map ChainLink.GetSigCheckCache ∧
      ∀ c ∈ (sc.verifySubchain kenv kf L).calls, c.op ≠ ReplayOp.PutSigCheckCache) ∧
    (∀ c ∈ (sc.verifySubchain kenv kf L).calls, c.op = ReplayOp.PutSigCheckCache →
      (sc.verifySubchain kenv kf L).err = none ∧
      (sc.verifySubchain kenv kf L).calls.getLast? = some c ∧
      (∀ j, j < L.length → linkCompleted kenv L (sc.verifySubchain kenv kf L).calls j) ∧
      ∀ c2 ∈ (sc.verifySubchain kenv kf L).calls, c2.err = none) := by
  obtain ⟨h1, _, _, _, _, h6, h7⟩ := verifySubchain_log kenv sc kf L
  refine ⟨?_, ?_⟩
  · intro herr
    obtain ⟨g1, g2⟩ := h6 herr
    refine ⟨g1, ?_, ?_, g2⟩
    · intro i; rw [g1]
    · rw [g1]
  · intro c hc hput
    obtain ⟨g1, g2, g3⟩ := h7 c hc hput
    refine ⟨g1, g2, g3, ?_⟩
    intro c2 hc2
    rcases List.mem_iff_append.mp hc2 with ⟨pre, post, hsplit⟩
    cases post with
    | nil =>
      rw [hsplit] at g2
      have g2b : c2 = c := by
        simpa [List.getLast?_append] using g2
      subst g2b
      obtain ⟨_, link, _, _, e2, _⟩ := (verifySubchain_log kenv sc kf L).2.2.1 c2 hc2
      rw [e2, hput]; rfl
    | cons d post2 =>
      rw [hsplit] at h1
      have hch : List.Chain' ReplayCall.follows (c2 :: d :: post2) :=
        List.Chain'.right_of_append h1
      exact (List.chain'_cons.mp hch).1.1

/-- C13, on a concrete input: the second of two links is signed by a key that
was never delegated, the replay fails at its signature check, and the links
are left without a cache. -/
theorem verifySubchain_no_partial_cache_witness :
    ((mkChain []).verifySubchain testKeyEnv { AllKeys := [] }
      [mkKeyLink 1 1 none 10 KeyRole.DLG_NONE 0 0,
       mkKeyLink 2 2 (some [1]) 30 KeyRole.DLG_NONE 0 0]).err = some (KbError.External 3) ∧
    ((mkChain []).verifySubchain testKeyEnv { AllKeys := [] }
      [mkKeyLink 1 1 none 10 KeyRole.DLG_NONE 0 0,
       mkKeyLink 2 2 (some [1]) 30 KeyRole.DLG_NONE 0 0]).links =
      [mkKeyLink 1 1 none 10 KeyRole.DLG_NONE 0 0,
       mkKeyLink 2 2 (some [1]) 30 KeyRole.DLG_NONE 0 0] :=
  ⟨by decide,
   ((verifySubchain_no_partial_cache testKeyEnv (mkChain []) { AllKeys := [] }
      [mkKeyLink 1 1 none 10 KeyRole.DLG_NONE 0 0,
       mkKeyLink 2 2 (some [1]) 30 KeyRole.DLG_NONE 0 0]).1 (by decide)).1⟩

/-! ## VerifySigsAndComputeKeys on an empty subchain -/

theorem VerifyChain_nil (env : Env) (sc : SigChain) (h : sc.chainLinks = []) :
    sc.VerifyChain env = (sc, none) := by
  cases sc
  simp only at h
  subst h
  simp [SigChain.VerifyChain, VerifyChainLoop]

theorem LimitToEldestFOKID_nil (kenv : KeyEnv) (sc : SigChain) (fokid : FOKID)
    (h : sc.chainLinks = []) : sc.LimitToEldestFOKID kenv fokid = [] := by
  simp [SigChain.LimitToEldestFOKID, h]

/-- C18 (empty subchain).  With a non-nil key family `kf` and a non-nil eldest
KID, when the chain is empty, or more generally when `VerifyChain` returns no
error and `LimitToEldestFOKID` returns no links: `VerifySigsAndComputeKeys`
leaves as `localCki` a fresh `ComputedKeyInfos` on which
`InsertServerEldestKey` was called with the eldest key and the username,
changes nothing else of the chain `VerifyChain` left, does not invoke
`verifySubchain`, leaves `ckf` (so `ckf.cki`) as it was, and returns
`cached = false` and no error. -/
theorem VerifySigsAndComputeKeys_empty_subchain (env : Env) (kenv : KeyEnv) (sc : SigChain)
    (eldestKid : KID) (ckf : ComputedKeyFamily) (kf : KeyFamily)
    (hkf : ckf.kf = some kf)
    (h : sc.chainLinks = [] ∨
      ((sc.VerifyChain env).2 = none ∧
        (sc.VerifyChain env).1.LimitToEldestFOKID kenv (kenv.KIDToFOKID kf eldestKid) = [])) :
    (sc.VerifySigsAndComputeKeys env kenv (some eldestKid) ckf).sc =
      { (sc.VerifyChain env).1 with
        localCki := some (kenv.InsertServerEldestKey NewComputedKeyInfos
          (kenv.eldestKey kf eldestKid) sc.username) } ∧
    (sc.VerifySigsAndComputeKeys env kenv (some eldestKid) ckf).sc.localCki =
      some (kenv.InsertServerEldestKey NewComputedKeyInfos
        (kenv.eldestKey kf eldestKid) sc.username) ∧
    (sc.VerifySigsAndComputeKeys env kenv (some eldestKid) ckf).subchain = none ∧
    (sc.VerifySigsAndComputeKeys env kenv (some eldestKid) ckf).ckf = ckf ∧
    (sc.VerifySigsAndComputeKeys env kenv (some eldestKid) ckf).ckf.cki = ckf.cki ∧
    (sc.VerifySigsAndComputeKeys env kenv (some eldestKid) ckf).cached = false ∧
    (sc.VerifySigsAndComputeKeys env kenv (some eldestKid) ckf).err = none := by
  have h2 : (sc.VerifyChain env).2 = none ∧
      (sc.VerifyChain env).1.LimitToEldestFOKID kenv (kenv.KIDToFOKID kf eldestKid) = [] := by
    rcases h with h | h
    · rw [VerifyChain_nil env sc h]
      exact ⟨rfl, LimitToEldestFOKID_nil kenv sc _ h⟩
    · exact h
  obtain ⟨hv, hlim⟩ := h2
  have hun : (sc.VerifyChain env).1.username = sc.username := rfl
  have hres : sc.VerifySigsAndComputeKeys env kenv (some eldestKid) ckf =
      { sc := { (sc.VerifyChain env).1 with
                localCki := some (kenv.InsertServerEldestKey NewComputedKeyInfos
                  (kenv.eldestKey kf eldestKid) sc.username) }
        ckf := ckf, cached := false, err := none, subchain := none } := by
    unfold SigChain.VerifySigsAndComputeKeys
    cases hvc : sc.VerifyChain env with
    | mk sc1 e =>
      rw [hvc] at hv hlim hun
      simp only at hv hlim hun
      subst hv
      simp only [hkf, hlim, List.length_nil, if_true, hun]
  rw [hres]
  exact ⟨rfl, rfl, rfl, rfl, rfl, rfl, rfl⟩

/-- C18, on the empty chain: the overlay CKI holds the eldest key alone. -/
theorem VerifySigsAndComputeKeys_empty_subchain_witness :
    ((mkChain []).VerifySigsAndComputeKeys (testEnv []) testKeyEnv (some (some [10]))
      { kf := some { AllKeys := [] }, cki := none }).sc.localCki =
        some { entries := [([10], 1)] } ∧
    ((mkChain []).VerifySigsAndComputeKeys (testEnv []) testKeyEnv (some (some [10]))
      { kf := some { AllKeys := [] }, cki := none }).err = none :=
  ⟨(VerifySigsAndComputeKeys_empty_subchain (testEnv []) testKeyEnv (mkChain []) (some [10])
      { kf := some { AllKeys := [] }, cki := none } { AllKeys := [] } rfl (Or.inl rfl)).2.1,
   (VerifySigsAndComputeKeys_empty_subchain (testEnv []) testKeyEnv (mkChain []) (some [10])
      { kf := some { AllKeys := [] }, cki := none } { AllKeys := [] } rfl
      (Or.inl rfl)).2.2.2.2.2.2⟩

/-! ## The order of the calls of a replay -/

/-- A log in which each call follows the one before it is in replay order. -/
theorem follows_chain_pairwise (l : List ReplayCall)
    (h : List.Chain' ReplayCall.follows l) : List.Pairwise ReplayCall.before l := by
  haveI : IsTrans ReplayCall ReplayCall.before :=
    ⟨fun a b c hab hbc => by unfold ReplayCall.before at *; omega⟩
  apply List.chain'_iff_pairwise.mp
  apply h.imp
  intro a b hab
  obtain ⟨_, _, hab | hab⟩ := hab
  · exact Or.inr ⟨hab.1.symm, hab.2⟩
  · exact Or.inl (by omega)

/-- The only call of rank `0` is `InsertEldestLink`. -/
theorem ReplayOp.rank_lt_one (op : ReplayOp) (h : op.rank < 1) :
    op = ReplayOp.InsertEldestLink := by
  cases op <;> simp [ReplayOp.rank] at h ⊢

/-- An uncached `verifySubchain` returns `cached = false`; its calls other
than `PutSigCheckCache` are those of the loop, and the first of them is
`InsertEldestLink` on the first link with a fresh CKI. -/
theorem verifySubchain_uncached_calls (kenv : KeyEnv) (sc : SigChain) (kf : KeyFamily)
    (L : List ChainLink) (lst : ChainLink)
    (hl : last L = some lst) (hunc : lst.GetSigCheckCache = none) :
    (sc.verifySubchain kenv kf L).cached = false ∧
    (∀ c, c.op ≠ ReplayOp.PutSigCheckCache →
      (c ∈ (sc.verifySubchain kenv kf L).calls ↔ c ∈ (replayAll kenv kf sc.username L).calls)) ∧
    ∃ c0 tl, (sc.verifySubchain kenv kf L).calls = c0 :: tl ∧
      c0.op = ReplayOp.InsertEldestLink ∧ c0.linkIndex = 0 ∧ c0.cki = NewComputedKeyInfos := by
  obtain ⟨herr, hsucc⟩ := verifySubchain_uncached kenv sc kf L lst hl hunc
  have hne : L ≠ [] := by
    intro h; rw [(last_eq_none_iff L).mpr h] at hl; cases hl
  obtain ⟨l0, rest, hL⟩ := List.exists_cons_of_ne_nil hne
  obtain ⟨tl, hhead⟩ := replayAll_head kenv kf sc.username l0 rest
  rw [← hL] at hhead
  cases he : (replayAll kenv kf sc.username L).err with
  | some e =>
    rw [herr e he]
    exact ⟨rfl, fun c _ => Iff.rfl, _, tl, hhead, rfl, rfl, rfl⟩
  | none =>
    rw [hsucc he]
    refine ⟨rfl, ?_, _, tl ++ [_], by simp only []; rw [hhead]; rfl, rfl, rfl, rfl⟩
    intro c hput
    constructor
    · intro hc
      rcases List.mem_append.mp hc with hc | hc
      · exact hc
      · simp only [List.mem_singleton] at hc
        subst hc
        exact absurd rfl hput
    · intro hc
      exact List.mem_append_left _ hc

/-- C19 (replay order within a link).  In the log of the calls `verifySubchain`
makes over `L`: the calls are ordered by link and, within a link, in the
order `InsertEldestLink`, `VerifySigWithKeyFamily`, `Delegate`,
`VerifyReverseSig`, `Revoke`, `UpdateDevices`; each call is made once the
call before it has returned no error and receives the CKI that call left, the
first call receiving a fresh CKI; the call right before a
`VerifySigWithKeyFamily` is a call for the preceding link, or
`InsertEldestLink` for the first link, so the signature is checked against
the CKI as the preceding links left it; each call does what the collaborator
of that name does on its link, `Delegate` being called for delegating links
only; when a call is made for the link `j + 1` all steps of the link `j`
have completed, and so have the steps of every link when the replay returns
no error. -/
theorem verifySubchain_replay_order (kenv : KeyEnv) (sc : SigChain) (kf : KeyFamily)
    (L : List ChainLink) :
    List.Pairwise ReplayCall.before (sc.verifySubchain kenv kf L).calls ∧
    List.Chain'
      (fun c1 c2 => ReplayCall.follows c1 c2 ∧
        (c2.op = ReplayOp.VerifySigWithKeyFamily →
          c1.linkIndex + 1 = c2.linkIndex ∨
            (c1.op = ReplayOp.InsertEldestLink ∧ c1.linkIndex = c2.linkIndex)))
      (sc.verifySubchain kenv kf L).calls ∧
    (∀ c, (sc.verifySubchain kenv kf L).calls.head? = some c → c.cki = NewComputedKeyInfos) ∧
    (∀ c ∈ (sc.verifySubchain kenv kf L).calls,
      ∃ link, L[c.linkIndex]? = some link ∧
        c.ckiOut = (replayStep kenv kf sc.username link c.op c.cki).1 ∧
        c.err = (replayStep kenv kf sc.username link c.op c.cki).2 ∧
        (c.op = ReplayOp.InsertEldestLink → c.linkIndex = 0) ∧
        (c.op = ReplayOp.Delegate → link.GetRole ≠ KeyRole.DLG_NONE)) ∧
    (∀ c ∈ (sc.verifySubchain kenv kf L).calls, ∀ j, c.linkIndex = j + 1 →
      linkCompleted kenv L (sc.verifySubchain kenv kf L).calls j) ∧
    ((sc.verifySubchain kenv kf L).err = none → (sc.verifySubchain kenv kf L).cached = false →
      ∀ j, j < L.length → linkCompleted kenv L (sc.verifySubchain kenv kf L).calls j) := by
  obtain ⟨h1, h2, h3, h4, h5, _, _⟩ := verifySubchain_log kenv sc kf L
  refine ⟨follows_chain_pairwise _ h1, ?_, h2, ?_, h4, h5⟩
  · apply h1.imp
    intro a b hab
    refine ⟨hab, ?_⟩
    intro hop
    obtain ⟨_, _, hsame | hnext⟩ := hab
    · right
      have hr : a.op.rank < 1 := by
        have := hsame.2
        rw [hop] at this
        exact this
      exact ⟨ReplayOp.rank_lt_one a.op hr, hsame.1.symm⟩
    · left; omega
  · intro c hc
    obtain ⟨_, link, g1, g2, g3, g4, _, g6⟩ := h3 c hc
    exact ⟨link, g1, g2, g3, g4, g6⟩

/-- C19, on a concrete input: the second of three links is signed by the key
`[10]`, delegates `[20]` and revokes `[10]`; its signature is checked while
`[10]` is live, and the signature of the third link, signed by `[20]`, is
checked when `[20]` is delegated and `[10]` revoked. -/
theorem verifySubchain_replay_order_witness :
    ((mkChain []).verifySubchain testKeyEnv { AllKeys := [] } rotationLinks).err = none ∧
    ((mkChain []).verifySubchain testKeyEnv { AllKeys := [] } rotationLinks).calls.map
        (fun c => (c.op, c.linkIndex, c.cki.entries)) =
      [(ReplayOp.InsertEldestLink, 0, []),
       (ReplayOp.VerifyReverseSig, 0, [([10], 1)]),
       (ReplayOp.Revoke, 0, [([10], 1)]),
       (ReplayOp.UpdateDevices, 0, [([10], 1)]),
       (ReplayOp.VerifySigWithKeyFamily, 1, [([10], 1)]),
       (ReplayOp.Delegate, 1, [([10], 1)]),
       (ReplayOp.VerifyReverseSig, 1, [([10], 1), ([20], 1)]),
       (ReplayOp.Revoke, 1, [([10], 1), ([20], 1)]),
       (ReplayOp.UpdateDevices, 1, [([10], 0), ([20], 1)]),
       (ReplayOp.VerifySigWithKeyFamily, 2, [([10], 0), ([20], 1)]),
       (ReplayOp.VerifyReverseSig, 2, [([10], 0), ([20], 1)]),
       (ReplayOp.Revoke, 2, [([10], 0), ([20], 1)]),
       (ReplayOp.UpdateDevices, 2, [([10], 0), ([20], 1)]),
       (ReplayOp.PutSigCheckCache, 2, [([10], 0), ([20], 1)])] ∧
    List.Pairwise ReplayCall.before
      ((mkChain []).verifySubchain testKeyEnv { AllKeys := [] } rotationLinks).calls :=
  ⟨by decide, by decide,
   (verifySubchain_replay_order testKeyEnv (mkChain []) { AllKeys := [] } rotationLinks).1⟩

/-! ## Signature-check coalescing -/

/-- C20, as stated, fails: a one-link list whose link names no signing key.
The replay arrives at the index 0 without error, 0 is the last index, and
the last link holds no cache; `InsertEldestLink` returns an error, the replay
ends there, and `VerifySigWithKeyFamily` is not called for the link. -/
theorem verifySubchain_no_sig_check_after_failed_insert :
    last badFirstLinks = badFirstLinks[0]? ∧
    (badFirstLinks[0]?.bind ChainLink.GetSigCheckCache) = none ∧
    (replayUpTo testKeyEnv { AllKeys := [] } (mkChain []).username badFirstLinks 0).err = none ∧
    0 = badFirstLinks.length - 1 ∧
    ((mkChain []).verifySubchain testKeyEnv { AllKeys := [] } badFirstLinks).calls.map
        (fun c => (c.op, c.linkIndex, c.err)) =
      [(ReplayOp.InsertEldestLink, 0, some (KbError.External 2))] ∧
    ((mkChain []).verifySubchain testKeyEnv { AllKeys := [] } badFirstLinks).err =
      some (KbError.External 2) ∧
    ¬ ∃ c ∈ ((mkChain []).verifySubchain testKeyEnv { AllKeys := [] } badFirstLinks).calls,
        c.op = ReplayOp.VerifySigWithKeyFamily ∧ c.linkIndex = 0 := by
  decide

/-- C20, amended (signature-check coalescing).  For a non-empty list `L` whose last
link holds no cache, so that `verifySubchain` replays it: a call of
`VerifySigWithKeyFamily` is only made for an index `i` at which the check is
due, that is, `L[i]` is delegating, or `i` is the last index, or the FOKID of
`L[i]` is not `Eq` to that of `L[i + 1]`; when the replay arrives at the
index `i` without error (and, for `i = 0`, `InsertEldestLink` returns no
error, so that the signature check is reached), the call is made for `i`
exactly when the check is due; when the replay returns no error this holds at
every index, the call having returned no error, so the final link, every
delegating link and the last link of every same-key run are signature
checked; and `InsertEldestLink` is called exactly once, first, for `L[0]` and
a fresh CKI. -/
theorem verifySubchain_sig_check_coalescing (kenv : KeyEnv) (sc : SigChain) (kf : KeyFamily)
    (L : List ChainLink) (lst : ChainLink)
    (hl : last L = some lst) (hunc : lst.GetSigCheckCache = none) :
    (∀ c ∈ (sc.verifySubchain kenv kf L).calls, c.op = ReplayOp.VerifySigWithKeyFamily →
      sigCheckDue kenv L c.linkIndex) ∧
    (∀ i link, L[i]? = some link →
      (replayUpTo kenv kf sc.username L i).err = none →
      (i = 0 → (kenv.InsertEldestLink kf NewComputedKeyInfos link sc.username).2 = none) →
      ((∃ c ∈ (sc.verifySubchain kenv kf L).calls,
          c.op = ReplayOp.VerifySigWithKeyFamily ∧ c.linkIndex = i) ↔
        (link.GetRole ≠ KeyRole.DLG_NONE ∨ i = L.length - 1 ∨
          ∃ next, L[i + 1]? = some next ∧
            kenv.FOKID_Eq link.ToFOKID next.ToFOKID = false))) ∧
    ((sc.verifySubchain kenv kf L).err = none → ∀ i link, L[i]? = some link →
      ((∃ c ∈ (sc.verifySubchain kenv kf L).calls,
          c.op = ReplayOp.VerifySigWithKeyFamily ∧ c.linkIndex = i ∧ c.err = none) ↔
        (link.GetRole ≠ KeyRole.DLG_NONE ∨ i = L.length - 1 ∨
          ∃ next, L[i + 1]? = some next ∧
            kenv.FOKID_Eq link.ToFOKID next.ToFOKID = false))) ∧
    (∃ c0 tl, (sc.verifySubchain kenv kf L).calls = c0 :: tl ∧
      c0.op = ReplayOp.InsertEldestLink ∧ c0.linkIndex = 0 ∧ c0.cki = NewComputedKeyInfos ∧
      (∀ l0, L[0]? = some l0 →
        c0.ckiOut = (kenv.InsertEldestLink kf NewComputedKeyInfos l0 sc.username).1 ∧
        c0.err = (kenv.InsertEldestLink kf NewComputedKeyInfos l0 sc.username).2) ∧
      ∀ c ∈ tl, c.op ≠ ReplayOp.InsertEldestLink) := by
  obtain ⟨h1, _, h3, _, h5, _, _⟩ := verifySubchain_log kenv sc kf L
  obtain ⟨u1, u2, c0, tl, u3, u4, u5, u6⟩ := verifySubchain_uncached_calls kenv sc kf L lst hl hunc
  have hdue : ∀ i link, L[i]? = some link →
      (sigCheckDue kenv L i ↔
        (link.GetRole ≠ KeyRole.DLG_NONE ∨ i = L.length - 1 ∨
          ∃ next, L[i + 1]? = some next ∧
            kenv.FOKID_Eq link.ToFOKID next.ToFOKID = false)) := by
    intro i link hi
    unfold sigCheckDue
    constructor
    · rintro ⟨link2, h2, hd⟩
      rw [hi] at h2
      cases h2
      exact hd
    · intro hd
      exact ⟨link, hi, hd⟩
  have honly : ∀ c ∈ (sc.verifySubchain kenv kf L).calls,
      c.op = ReplayOp.VerifySigWithKeyFamily → sigCheckDue kenv L c.linkIndex := by
    intro c hc hop
    obtain ⟨_, link, _, _, _, _, g5, _⟩ := h3 c hc
    exact g5 hop
  refine ⟨honly, ?_, ?_, ?_⟩
  · intro i link hi harr hins
    rw [← hdue i link hi]
    constructor
    · rintro ⟨c, hc, hop, hidx⟩
      rw [← hidx]
      exact honly c hc hop
    · intro hd
      obtain ⟨c, hc, hop, hidx⟩ :=
        replayAll_sigcheck kenv kf sc.username L i link hi harr hins hd
      refine ⟨c, (u2 c ?_).mpr hc, hop, hidx⟩
      rw [hop]
      intro h; cases h
  · intro hok i link hi
    rw [← hdue i link hi]
    have hlt : i < L.length := by
      by_contra hge
      rw [List.getElem?_eq_none (by omega)] at hi
      cases hi
    constructor
    · rintro ⟨c, hc, hop, hidx, _⟩
      rw [← hidx]
      exact honly c hc hop
    · intro hd
      exact (h5 hok u1 i hlt).2.2.2.2 hd
  · have hpw := follows_chain_pairwise _ h1
    rw [u3] at hpw
    have hc0 : c0 ∈ (sc.verifySubchain kenv kf L).calls := by
      rw [u3]; exact List.mem_cons_self _ _
    refine ⟨c0, tl, u3, u4, u5, u6, ?_, ?_⟩
    · intro l0 hl0
      obtain ⟨_, link, g1, g2, g3, _⟩ := h3 c0 hc0
      rw [u5, hl0] at g1
      cases g1
      rw [u4, u6] at g2 g3
      exact ⟨g2, g3⟩
    · intro c hc hop
      have hb : ReplayCall.before c0 c := (List.pairwise_cons.mp hpw).1 c hc
      have hcm : c ∈ (sc.verifySubchain kenv kf L).calls := by
        rw [u3]; exact List.mem_cons_of_mem _ hc
      obtain ⟨_, link, _, _, _, g4, _⟩ := h3 c hcm
      have hz := g4 hop
      unfold ReplayCall.before at hb
      rw [u4, u5, hop, hz] at hb
      simp [ReplayOp.rank] at hb

/-- C20, amended, on a concrete input: the first two of three links are signed by the
same key and the second is delegating; no signature check is made for the
first link, one is made for the second, and `InsertEldestLink` is the first
call and is not called again. -/
theorem verifySubchain_sig_check_coalescing_witness :
    (¬ ∃ c ∈ ((mkChain []).verifySubchain testKeyEnv { AllKeys := [] } rotationLinks).calls,
        c.op = ReplayOp.VerifySigWithKeyFamily ∧ c.linkIndex = 0) ∧
    (∃ c ∈ ((mkChain []).verifySubchain testKeyEnv { AllKeys := [] } rotationLinks).calls,
        c.op = ReplayOp.VerifySigWithKeyFamily ∧ c.linkIndex = 1) ∧
    (∃ c0 tl, ((mkChain []).verifySubchain testKeyEnv { AllKeys := [] } rotationLinks).calls =
        c0 :: tl ∧ c0.op = ReplayOp.InsertEldestLink ∧ c0.linkIndex = 0 ∧
        ∀ c ∈ tl, c.op ≠ ReplayOp.InsertEldestLink) :=
  ⟨fun h =>
     absurd
       (((verifySubchain_sig_check_coalescing testKeyEnv (mkChain []) { AllKeys := [] }
          rotationLinks (mkKeyLink 3 3 (some [2]) 20 KeyRole.DLG_NONE 0 0)
          (by decide) (by decide)).2.1 0 (mkKeyLink 1 1 none 10 KeyRole.DLG_NONE 0 0)
          (by decide) (by decide) (fun _ => by decide)).mp h)
       (by decide),
   ((verifySubchain_sig_check_coalescing testKeyEnv (mkChain []) { AllKeys := [] }
      rotationLinks (mkKeyLink 3 3 (some [2]) 20 KeyRole.DLG_NONE 0 0)
      (by decide) (by decide)).2.1 1 (mkKeyLink 2 2 (some [1]) 10 KeyRole.DLG_SIBKEY 20 10)
      (by decide) (by decide) (fun h => absurd h (by decide))).mpr (Or.inl (by decide)),
   (fun ⟨c0, tl, g1, g2, g3, _, _, g6⟩ => ⟨c0, tl, g1, g2, g3, g6⟩)
     (verifySubchain_sig_check_coalescing testKeyEnv (mkChain []) { AllKeys := [] }
       rotationLinks (mkKeyLink 3 3 (some [2]) 20 KeyRole.DLG_NONE 0 0)
       (by decide) (by decide)).2.2.2⟩

/-! ## The unreachable branch of CheckFreshness -/

/-- C26 (unreachable error branch).  For every chain, clock and server triple,
`CheckFreshness` never returns the error "Failed to read last link for
user": when the server triple is non-null and the tests `b < 0 || a > b` fail
and `b == a` holds, with `a` the seqno of the client triple or `-1` when
there is none, the client triple exists and the chain is non-empty, since an
empty chain gives `a = -1`, and `b = -1` is caught by `b < 0`. -/
theorem CheckFreshness_failed_to_read_unreachable (env : Env) (now : Int) (sc : SigChain)
    (srv : Option MerkleTriple) :
    (sc.CheckFreshness env now srv).2 ≠
      some (KbError.ServerChainError ServerChainMsg.failedToReadLastLink) ∧
    (∀ s, srv = some s →
      ¬ (s.Seqno < 0 ∨
          (match sc.GetCurrentTailTriple with
            | some c => c.Seqno
            | none => -1) > s.Seqno) →
      s.Seqno = (match sc.GetCurrentTailTriple with
            | some c => c.Seqno
            | none => -1) →
      sc.GetCurrentTailTriple ≠ none ∧ sc.chainLinks ≠ []) := by
  constructor
  · cases hl : sc.GetLastLink with
    | none =>
      rw [CheckFreshness_empty env now sc srv hl]
      cases srv with
      | none => simp
      | some s =>
        by_cases hb : s.Seqno < 0 <;> simp [hb]
    | some l =>
      rw [CheckFreshness_nonempty env now sc srv l hl]
      cases srv with
      | none => simp
      | some s =>
        by_cases hb : s.Seqno < 0 ∨ l.seqno > s.Seqno
        · simp [hb]
        · by_cases he : s.Seqno = l.seqno
          · have hb0 : ¬ l.seqno < 0 := by
              intro h; apply hb; left; rw [he]; exact h
            by_cases hid : LinkId.Eq l.id s.LinkId = true <;> simp [hb, he, hid, hb0]
          · simp [hb, he]
  · intro s _ hnot heq
    cases hl : sc.GetLastLink with
    | none =>
      exfalso
      apply hnot
      left
      rw [heq]
      simp [SigChain.GetCurrentTailTriple, hl]
    | some l =>
      constructor
      · simp [SigChain.GetCurrentTailTriple, hl]
      · intro hnil
        have := (last_eq_none_iff sc.chainLinks).mpr hnil
        unfold SigChain.GetLastLink at hl
        rw [this] at hl
        cases hl

/-! ## LoadFromServer with a triple at or below the loaded tail -/

/-- The loop of `LoadFromServer` when no link above `low` can be reported as
the match of the triple: it returns an error or ends with `found_tail` still
false. -/
theorem LoadFromServerLoop_nomatch (env : Env) (sc : SigChain) (low : Seqno) (tt : MerkleTriple)
    (hno : ∀ link, low < link.seqno → env.checkAgainstMerkleTree link tt ≠ (true, none)) :
    ∀ (v : List JsonWrapper) (links : List ChainLink) (tail : Option ChainLink),
      (∃ e, LoadFromServerLoop env sc low (some tt) v links tail false = Except.error e) ∨
      ∃ links1 tail1,
        LoadFromServerLoop env sc low (some tt) v links tail false
          = Except.ok (links1, tail1, false) := by
  intro v
  induction v with
  | nil =>
    intro links tail
    exact Or.inr ⟨links, tail, by rw [LoadFromServerLoop]⟩
  | cons raw rest ih =>
    intro links tail
    rw [LoadFromServerLoop]
    cases himp : env.ImportLinkFromServer sc raw with
    | error e => exact Or.inl ⟨e, rfl⟩
    | ok link =>
      dsimp only
      by_cases hlow : link.seqno ≤ low
      · rw [if_pos hlow]
        exact ih links tail
      · rw [if_neg hlow]
        have hchk := hno link (not_le.mp hlow)
        simp only [Bool.false_eq_true, if_false]
        rcases hres : env.checkAgainstMerkleTree link tt with ⟨found, err⟩
        cases err with
        | some e => exact Or.inl ⟨e, rfl⟩
        | none =>
          cases found with
          | true => exact absurd hres hchk
          | false => exact ih _ _

/-- C24 (a triple at or below the loaded tail).  When the triple `t` passed to
`LoadFromServer` is non-null with `t.Seqno` at most the last loaded seqno,
and `checkAgainstMerkleTree` reports a match with `t` only for links of seqno
`t.Seqno`, then for every server reply `LoadFromServer` returns an error,
leaves the chain as it was (nothing is appended) and returns a nil
`dirtyTail`.  The loader is in this situation when the last loaded link has
the seqno and link id of the server triple and an unexpired local future
tail lies beyond it: `CheckFreshness` then returns `current = false` with no
error, and the server triple is not above the last loaded seqno. -/
theorem LoadFromServer_stale_triple_fails (env : Env) (sc : SigChain) (tt : MerkleTriple)
    (hle : tt.Seqno ≤ sc.GetLastLoadedSeqno)
    (hmatch : ∀ link, env.checkAgainstMerkleTree link tt = (true, none) →
      link.seqno = tt.Seqno) :
    (sc.LoadFromServer env (some tt)).2.2 ≠ none ∧
    (sc.LoadFromServer env (some tt)).1 = sc ∧
    (sc.LoadFromServer env (some tt)).1.chainLinks = sc.chainLinks ∧
    (sc.LoadFromServer env (some tt)).2.1 = none ∧
    (∀ now l f, sc.GetLastLink = some l → tt.Seqno = l.seqno → 0 ≤ tt.Seqno →
      LinkId.Eq l.id tt.LinkId = true →
      sc.GetFutureChainTail env now = some f → l.seqno < f.Seqno →
      sc.CheckFreshness env now (some tt) = (false, none)) := by
  have hno : ∀ link, sc.GetLastLoadedSeqno < link.seqno →
      env.checkAgainstMerkleTree link tt ≠ (true, none) := by
    intro link hlt hchk
    have := hmatch link hchk
    rw [this] at hlt
    exact absurd hle (not_le.mpr hlt)
  have herr : (sc.LoadFromServer env (some tt)).2.2 ≠ none := by
    cases hapi : env.API_Get sc.uid sc.GetLastLoadedSeqno with
    | error e => simp [SigChain.LoadFromServer, hapi]
    | ok res =>
      cases hsigs : res.sigs with
      | error e => simp [SigChain.LoadFromServer, hapi, hsigs]
      | ok v =>
        rcases LoadFromServerLoop_nomatch env sc sc.GetLastLoadedSeqno tt hno v [] none with
          ⟨e, he⟩ | ⟨l1, t1, hok⟩
        · simp [SigChain.LoadFromServer, hapi, hsigs, he]
        · simp [SigChain.LoadFromServer, hapi, hsigs, hok, LoadFromServerFinish]
  obtain ⟨e, he⟩ := Option.ne_none_iff_exists'.mp herr
  obtain ⟨f1, f2⟩ := LoadFromServer_error_frame env sc (some tt) e he
  refine ⟨herr, f1, by rw [f1], f2, ?_⟩
  intro now l f hl hseq hpos hid hfut hlt
  rw [CheckFreshness_nonempty env now sc (some tt) l hl]
  have hb : ¬ (tt.Seqno < 0 ∨ l.seqno > tt.Seqno) := by
    rw [hseq] at hpos ⊢
    intro h
    rcases h with h | h
    · exact absurd hpos (not_le.mpr h)
    · exact lt_irrefl _ h
  have hpos2 : 0 ≤ l.seqno := by rw [← hseq]; exact hpos
  simp [hb, hseq, hfut, hlt, hid, hpos2]

/-- C24, on a concrete input: the two-link chain with an unexpired local tail
of seqno 3, a server triple equal to the loaded tail (seqno 2) and a server
that returns the link of seqno 3.  `CheckFreshness` returns `current = false`
with no error, and `LoadFromServer` fails with "Failed to reach" and leaves
the chain as it was. -/
theorem LoadFromServer_stale_triple_fails_witness :
    overlayChain2.CheckFreshness (testEnv [[3, 3, 2]]) 500
        (some { Seqno := 2, LinkId := some [2], SigId := some [2] }) = (false, none) ∧
    (overlayChain2.LoadFromServer (testEnv [[3, 3, 2]])
        (some { Seqno := 2, LinkId := some [2], SigId := some [2] })).2.2 =
      some (KbError.ServerChainError (ServerChainMsg.failedToReach (some [2]) 2)) ∧
    (overlayChain2.LoadFromServer (testEnv [[3, 3, 2]])
        (some { Seqno := 2, LinkId := some [2], SigId := some [2] })).2.2 ≠ none ∧
    (overlayChain2.LoadFromServer (testEnv [[3, 3, 2]])
        (some { Seqno := 2, LinkId := some [2], SigId := some [2] })).1 = overlayChain2 :=
  ⟨by decide, by decide,
   (LoadFromServer_stale_triple_fails (testEnv [[3, 3, 2]]) overlayChain2
      { Seqno := 2, LinkId := some [2], SigId := some [2] } (by decide)
      (fun link h => by
        have h1 : (decide (link.seqno = 2) && LinkId.Eq link.id (some [2])) = true :=
          congrArg Prod.fst h
        exact of_decide_eq_true (Bool.and_eq_true_iff.mp h1).1)).1,
   (LoadFromServer_stale_triple_fails (testEnv [[3, 3, 2]]) overlayChain2
      { Seqno := 2, LinkId := some [2], SigId := some [2] } (by decide)
      (fun link h => by
        have h1 : (decide (link.seqno = 2) && LinkId.Eq link.id (some [2])) = true :=
          congrArg Prod.fst h
        exact of_decide_eq_true (Bool.and_eq_true_iff.mp h1).1)).2.1⟩

/-! ## SigChain.Store -/

/-- The loop of `SigChain.Store` from the index `i - 1` down: it persists the
links of index `k` to `i - 1` for some `k`, none of which was persisted and
each of which is written without error, and stops at `k = 0`, or at the link
of index `k - 1` because it is already persisted (no error) or because its
write fails (that error). -/
theorem SigChainStoreLoop_spec (senv : StorageEnv) (links : List ChainLink) :
    ∀ i, i ≤ links.length → ∀ db,
      ∃ k, k ≤ i ∧
        (SigChainStoreLoop senv links i db).1.links =
          ((links.take i).drop k).map ChainLink.id ++ db.links ∧
        (SigChainStoreLoop senv links i db).1.tails = db.tails ∧
        (∀ j l, k ≤ j → j < i → links[j]? = some l →
          l.id ∉ db.links ∧ senv.PutLink l = none) ∧
        ((SigChainStoreLoop senv links i db).2 = none →
          k = 0 ∨ ∃ l, links[k - 1]? = some l ∧
            l.id ∈ (SigChainStoreLoop senv links i db).1.links) ∧
        (∀ e, (SigChainStoreLoop senv links i db).2 = some e →
          0 < k ∧ ∃ l, links[k - 1]? = some l ∧ senv.PutLink l = some e ∧
            l.id ∉ (SigChainStoreLoop senv links i db).1.links) := by
  intro i
  induction i with
  | zero =>
    intro _ db
    refine ⟨0, le_refl _, by simp [SigChainStoreLoop], by simp [SigChainStoreLoop], ?_, ?_, ?_⟩
    · intro j l _ hj; omega
    · intro _; exact Or.inl rfl
    · intro e he; simp [SigChainStoreLoop] at he
  | succ i ih =>
    intro hi db
    have hlt : i < links.length := hi
    have hget : links[i]? = some links[i] := List.getElem?_eq_getElem hlt
    rw [SigChainStoreLoop, hget]
    dsimp only
    by_cases hmem : links[i].id ∈ db.links
    · simp only [ChainLink.Store, hmem, if_true, ne_eq, not_true_eq_false, or_true]
      refine ⟨i + 1, le_refl _, ?_, trivial, ?_, ?_, ?_⟩
      · simp
      · intro j l hk hj; omega
      · intro _
        exact Or.inr ⟨links[i], by simp, hmem⟩
      · intro e he; cases he
    · cases hput : senv.PutLink links[i] with
      | some e =>
        simp only [ChainLink.Store, hmem, if_false, hput, ne_eq, reduceCtorEq,
          not_false_eq_true, true_or, if_true]
        refine ⟨i + 1, le_refl _, ?_, trivial, ?_, ?_, ?_⟩
        · simp
        · intro j l hk hj; omega
        · intro h; cases h
        · intro e2 he2
          cases he2
          exact ⟨Nat.succ_pos _, links[i], by simp, hput, hmem⟩
      | none =>
        simp only [ChainLink.Store, hmem, if_false, hput, ne_eq, not_true_eq_false,
          Bool.true_eq_false, or_self]
        obtain ⟨k, hk, h1, h2, h3, h4, h5⟩ := ih (Nat.le_of_lt hlt)
          { db with links := links[i].id :: db.links }
        refine ⟨k, Nat.le_succ_of_le hk, ?_, h2, ?_, h4, h5⟩
        · rw [h1]
          have htake : links.take (i + 1) = links.take i ++ [links[i]] := by
            rw [List.take_succ, hget]; rfl
          have hlen : (links.take i).length = i := by
            rw [List.length_take]; omega
          rw [htake, List.drop_append_of_le_length (by omega)]
          simp
        · intro j l hkj hj hl
          by_cases hji : j = i
          · subst hji
            rw [hget] at hl
            cases hl
            exact ⟨hmem, hput⟩
          · obtain ⟨g1, g2⟩ := h3 j l hkj (by omega) hl
            exact ⟨fun h => g1 (List.mem_cons_of_mem _ h), g2⟩

/-- C25, as stated, fails: the three-link chain whose last two links have
the same link id, on the empty store.  `VerifyChain` accepts the chain; no
link is persisted before the call, so a persisted link has all of its
predecessors persisted; `Store` persists the last link, finds the second one
already persisted, and returns no error.  The first link is not persisted,
and the second, which is, has a predecessor that is not. -/
theorem Store_stops_at_repeated_id :
    (dupChain.VerifyChain (testEnv [])).2 = none ∧
    predecessorsPersisted emptyDb dupChain.chainLinks ∧
    dupChain.Store (testStorage [] none) emptyDb = ({ links := [some [1]], tails := [] }, none) ∧
    (¬ ∀ l ∈ dupChain.chainLinks, l.persisted (dupChain.Store (testStorage [] none) emptyDb).1) ∧
    ¬ predecessorsPersisted (dupChain.Store (testStorage [] none) emptyDb).1
        dupChain.chainLinks := by
  decide

/-- C25, amended (`SigChain.Store`).  `Store` walks from the tail toward the head: for
some `k` it persists the links of index `k` and above, none of which was
persisted before, and leaves the rest of the store as it was; when it returns
no error, `k = 0` or the link of index `k - 1` is one whose `Store()`
reported it already persisted; when it returns an error, that is the error
of the write of the link of index `k - 1`, which is not persisted.  If the
links of the chain have distinct ids and, before the call, a persisted link
of the chain has all of its predecessors persisted, then after a `Store`
that returns no error every link of the chain is persisted and a persisted
link still has all of its predecessors persisted. -/
theorem Store_persists_chain (senv : StorageEnv) (sc : SigChain) (db : LocalDb) :
    (∃ k, k ≤ sc.chainLinks.length ∧
      (sc.Store senv db).1.links = (sc.chainLinks.drop k).map ChainLink.id ++ db.links ∧
      (sc.Store senv db).1.tails = db.tails ∧
      (∀ j l, k ≤ j → sc.chainLinks[j]? = some l →
        ¬ l.persisted db ∧ senv.PutLink l = none) ∧
      ((sc.Store senv db).2 = none →
        k = 0 ∨ ∃ l, sc.chainLinks[k - 1]? = some l ∧ l.persisted (sc.Store senv db).1) ∧
      (∀ e, (sc.Store senv db).2 = some e →
        0 < k ∧ ∃ l, sc.chainLinks[k - 1]? = some l ∧ senv.PutLink l = some e ∧
          ¬ l.persisted (sc.Store senv db).1)) ∧
    ((sc.chainLinks.map ChainLink.id).Nodup → predecessorsPersisted db sc.chainLinks →
      (sc.Store senv db).2 = none →
      (∀ l ∈ sc.chainLinks, l.persisted (sc.Store senv db).1) ∧
      predecessorsPersisted (sc.Store senv db).1 sc.chainLinks) := by
  obtain ⟨k, hk, h1, h2, h3, h4, h5⟩ :=
    SigChainStoreLoop_spec senv sc.chainLinks sc.chainLinks.length (le_refl _) db
  rw [List.take_length] at h1
  constructor
  · refine ⟨k, hk, h1, h2, ?_, h4, h5⟩
    intro j l hkj hl
    have hj : j < sc.chainLinks.length := by
      by_contra hge
      rw [List.getElem?_eq_none (by omega)] at hl
      cases hl
    exact h3 j l hkj hj hl
  · intro hnd hinv herr
    have hall : ∀ l ∈ sc.chainLinks, l.persisted (sc.Store senv db).1 := by
      intro x hx
      obtain ⟨m, hm, hxm⟩ := List.getElem_of_mem hx
      show x.id ∈ (sc.Store senv db).1.links
      unfold SigChain.Store
      rw [h1]
      by_cases hkm : k ≤ m
      · apply List.mem_append_left
        apply List.mem_map_of_mem
        rw [← hxm]
        have hd : (sc.chainLinks.drop k)[m - k]? = some sc.chainLinks[m] := by
          rw [List.getElem?_drop]
          have : k + (m - k) = m := by omega
          rw [this]
          exact List.getElem?_eq_getElem hm
        exact List.mem_iff_getElem?.mpr ⟨m - k, hd⟩
      · have hk0 : k ≠ 0 := by omega
        rcases h4 herr with h0 | ⟨l, hl, hlmem⟩
        · exact absurd h0 hk0
        · have hk1 : k - 1 < sc.chainLinks.length := by omega
          have hleq : sc.chainLinks[k - 1] = l := by
            rw [List.getElem?_eq_getElem hk1] at hl
            exact Option.some.inj hl
          rw [h1] at hlmem
          have hldb : l.id ∈ db.links := by
            rcases List.mem_append.mp hlmem with hin | hin
            · exfalso
              obtain ⟨y, hy, hyid⟩ := List.mem_map.mp hin
              obtain ⟨n, hn, hyn⟩ := List.getElem_of_mem hy
              rw [List.getElem_drop] at hyn
              rw [List.length_drop] at hn
              have hinj := List.nodup_iff_injective_get.mp hnd
              have hb1 : k + n < (sc.chainLinks.map ChainLink.id).length := by
                rw [List.length_map]; omega
              have hb2 : k - 1 < (sc.chainLinks.map ChainLink.id).length := by
                rw [List.length_map]; omega
              have hidx : (sc.chainLinks.map ChainLink.id).get ⟨k + n, hb1⟩ =
                  (sc.chainLinks.map ChainLink.id).get ⟨k - 1, hb2⟩ := by
                simp only [List.get_eq_getElem, List.getElem_map]
                rw [hyn, hleq, hyid]
              have hfin := Fin.mk.inj (@hinj ⟨k + n, hb1⟩ ⟨k - 1, hb2⟩ hidx)
              omega
            · exact hin
          apply List.mem_append_right
          by_cases hmk : m = k - 1
          · subst hmk
            rw [← hxm, hleq]
            exact hldb
          · have hlt : m < k - 1 := by omega
            have := hinv ⟨k - 1, hk1⟩ ⟨m, hm⟩ hlt (by
              show (sc.chainLinks.get ⟨k - 1, hk1⟩).id ∈ db.links
              rw [List.get_eq_getElem, hleq]
              exact hldb)
            rw [← hxm]
            exact this
    refine ⟨hall, ?_⟩
    intro i j _ _
    exact hall _ (List.get_mem _ _ _)

/-- C25, amended, on a concrete input: the five-link chain when the links 1 and 2 are
persisted.  `Store` persists the links 5, 4 and 3, stops at the link 2
without error, and every link of the chain is persisted. -/
theorem Store_persists_chain_witness :
    chain5.Store (testStorage [] none) { links := [some [1], some [2]], tails := [] } =
      ({ links := [some [3], some [4], some [5], some [1], some [2]], tails := [] }, none) ∧
    ((∀ l ∈ chain5.chainLinks, l.persisted
        (chain5.Store (testStorage [] none)
          { links := [some [1], some [2]], tails := [] }).1) ∧
      predecessorsPersisted
        (chain5.Store (testStorage [] none) { links := [some [1], some [2]], tails := [] }).1
        chain5.chainLinks) :=
  ⟨by decide,
   (Store_persists_chain (testStorage [] none) chain5
      { links := [some [1], some [2]], tails := [] }).2 (by decide) (by decide) (by decide)⟩

/-! ## Go `reverse` -/

theorem getElem?_append_cons_length (pre rest : List ChainLink) (a : ChainLink) :
    (pre ++ a :: rest)[pre.length]? = some a := by
  rw [List.getElem?_append_right (le_refl _)]
  simp

theorem set_append_cons_length (pre rest : List ChainLink) (a b : ChainLink) :
    (pre ++ a :: rest).set pre.length b = pre ++ b :: rest := by
  induction pre with
  | nil => rfl
  | cons x xs ih => simp [ih]

/-- The loop of `reverse` started at the two ends of the middle part `mid` of
a list reverses that part and leaves the rest. -/
theorem reverseLoop_spec :
    ∀ (n fuel : Nat) (pre mid post : List ChainLink), mid.length ≤ n → mid.length ≤ fuel →
      reverseLoop fuel pre.length (pre.length + mid.length - 1) (pre ++ (mid ++ post))
        = pre ++ (mid.reverse ++ post) := by
  intro n
  induction n with
  | zero =>
    intro fuel pre mid post hn _
    have hmid : mid = [] := List.eq_nil_of_length_eq_zero (Nat.le_zero.mp hn)
    subst hmid
    cases fuel with
    | zero => rfl
    | succ f =>
      rw [reverseLoop, if_neg (by simp)]
      rfl
  | succ n ih =>
    intro fuel pre mid post hn hfuel
    cases mid with
    | nil =>
      cases fuel with
      | zero => rfl
      | succ f =>
        rw [reverseLoop, if_neg (by simp)]
        rfl
    | cons a t =>
      rcases List.eq_nil_or_concat t with ht | ⟨mid2, b, ht⟩
      · subst ht
        cases fuel with
        | zero => rfl
        | succ f =>
          rw [reverseLoop, if_neg (by simp)]
          rfl
      · rw [List.concat_eq_append] at ht
        subst ht
        simp only [List.length_cons, List.length_append, List.length_nil] at hn hfuel
        cases fuel with
        | zero => omega
        | succ f =>
          have hj : pre.length + (a :: (mid2 ++ [b])).length - 1 = (pre ++ a :: mid2).length := by
            simp only [List.length_cons, List.length_append, List.length_nil]
            omega
          have hlinks : pre ++ (a :: (mid2 ++ [b]) ++ post) = (pre ++ a :: mid2) ++ b :: post := by
            simp
          have hset1 : (pre ++ (a :: (mid2 ++ [b]) ++ post)).set pre.length b
              = (pre ++ b :: mid2) ++ b :: post := by
            have : pre ++ (a :: (mid2 ++ [b]) ++ post) = pre ++ a :: (mid2 ++ b :: post) := by
              simp
            rw [this, set_append_cons_length]
            simp
          have hlen2 : (pre ++ a :: mid2).length = (pre ++ b :: mid2).length := by simp
          rw [reverseLoop, if_pos (by rw [hj]; simp)]
          have hgi : (pre ++ (a :: (mid2 ++ [b]) ++ post))[pre.length]? = some a := by
            have : pre ++ (a :: (mid2 ++ [b]) ++ post) = pre ++ a :: (mid2 ++ b :: post) := by
              simp
            rw [this, getElem?_append_cons_length]
          have hgj : (pre ++ (a :: (mid2 ++ [b]) ++ post))[(pre ++ a :: mid2).length]?
              = some b := by
            rw [hlinks, getElem?_append_cons_length]
          rw [hj, hgi, hgj]
          dsimp only
          rw [hset1, hlen2, set_append_cons_length]
          have hpre : pre.length + 1 = (pre ++ [b]).length := by simp
          have hj2 : (pre ++ b :: mid2).length - 1 = (pre ++ [b]).length + mid2.length - 1 := by
            simp only [List.length_cons, List.length_append, List.length_nil]
            omega
          have hl2 : (pre ++ b :: mid2) ++ a :: post = (pre ++ [b]) ++ (mid2 ++ a :: post) := by
            simp
          rw [hpre, hj2, hl2, ih f (pre ++ [b]) mid2 (a :: post) (by omega) (by omega)]
          simp

/-- Go `reverse` leaves the list reversed. -/
theorem reverse_eq (links : List ChainLink) : reverse links = links.reverse := by
  have h := reverseLoop_spec links.length links.length [] links [] (le_refl _) (le_refl _)
  simpa [reverse] using h

/-! ## LoadLinksFromStorage -/

/-- A walk that has ended within a bound ends in the same way within any
larger bound. -/
theorem LoadLinksFromStorageLoop_mono (senv : StorageEnv) (kenv : KeyEnv) (allKeys : Bool) :
    ∀ (fuel : Nat) (curr : LinkId) (good_key : Bool) (loadFokid : Option FOKID)
      (links : List ChainLink) (r : Except KbError (List ChainLink)),
      LoadLinksFromStorageLoop senv kenv allKeys fuel curr good_key loadFokid links = some r →
      LoadLinksFromStorageLoop senv kenv allKeys (fuel + 1) curr good_key loadFokid links
        = some r := by
  intro fuel
  induction fuel with
  | zero =>
    intro curr good_key loadFokid links r h
    rw [LoadLinksFromStorageLoop] at h
    by_cases hc : curr ≠ none ∧ good_key = true
    · rw [if_pos hc] at h; cases h
    · rw [if_neg hc] at h
      rw [LoadLinksFromStorageLoop, if_neg hc]
      exact h
  | succ n ih =>
    intro curr good_key loadFokid links r h
    rw [LoadLinksFromStorageLoop] at h
    rw [LoadLinksFromStorageLoop]
    by_cases hc : curr ≠ none ∧ good_key = true
    · rw [if_pos hc] at h
      rw [if_pos hc]
      cases himp : senv.ImportLinkFromStorage curr with
      | error e =>
        rw [himp] at h
        exact h
      | ok link =>
        rw [himp] at h
        dsimp only at h ⊢
        split
        · rename_i hg
          rw [if_pos hg] at h
          exact ih _ _ _ _ _ h
        · rename_i hg
          rw [if_neg hg] at h
          exact ih _ _ _ _ _ h
    · rw [if_neg hc] at h
      rw [if_neg hc]
      exact h

/-- A walk that has ended within `fuel` iterations ends in the same way
within any bound of at least `fuel`. -/
theorem LoadLinksFromStorageLoop_mono_le (senv : StorageEnv) (kenv : KeyEnv) (allKeys : Bool)
    (fuel fuel2 : Nat) (hle : fuel ≤ fuel2) (curr : LinkId) (good_key : Bool)
    (loadFokid : Option FOKID) (links : List ChainLink) (r : Except KbError (List ChainLink))
    (h : LoadLinksFromStorageLoop senv kenv allKeys fuel curr good_key loadFokid links = some r) :
    LoadLinksFromStorageLoop senv kenv allKeys fuel2 curr good_key loadFokid links = some r := by
  induction fuel2 with
  | zero =>
    have : fuel = 0 := Nat.le_zero.mp hle
    subst this
    exact h
  | succ n ih =>
    by_cases hn : fuel ≤ n
    · exact LoadLinksFromStorageLoop_mono senv kenv allKeys n _ _ _ _ r (ih hn)
    · have : fuel = n + 1 := by omega
      subst this
      exact h

/-- The invariant of the walk before the first link is read. -/
theorem walkInv_start (senv : StorageEnv) (kenv : KeyEnv) (allKeys : Bool) (start : LinkId) :
    walkInv senv kenv allKeys start start true none [] := by
  refine ⟨rfl, ?_, List.chain'_nil, ?_, rfl, ?_⟩
  · intro t ht; cases ht
  · intro _ t ht; cases ht
  · intro h; cases h

/-- The invariant of the walk after the first link has been read. -/
theorem walkInv_first (senv : StorageEnv) (kenv : KeyEnv) (allKeys : Bool) (start : LinkId)
    (link : ChainLink) (hstart : start ≠ none)
    (himp : senv.ImportLinkFromStorage start = Except.ok link) :
    walkInv senv kenv allKeys start link.GetPrev true (some link.ToEldestFOKID) [link] := by
  refine ⟨rfl, ?_, List.chain'_singleton _, ?_, rfl, ?_⟩
  · intro t ht
    simp only [List.head?_cons, Option.some.injEq] at ht
    subst ht
    exact ⟨hstart, himp⟩
  · intro _ t _ y hy
    simp at hy
  · intro h; cases h

/-- The invariant of the walk after a further link has been read and kept. -/
theorem walkInv_keep (senv : StorageEnv) (kenv : KeyEnv) (allKeys : Bool) (start curr : LinkId)
    (f : FOKID) (links : List ChainLink) (link : ChainLink)
    (hinv : walkInv senv kenv allKeys start curr true (some f) links)
    (hcurr : curr ≠ none) (himp : senv.ImportLinkFromStorage curr = Except.ok link)
    (hkeep : (!allKeys && !(kenv.FOKID_Eq f link.ToEldestFOKID)) = false) :
    walkInv senv kenv allKeys start link.GetPrev true (some f) (links ++ [link]) := by
  obtain ⟨h1, h2, h3, h4, h5, _⟩ := hinv
  cases links with
  | nil => simp at h1
  | cons t rest =>
    simp only [List.head?_cons, Option.map_some', Option.some.injEq] at h1
    have hgl : ((t :: rest) ++ [link]).getLast? = some link := by
      rw [List.getLast?_append]
      rfl
    refine ⟨by simp [h1], ?_, ?_, ?_, by rw [hgl], ?_⟩
    · intro t2 ht2
      exact h2 t2 (by simpa using ht2)
    · apply List.Chain'.append h3 (List.chain'_singleton _)
      intro x hx y hy
      simp only [List.head?_cons, Option.mem_def, Option.some.injEq] at hy
      subst hy
      have hx2 : (t :: rest).getLast? = some x := hx
      rw [hx2] at h5
      dsimp only at h5
      rw [← h5]
      exact ⟨hcurr, himp⟩
    · intro hall t2 ht2 y hy
      have ht : t2 = t := by simpa using ht2.symm
      subst ht
      simp only [List.cons_append, List.tail_cons, List.mem_append, List.mem_singleton] at hy
      rcases hy with hy | hy
      · exact h4 hall t2 rfl y hy
      · subst hy
        rw [hall] at hkeep
        rw [h1]
        simpa using hkeep
    · intro h; cases h

/-- The invariant of the walk after a link has been read and rejected. -/
theorem walkInv_stop (senv : StorageEnv) (kenv : KeyEnv) (allKeys : Bool) (start curr : LinkId)
    (f : FOKID) (links : List ChainLink) (link : ChainLink)
    (hinv : walkInv senv kenv allKeys start curr true (some f) links)
    (hcurr : curr ≠ none) (himp : senv.ImportLinkFromStorage curr = Except.ok link)
    (hstop : (!allKeys && !(kenv.FOKID_Eq f link.ToEldestFOKID)) = true) :
    walkInv senv kenv allKeys start curr false (some f) links := by
  obtain ⟨h1, h2, h3, h4, h5, _⟩ := hinv
  refine ⟨h1, h2, h3, h4, h5, ?_⟩
  intro _
  simp only [Bool.and_eq_true, Bool.not_eq_true', Bool.not_eq_eq_eq_not, Bool.not_true] at hstop
  cases links with
  | nil => simp at h1
  | cons t rest =>
    simp only [List.head?_cons, Option.map_some', Option.some.injEq] at h1
    exact ⟨hstop.1, hcurr, t, link, rfl, himp, by rw [h1]; exact hstop.2⟩

/-- When the walk ends without error, the invariant holds of the links it has
read and the loop condition fails. -/
theorem LoadLinksFromStorageLoop_inv (senv : StorageEnv) (kenv : KeyEnv) (allKeys : Bool)
    (start : LinkId) :
    ∀ (fuel : Nat) (curr : LinkId) (good_key : Bool) (loadFokid : Option FOKID)
      (links res : List ChainLink),
      walkInv senv kenv allKeys start curr good_key loadFokid links →
      LoadLinksFromStorageLoop senv kenv allKeys fuel curr good_key loadFokid links
        = some (Except.ok res) →
      ∃ curr2 good2 lf2, walkInv senv kenv allKeys start curr2 good2 lf2 res ∧
        ¬ (curr2 ≠ none ∧ good2 = true) := by
  intro fuel
  induction fuel with
  | zero =>
    intro curr good_key loadFokid links res hinv h
    rw [LoadLinksFromStorageLoop] at h
    by_cases hc : curr ≠ none ∧ good_key = true
    · rw [if_pos hc] at h; cases h
    · rw [if_neg hc] at h
      cases h
      exact ⟨curr, good_key, loadFokid, hinv, hc⟩
  | succ n ih =>
    intro curr good_key loadFokid links res hinv h
    rw [LoadLinksFromStorageLoop] at h
    by_cases hc : curr ≠ none ∧ good_key = true
    · rw [if_pos hc] at h
      obtain ⟨hcurr, hgood⟩ := hc
      subst hgood
      cases himp : senv.ImportLinkFromStorage curr with
      | error e =>
        rw [himp] at h
        cases h
      | ok link =>
        rw [himp] at h
        dsimp only at h
        cases loadFokid with
        | none =>
          dsimp only at h
          rw [if_pos rfl] at h
          have hnil : links = [] := by
            have h1 := hinv.1
            cases links with
            | nil => rfl
            | cons t rest => simp at h1
          subst hnil
          have hstart : curr = start := hinv.2.2.2.2.1
          subst hstart
          exact ih _ _ _ _ _ (walkInv_first senv kenv allKeys curr link hcurr himp) h
        | some f =>
          dsimp only at h
          cases hstop : (!allKeys && !(kenv.FOKID_Eq f link.ToEldestFOKID)) with
          | true =>
            rw [hstop] at h
            simp only [if_true, Bool.false_eq_true, if_false] at h
            exact ih _ _ _ _ _
              (walkInv_stop senv kenv allKeys start curr f links link hinv hcurr himp hstop) h
          | false =>
            rw [hstop] at h
            simp only [Bool.false_eq_true, if_false, if_true] at h
            exact ih _ _ _ _ _
              (walkInv_keep senv kenv allKeys start curr f links link hinv hcurr himp hstop) h
    · rw [if_neg hc] at h
      cases h
      exact ⟨curr, good_key, loadFokid, hinv, hc⟩

theorem first_eq_head? (links : List ChainLink) : first links = links.head? := by
  unfold first
  cases links with
  | nil => simp
  | cons x xs => simp

/-- The outcome of `LoadLinksFromStorage` when a tail triple is found and the
call returns no error: the walk ended without error and the links of the
loader are the links read, reversed. -/
theorem LoadLinksFromStorage_ok (senv : StorageEnv) (kenv : KeyEnv) (fuel : Nat)
    (l l1 : SigChainLoader) (mt : MerkleTriple)
    (hmt : l.LoadLastLinkIdFromStorage senv = (some mt, none))
    (hres : l.LoadLinksFromStorage senv kenv fuel = some (l1, none)) :
    ∃ res, LoadLinksFromStorageLoop senv kenv l.allKeys fuel mt.LinkId true none []
        = some (Except.ok res) ∧
      l1 = { l with links := res.reverse } := by
  unfold SigChainLoader.LoadLinksFromStorage at hres
  rw [hmt] at hres
  dsimp only at hres
  cases hloop : LoadLinksFromStorageLoop senv kenv l.allKeys fuel mt.LinkId true none [] with
  | none => rw [hloop] at hres; cases hres
  | some r =>
    rw [hloop] at hres
    cases r with
    | error e => cases hres
    | ok res =>
      dsimp only at hres
      refine ⟨res, rfl, ?_⟩
      rw [reverse_eq] at hres
      have := Option.some.inj hres
      exact (congrArg Prod.fst this).symm

/-- C21 (links loaded from storage).  When a tail triple `mt` is found in the
store and `LoadLinksFromStorage` returns no error (the walk along the prev
pointers from `mt.LinkId` ends without import error), the call returns the
same with any larger bound on the walk, and the links it leaves are in
ascending chain order: the last link is the link imported from `mt.LinkId`,
and each link is the link imported from the non-nil prev of the link after
it, so that, in a store whose imports carry the id they were read from, the
last link has the id `mt.LinkId` and each link has as prev the id of the
link before it; the list is empty exactly when `mt.LinkId` is nil.  With
`allKeys = false`, the eldest FOKID of the tail link is `Eq` to that of
every other link of the list.  The walk stopped because the prev of the
first link is nil or, only when `allKeys = false`, because the link imported
from that prev has an eldest FOKID that is not `Eq` to that of the tail
link; with `allKeys = true` the prev of the first link is nil. -/
theorem LoadLinksFromStorage_walk (senv : StorageEnv) (kenv : KeyEnv) (fuel : Nat)
    (l l1 : SigChainLoader) (mt : MerkleTriple)
    (hmt : l.LoadLastLinkIdFromStorage senv = (some mt, none))
    (hres : l.LoadLinksFromStorage senv kenv fuel = some (l1, none)) :
    (∀ fuel2, fuel ≤ fuel2 → l.LoadLinksFromStorage senv kenv fuel2 = some (l1, none)) ∧
    l1 = { l with links := l1.links } ∧
    (l1.links = [] ↔ mt.LinkId = none) ∧
    (∀ t, last l1.links = some t → senv.ImportLinkFromStorage mt.LinkId = Except.ok t) ∧
    List.Chain' (fun a b => b.GetPrev ≠ none ∧
      senv.ImportLinkFromStorage b.GetPrev = Except.ok a) l1.links ∧
    ((∀ id link, senv.ImportLinkFromStorage id = Except.ok link → link.id = id) →
      (∀ t, last l1.links = some t → t.id = mt.LinkId) ∧
      List.Chain' (fun a b => b.GetPrev = a.id) l1.links) ∧
    (l.allKeys = false → ∀ t, last l1.links = some t → ∀ x ∈ l1.links.dropLast,
      kenv.FOKID_Eq t.ToEldestFOKID x.ToEldestFOKID = true) ∧
    (∀ h, first l1.links = some h →
      h.GetPrev = none ∨
      (l.allKeys = false ∧ ∃ t y, last l1.links = some t ∧
        senv.ImportLinkFromStorage h.GetPrev = Except.ok y ∧
        kenv.FOKID_Eq t.ToEldestFOKID y.ToEldestFOKID = false)) ∧
    (l.allKeys = true → ∀ h, first l1.links = some h → h.GetPrev = none) := by
  obtain ⟨res, hloop, hl1⟩ := LoadLinksFromStorage_ok senv kenv fuel l l1 mt hmt hres
  obtain ⟨curr2, good2, lf2, ⟨i1, i2, i3, i4, i5, i6⟩, hend⟩ :=
    LoadLinksFromStorageLoop_inv senv kenv l.allKeys mt.LinkId fuel mt.LinkId true none [] res
      (walkInv_start senv kenv l.allKeys mt.LinkId) hloop
  have hlinks : l1.links = res.reverse := by rw [hl1]
  have hlast : last l1.links = res.head? := by
    rw [last_eq_getLast?, hlinks, List.getLast?_reverse]
  have hfirst : first l1.links = res.getLast? := by
    rw [first_eq_head?, hlinks, List.head?_reverse]
  have hchain : List.Chain' (fun a b => b.GetPrev ≠ none ∧
      senv.ImportLinkFromStorage b.GetPrev = Except.ok a) l1.links := by
    rw [hlinks, List.chain'_reverse]
    exact i3
  have hstop : ∀ h, first l1.links = some h →
      h.GetPrev = none ∨
      (l.allKeys = false ∧ ∃ t y, last l1.links = some t ∧
        senv.ImportLinkFromStorage h.GetPrev = Except.ok y ∧
        kenv.FOKID_Eq t.ToEldestFOKID y.ToEldestFOKID = false) := by
    intro h hh
    rw [hfirst] at hh
    rw [hh] at i5
    dsimp only at i5
    cases good2 with
    | true =>
      left
      by_contra hne
      exact hend ⟨by rw [i5]; exact hne, rfl⟩
    | false =>
      right
      obtain ⟨g1, _, t, y, g3, g4, g5⟩ := i6 rfl
      rw [i5] at g4
      exact ⟨g1, t, y, by rw [hlast]; exact g3, g4, g5⟩
  refine ⟨?_, ?_, ?_, ?_, hchain, ?_, ?_, hstop, ?_⟩
  · intro fuel2 hle
    have h2 := LoadLinksFromStorageLoop_mono_le senv kenv l.allKeys fuel fuel2 hle _ _ _ _ _ hloop
    unfold SigChainLoader.LoadLinksFromStorage
    rw [hmt]
    dsimp only
    rw [h2]
    dsimp only
    rw [reverse_eq, hl1]
  · rw [hl1]
  · rw [hlinks]
    constructor
    · intro hnil
      have hres0 : res = [] := by simpa using hnil
      subst hres0
      dsimp only [List.getLast?_nil] at i5
      cases good2 with
      | true =>
        by_contra hne
        exact hend ⟨by rw [i5]; exact hne, rfl⟩
      | false =>
        obtain ⟨_, _, t, _, g3, _⟩ := i6 rfl
        cases g3
    · intro hnone
      cases res with
      | nil => rfl
      | cons t rest =>
        exact absurd hnone (i2 t rfl).1
  · intro t ht
    rw [hlast] at ht
    exact (i2 t ht).2
  · intro hid
    constructor
    · intro t ht
      rw [hlast] at ht
      exact hid _ _ (i2 t ht).2
    · apply hchain.imp
      intro a b hab
      exact (hid _ _ hab.2).symm
  · intro hall t ht x hx
    rw [hlast] at ht
    apply i4 hall t ht x
    rw [hlinks] at hx
    cases res with
    | nil => simp at hx
    | cons t2 rest =>
      simp only [List.reverse_cons, List.dropLast_concat, List.mem_reverse] at hx
      exact hx
  · intro hall h hh
    rcases hstop h hh with hp | ⟨hf, _⟩
    · exact hp
    · rw [hall] at hf; cases hf

/-- In the test storage an imported link carries the id it was read from. -/
theorem testStorage_import_id (stored : List ChainLink) (tail : Option MerkleTriple)
    (id : LinkId) (link : ChainLink)
    (h : (testStorage stored tail).ImportLinkFromStorage id = Except.ok link) :
    link.id = id := by
  simp only [testStorage] at h
  split at h
  · rename_i l hl
    cases h
    have hp := @List.find?_some _ (fun l : ChainLink => decide (l.id = id)) _ _ hl
    exact of_decide_eq_true hp
  · cases h

/-- C21, on a concrete input: the store holds ten links, the links 1 to 4
under the eldest key `[1]` and the links 5 to 10 under `[2]`.  With
`allKeys = false` the loader is left with the links 5 to 10 in ascending
order, each pointing at the one before it, and the walk stopped at the link
4. -/
theorem LoadLinksFromStorage_walk_witness :
    ((mkLoader false none none none).LoadLinksFromStorage storage10 testKeyEnv 20).map
        (fun r => (r.1.links.map ChainLink.seqno, r.2)) = some ([5, 6, 7, 8, 9, 10], none) ∧
    List.Chain' (fun a b => b.GetPrev = a.id) (chain10.chainLinks.drop 4) ∧
    (∀ h, first (chain10.chainLinks.drop 4) = some h →
      h.GetPrev = none ∨
      ((mkLoader false none none none).allKeys = false ∧
        ∃ t y, last (chain10.chainLinks.drop 4) = some t ∧
          storage10.ImportLinkFromStorage h.GetPrev = Except.ok y ∧
          testKeyEnv.FOKID_Eq t.ToEldestFOKID y.ToEldestFOKID = false)) :=
  ⟨by decide,
   ((LoadLinksFromStorage_walk storage10 testKeyEnv 20 (mkLoader false none none none)
      { mkLoader false none none none with links := chain10.chainLinks.drop 4 }
      { Seqno := 10, LinkId := some [10], SigId := some [10] } rfl rfl).2.2.2.2.2.1
      (testStorage_import_id _ _)).2,
   (LoadLinksFromStorage_walk storage10 testKeyEnv 20 (mkLoader false none none none)
      { mkLoader false none none none with links := chain10.chainLinks.drop 4 }
      { Seqno := 10, LinkId := some [10], SigId := some [10] } rfl rfl).2.2.2.2.2.2.2.1⟩

/-! ## What verification leaves of the links -/

theorem LimitToEldestFOKID_eq_drop (kenv : KeyEnv) (sc : SigChain) (fokid : FOKID) :
    ∃ k, sc.LimitToEldestFOKID kenv fokid = sc.chainLinks.drop k := by
  unfold SigChain.LimitToEldestFOKID
  dsimp only
  split
  · exact ⟨0, rfl⟩
  · exact ⟨_, rfl⟩

/-- The links `verifySubchain` leaves differ from those it was given by the
cache of the last link at most. -/
theorem verifySubchain_links_map {β : Type} (f : ChainLink → β)
    (hf : ∀ (c : ChainLink) (cki : ComputedKeyInfos), f (c.PutSigCheckCache cki) = f c)
    (kenv : KeyEnv) (sc : SigChain) (kf : KeyFamily) (L : List ChainLink) :
    (sc.verifySubchain kenv kf L).links.map f = L.map f := by
  rcases last_cases L with hnil | ⟨lst, cki, hl, hc⟩ | ⟨lst, hl, hc⟩
  · subst hnil
    rw [verifySubchain_nil]
  · rw [verifySubchain_cached kenv sc kf L lst cki hl hc]
  · obtain ⟨herr, hsucc⟩ := verifySubchain_uncached kenv sc kf L lst hl hc
    cases he : (replayAll kenv kf sc.username L).err with
    | some e => rw [herr e he]
    | none =>
      rw [hsucc he]
      have hne : ¬ L.length = 0 := by
        intro h0
        rw [(last_eq_none_iff L).mpr (List.eq_nil_of_length_eq_zero h0)] at hl
        cases hl
      have hget : L[L.length - 1]? = some lst := by
        unfold last at hl; rw [if_neg hne] at hl; exact hl
      exact map_set_same f L (L.length - 1) lst _ hget (hf lst _)

/-- `VerifySigsAndComputeKeys` only writes verification flags and the cache
of a link: every projection of the links that ignores them is kept. -/
theorem VerifySigsAndComputeKeys_map {β : Type} (f : ChainLink → β)
    (hf : ∀ (c : ChainLink) (b1 b2 : Bool),
      f { c with hashVerified := b1, chainVerified := b2 } = f c)
    (hf2 : ∀ (c : ChainLink) (cki : ComputedKeyInfos), f (c.PutSigCheckCache cki) = f c)
    (env : Env) (kenv : KeyEnv) (sc : SigChain) (eldest : Option KID) (ckf : ComputedKeyFamily) :
    (sc.VerifySigsAndComputeKeys env kenv eldest ckf).sc.chainLinks.map f
      = sc.chainLinks.map f := by
  have hvc : (sc.VerifyChain env).1.chainLinks.map f = sc.chainLinks.map f :=
    VerifyChainLoop_map f hf env sc.username sc.uid _ _
  unfold SigChain.VerifySigsAndComputeKeys
  cases hv : sc.VerifyChain env with
  | mk sc1 e =>
    rw [hv] at hvc
    simp only at hvc
    cases e with
    | some e => exact hvc
    | none =>
      cases hkf : ckf.kf with
      | none => exact hvc
      | some kf =>
        cases eldest with
        | none => exact hvc
        | some eldestKid =>
          dsimp only
          split
          · exact hvc
          · rename_i hlen
            dsimp only
            rw [List.map_append, verifySubchain_links_map f hf2, ← List.map_append, ← hvc]
            obtain ⟨k, hk⟩ := LimitToEldestFOKID_eq_drop kenv sc1 (kenv.KIDToFOKID kf eldestKid)
            rw [hk] at hlen ⊢
            rw [List.length_drop] at hlen ⊢
            have hkl : sc1.chainLinks.length - (sc1.chainLinks.length - k) = k := by omega
            rw [hkl, List.take_append_drop]

/-! ## The stages of `Load` -/

/-- `StoreTail` with a nil `dirtyTail` writes nothing and returns no error;
with a non-nil one it returns the `err` of the write, and when that is nil
the triple is in the store and `dirtyTail` is nil.  The chain of the loader
is left as it is. -/
theorem StoreTail_spec (senv : StorageEnv) (l : SigChainLoader) (db : LocalDb) :
    (l.dirtyTail = none → l.StoreTail senv db = (l, db, none)) ∧
    (∀ dt, l.dirtyTail = some dt →
      (l.StoreTail senv db).2.2 =
        senv.PutObj { Typ := l.chainType.DbType, Key := l.user.uid } dt) ∧
    (∀ dt e, l.dirtyTail = some dt → (l.StoreTail senv db).2.2 = some e →
      l.StoreTail senv db = (l, db, some e)) ∧
    (∀ dt, l.dirtyTail = some dt → (l.StoreTail senv db).2.2 = none →
      (l.StoreTail senv db).2.1 =
        { db with tails := ({ Typ := l.chainType.DbType, Key := l.user.uid }, dt) :: db.tails }) ∧
    ((l.StoreTail senv db).2.2 = none → (l.StoreTail senv db).1.dirtyTail = none) ∧
    (l.StoreTail senv db).1.chain = l.chain ∧
    (l.StoreTail senv db).2.1.links = db.links := by
  unfold SigChainLoader.StoreTail
  cases hd : l.dirtyTail with
  | none => simp [hd]
  | some dt =>
    cases hp : senv.PutObj { Typ := l.chainType.DbType, Key := l.user.uid } dt with
    | some e => simp [hp]
    | none => simp [hp]

/-- The loader method `Store` on a loader that holds a chain: `StoreTail` is
called, and `chain.Store()` after it when it returned no error. -/
theorem LoaderStore_spec (senv : StorageEnv) (l : SigChainLoader) (db : LocalDb) (c : SigChain)
    (hc : l.chain = some c) :
    (l.Store senv db).panicked = false ∧
    (l.Store senv db).loader.chain = some c ∧
    ((∃ e, (l.Store senv db).events = [LoadEvent.StoreTail l.dirtyTail (some e)] ∧
        (l.Store senv db).err = some e ∧ (l.Store senv db).db = db) ∨
      ((l.Store senv db).events =
          [LoadEvent.StoreTail l.dirtyTail none,
            LoadEvent.ChainStore c.chainLinks (l.Store senv db).err] ∧
        (l.Store senv db).db.tails =
          (match l.dirtyTail with
            | none => db.tails
            | some dt => ({ Typ := l.chainType.DbType, Key := l.user.uid }, dt) :: db.tails))) := by
  obtain ⟨s1, s2, s3, s4, s5, s6, s7⟩ := StoreTail_spec senv l db
  unfold SigChainLoader.Store
  rcases hst : l.StoreTail senv db with ⟨l1, db1, e⟩
  rw [hst] at s2 s3 s4 s5 s6 s7
  simp only at s2 s3 s4 s5 s6 s7
  cases e with
  | some e =>
    dsimp only
    refine ⟨rfl, by rw [s6, hc], Or.inl ⟨e, rfl, rfl, ?_⟩⟩
    cases hd : l.dirtyTail with
    | none =>
      rw [s1 hd] at hst
      cases hst
    | some dt =>
      have := s3 dt e hd rfl
      cases this
      rfl
  | none =>
    rw [hc] at s6
    simp only [s6]
    refine ⟨trivial, trivial, Or.inr ⟨trivial, ?_⟩⟩
    rcases SigChainStoreLoop_spec senv c.chainLinks c.chainLinks.length (le_refl _) db1 with
      ⟨k, _, _, h2, _⟩
    unfold SigChain.Store
    rw [h2]
    cases hd : l.dirtyTail with
    | none =>
      rw [s1 hd] at hst
      cases hst
      rfl
    | some dt =>
      rw [s4 dt hd rfl]

/-- The loader method `VerifySigsAndComputeKeys` on a loader that holds a
chain, when it returns: the loader still holds a chain, whose links differ
from those before by verification flags and caches at most, and its
`dirtyTail`, user and chain type are as before. -/
theorem LoaderVerifySigs_spec (env : Env) (kenv : KeyEnv) (l l2 : SigChainLoader)
    (c1 : SigChain) (e : Option KbError) (hc : l.chain = some c1)
    (h : l.VerifySigsAndComputeKeys env kenv = some (l2, e)) :
    ∃ c2, l2.chain = some c2 ∧
      c2.chainLinks.map ChainLink.unflagged = c1.chainLinks.map ChainLink.unflagged ∧
      l2.dirtyTail = l.dirtyTail ∧ l2.user = l.user ∧ l2.chainType.DbType = l.chainType.DbType := by
  unfold SigChainLoader.VerifySigsAndComputeKeys at h
  cases hkf : l.ckf.kf with
  | none =>
    rw [hkf] at h
    simp only [Option.some.injEq, Prod.mk.injEq] at h
    obtain ⟨h1, _⟩ := h
    subst h1
    exact ⟨c1, hc, rfl, rfl, rfl, rfl⟩
  | some kf =>
    rw [hkf, hc] at h
    cases hleaf : l.leaf with
    | none =>
      rw [hleaf] at h
      cases h
    | some leaf =>
      rw [hleaf] at h
      simp only [Option.some.injEq, Prod.mk.injEq] at h
      obtain ⟨h1, _⟩ := h
      subst h1
      refine ⟨_, rfl, ?_, rfl, rfl, rfl⟩
      exact VerifySigsAndComputeKeys_map ChainLink.unflagged (fun _ _ _ => rfl)
        (fun _ _ => rfl) env kenv c1 leaf.eldest l.ckf

/-- The stages of `Load` from the second "VerifyChain" on, for a loader that
holds the chain `c`: the log grows by one of the shapes of `storeStagesLog`;
the links `chain.Store()` is called on, and those of the chain in the end,
are the links of `c` up to verification flags and caches; `StoreTail` is
called with the `dirtyTail` of the loader; and the tail in the store changes
only by a `StoreTail` with a non-nil `dirtyTail` that returns no error. -/
theorem LoadStore_spec (env : Env) (kenv : KeyEnv) (senv : StorageEnv) (l : SigChainLoader)
    (db : LocalDb) (ev : List LoadEvent) (c : SigChain) (hc : l.chain = some c) :
    ∃ B, (l.LoadStore env kenv senv db ev).events = ev ++ B ∧
      storeStagesLog (decide ((l.LoadStore env kenv senv db ev).outcome = LoadOutcome.panicked))
        B ∧
      (l.LoadStore env kenv senv db ev).outcome ≠ LoadOutcome.unfinished ∧
      (l.LoadStore env kenv senv db ev).ret = (l.LoadStore env kenv senv db ev).loader.chain ∧
      (∃ cf, (l.LoadStore env kenv senv db ev).loader.chain = some cf ∧
        cf.chainLinks.map ChainLink.unflagged = c.chainLinks.map ChainLink.unflagged) ∧
      (∀ ls e, B[1]? = some (LoadEvent.ChainStore ls e) →
        ls.map ChainLink.unflagged = c.chainLinks.map ChainLink.unflagged) ∧
      (∀ dt e, B[3]? = some (LoadEvent.StoreTail dt e) → dt = l.dirtyTail) ∧
      ((l.LoadStore env kenv senv db ev).db.tails = db.tails ∨
        ∃ dt, l.dirtyTail = some dt ∧ B[3]? = some (LoadEvent.StoreTail (some dt) none) ∧
          (l.LoadStore env kenv senv db ev).db.tails =
            ({ Typ := l.chainType.DbType, Key := l.user.uid }, dt) :: db.tails) := by
  have hvmap : (c.VerifyChain env).1.chainLinks.map ChainLink.unflagged
      = c.chainLinks.map ChainLink.unflagged :=
    VerifyChainLoop_map ChainLink.unflagged (fun _ _ _ => rfl) env c.username c.uid _ _
  unfold SigChainLoader.LoadStore
  rw [hc]
  dsimp only
  rcases hv : c.VerifyChain env with ⟨c1, e1⟩
  rw [hv] at hvmap
  simp only at hvmap
  cases e1 with
  | some e1 =>
    dsimp only
    refine ⟨[LoadEvent.VerifyChain (some e1)], rfl, Or.inl ⟨by decide, e1, rfl⟩, by decide, rfl,
      ⟨c1, rfl, hvmap⟩, ?_, ?_, Or.inl rfl⟩
    · intro ls e h; simp at h
    · intro dt e h; simp at h
  | none =>
    dsimp only
    have hst : (c1.Store senv db).1.tails = db.tails := by
      rcases SigChainStoreLoop_spec senv c1.chainLinks c1.chainLinks.length (le_refl _) db with
        ⟨k, _, _, h2, _⟩
      exact h2
    rcases hs : c1.Store senv db with ⟨db1, e2⟩
    rw [hs] at hst
    simp only at hst
    cases e2 with
    | some e2 =>
      dsimp only
      refine ⟨[LoadEvent.VerifyChain none, LoadEvent.ChainStore c1.chainLinks (some e2)], rfl,
        Or.inr (Or.inl ⟨by decide, _, e2, rfl⟩), by decide, rfl, ⟨c1, rfl, hvmap⟩, ?_, ?_,
        Or.inl hst⟩
      · intro ls e h
        simp only [List.getElem?_cons_succ, List.getElem?_cons_zero, Option.some.injEq,
          LoadEvent.ChainStore.injEq] at h
        rw [← h.1]; exact hvmap
      · intro dt e h; simp at h
    | none =>
      dsimp only
      cases hvs : SigChainLoader.VerifySigsAndComputeKeys env kenv { l with chain := some c1 } with
      | none =>
        dsimp only
        refine ⟨[LoadEvent.VerifyChain none, LoadEvent.ChainStore c1.chainLinks none], rfl,
          Or.inr (Or.inr (Or.inl ⟨by decide, _, rfl⟩)), by decide, rfl, ⟨c1, rfl, hvmap⟩, ?_, ?_,
          Or.inl hst⟩
        · intro ls e h
          simp only [List.getElem?_cons_succ, List.getElem?_cons_zero, Option.some.injEq,
            LoadEvent.ChainStore.injEq] at h
          rw [← h.1]; exact hvmap
        · intro dt e h; simp at h
      | some r =>
        obtain ⟨l2, e3⟩ := r
        obtain ⟨c2, hc2, hmap2, hdt2, hu2, hty2⟩ :=
          LoaderVerifySigs_spec env kenv { l with chain := some c1 } l2 c1 e3 rfl hvs
        cases e3 with
        | some e3 =>
          dsimp only
          refine ⟨[LoadEvent.VerifyChain none, LoadEvent.ChainStore c1.chainLinks none,
              LoadEvent.VerifySigsAndComputeKeys (some e3)], rfl,
            Or.inr (Or.inr (Or.inr (Or.inl ⟨by decide, _, e3, rfl⟩))), by decide, rfl,
            ⟨c2, hc2, by rw [hmap2, hvmap]⟩, ?_, ?_, Or.inl hst⟩
          · intro ls e h
            simp only [List.getElem?_cons_succ, List.getElem?_cons_zero, Option.some.injEq,
              LoadEvent.ChainStore.injEq] at h
            rw [← h.1]; exact hvmap
          · intro dt e h; simp at h
        | none =>
          dsimp only
          obtain ⟨p1, p2, p3⟩ := LoaderStore_spec senv l2 db1 c2 hc2
          have hd2 : l2.dirtyTail = l.dirtyTail := hdt2
          have hu3 : l2.user = l.user := hu2
          have hty3 : l2.chainType.DbType = l.chainType.DbType := hty2
          rw [p1]
          rcases p3 with ⟨e4, q1, q2, q3⟩ | ⟨q1, q2⟩
          · rw [q1, q3]
            refine ⟨[LoadEvent.VerifyChain none, LoadEvent.ChainStore c1.chainLinks none,
                LoadEvent.VerifySigsAndComputeKeys none,
                LoadEvent.StoreTail l2.dirtyTail (some e4)], by simp,
              Or.inr (Or.inr (Or.inr (Or.inr (Or.inl ⟨by simp, _, _, e4, rfl⟩)))), by simp, rfl,
              ⟨c2, p2, by rw [hmap2, hvmap]⟩, ?_, ?_, Or.inl hst⟩
            · intro ls e h
              simp only [List.getElem?_cons_succ, List.getElem?_cons_zero, Option.some.injEq,
                LoadEvent.ChainStore.injEq] at h
              rw [← h.1]; exact hvmap
            · intro dt e h
              simp only [List.getElem?_cons_succ, List.getElem?_cons_zero, Option.some.injEq,
                LoadEvent.StoreTail.injEq] at h
              rw [← h.1]; exact hd2
          · rw [q1]
            refine ⟨[LoadEvent.VerifyChain none, LoadEvent.ChainStore c1.chainLinks none,
                LoadEvent.VerifySigsAndComputeKeys none,
                LoadEvent.StoreTail l2.dirtyTail none,
                LoadEvent.ChainStore c2.chainLinks (l2.Store senv db1).err], by simp,
              Or.inr (Or.inr (Or.inr (Or.inr (Or.inr ⟨by simp, _, _, _, _, rfl⟩)))), by simp, rfl,
              ⟨c2, p2, by rw [hmap2, hvmap]⟩, ?_, ?_, ?_⟩
            · intro ls e h
              simp only [List.getElem?_cons_succ, List.getElem?_cons_zero, Option.some.injEq,
                LoadEvent.ChainStore.injEq] at h
              rw [← h.1]; exact hvmap
            · intro dt e h
              simp only [List.getElem?_cons_succ, List.getElem?_cons_zero, Option.some.injEq,
                LoadEvent.StoreTail.injEq] at h
              rw [← h.1]; exact hd2
            · rw [q2]
              cases hdd : l2.dirtyTail with
              | none => exact Or.inl hst
              | some dt =>
                right
                refine ⟨dt, by rw [← hd2, hdd], by simp, ?_⟩
                dsimp only
                rw [hty3, hu3, hst]

/-- The facts of `LoadStore_spec` in the form used for `Load`. -/
theorem LoadStore_facts (env : Env) (kenv : KeyEnv) (senv : StorageEnv) (l : SigChainLoader)
    (db : LocalDb) (ev : List LoadEvent) (c : SigChain) (hc : l.chain = some c) :
    ∃ B, (l.LoadStore env kenv senv db ev).events = ev ++ B ∧
      storeStagesLog (decide ((l.LoadStore env kenv senv db ev).outcome = LoadOutcome.panicked))
        B ∧
      (l.LoadStore env kenv senv db ev).outcome ≠ LoadOutcome.unfinished ∧
      storeFacts (l.LoadStore env kenv senv db ev) db
        { Typ := l.chainType.DbType, Key := l.user.uid } B := by
  obtain ⟨B, h1, h2, h3, h4, ⟨cf, h5, h6⟩, h7, _, h9⟩ :=
    LoadStore_spec env kenv senv l db ev c hc
  refine ⟨B, h1, h2, h3, ⟨cf, h5, by rw [h4, h5], ?_⟩, ?_⟩
  · intro ls e hls
    rw [h7 ls e hls, h6]
  · rcases h9 with h9 | ⟨dt, _, g2, g3⟩
    · exact Or.inl h9
    · exact Or.inr ⟨dt, g2, g3⟩

/-- The shapes of the log of `Load` from the stage "MakeSigChain" on: the
early calls `A` up to the freshness decision, followed by the log `B` of the
storing stages when they are entered. -/
theorem LoadFromChain_spec (env : Env) (kenv : KeyEnv) (senv : StorageEnv) (now : Int)
    (l : SigChainLoader) (db : LocalDb) (ev : List LoadEvent) :
    ∃ A B, (l.LoadFromChain env kenv senv now db ev).events = ev ++ (A ++ B) ∧
      (l.LoadFromChain env kenv senv now db ev).outcome ≠ LoadOutcome.unfinished ∧
      (((∃ e, A = [LoadEvent.MakeSigChain, LoadEvent.VerifyChain (some e)]) ∧ B = [] ∧
          (l.LoadFromChain env kenv senv now db ev).db = db ∧
          (l.LoadFromChain env kenv senv now db ev).err ≠ none) ∨
        ((∃ cur e, A = [LoadEvent.MakeSigChain, LoadEvent.VerifyChain none,
            LoadEvent.CheckFreshness cur (some e)]) ∧ B = [] ∧
          (l.LoadFromChain env kenv senv now db ev).db = db ∧
          (l.LoadFromChain env kenv senv now db ev).err ≠ none) ∨
        ((∃ e, A = [LoadEvent.MakeSigChain, LoadEvent.VerifyChain none,
            LoadEvent.CheckFreshness false none,
            LoadEvent.LoadFromServer l.GetMerkleTriple (some e)]) ∧ B = [] ∧
          (l.LoadFromChain env kenv senv now db ev).db = db ∧
          (l.LoadFromChain env kenv senv now db ev).err ≠ none) ∨
        (A = [LoadEvent.MakeSigChain, LoadEvent.VerifyChain none,
            LoadEvent.CheckFreshness false none,
            LoadEvent.LoadFromServer l.GetMerkleTriple none] ∧
          storeStagesLog
            (decide ((l.LoadFromChain env kenv senv now db ev).outcome = LoadOutcome.panicked))
            B ∧
          storeFacts (l.LoadFromChain env kenv senv now db ev) db
            { Typ := l.chainType.DbType, Key := l.user.uid } B) ∨
        (A = [LoadEvent.MakeSigChain, LoadEvent.VerifyChain none,
            LoadEvent.CheckFreshness true none, LoadEvent.GetComputedKeyInfos true] ∧
          storeStagesLog
            (decide ((l.LoadFromChain env kenv senv now db ev).outcome = LoadOutcome.panicked))
            B ∧
          storeFacts (l.LoadFromChain env kenv senv now db ev) db
            { Typ := l.chainType.DbType, Key := l.user.uid } B) ∨
        (A = [LoadEvent.MakeSigChain, LoadEvent.VerifyChain none,
            LoadEvent.CheckFreshness true none, LoadEvent.GetComputedKeyInfos false] ∧ B = [] ∧
          (l.LoadFromChain env kenv senv now db ev).db = db ∧
          (l.LoadFromChain env kenv senv now db ev).err = none ∧
          (l.LoadFromChain env kenv senv now db ev).outcome = LoadOutcome.returned ∧
          ∃ c1, (l.LoadFromChain env kenv senv now db ev).ret = some c1 ∧
            (l.LoadFromChain env kenv senv now db ev).loader.chain = some c1 ∧
            c1.GetComputedKeyInfos ≠ none ∧
            c1.CheckFreshness env now l.GetMerkleTriple = (true, none))) := by
  have hgmt : ∀ (c : Option SigChain),
      SigChainLoader.GetMerkleTriple { l with chain := c } = l.GetMerkleTriple :=
    fun _ => rfl
  generalize hr : l.LoadFromChain env kenv senv now db ev = r
  unfold SigChainLoader.LoadFromChain SigChainLoader.MakeSigChain
    SigChainLoader.CheckFreshness SigChainLoader.LoadFromServer at hr
  simp only [hgmt] at hr
  split at hr
  · subst hr
    rename_i c1 e1 hv
    exact ⟨_, [], by simp, by simp, Or.inl ⟨⟨e1, rfl⟩, rfl, rfl, by simp⟩⟩
  · rename_i c1 hv
    split at hr
    · rename_i hcf
      cases hcf
    · rename_i cur e2 hcf
      subst hr
      exact ⟨_, [], by simp, by simp, Or.inr (Or.inl ⟨⟨cur, e2, rfl⟩, rfl, rfl, by simp⟩)⟩
    · rename_i hcf
      split at hr
      · rename_i hls
        cases hls
      · rename_i l2 e3 hls
        subst hr
        exact ⟨_, [], by simp, by simp,
          Or.inr (Or.inr (Or.inl ⟨⟨e3, rfl⟩, rfl, rfl, by simp⟩))⟩
      · rename_i l2 hls
        simp only [Option.some.injEq, Prod.mk.injEq] at hls
        obtain ⟨hl2, _⟩ := hls
        subst hl2
        subst hr
        obtain ⟨B, b1, b2, b3, b4⟩ := LoadStore_facts env kenv senv
          { l with chain := some (c1.LoadFromServer env l.GetMerkleTriple).1,
                   dirtyTail := (c1.LoadFromServer env l.GetMerkleTriple).2.1 } db
          (ev ++ [LoadEvent.MakeSigChain, LoadEvent.VerifyChain none,
            LoadEvent.CheckFreshness false none,
            LoadEvent.LoadFromServer l.GetMerkleTriple none]) _ rfl
        exact ⟨_, B, by rw [b1]; simp, b3, Or.inr (Or.inr (Or.inr (Or.inl ⟨rfl, b2, b4⟩)))⟩
    · rename_i hcf
      simp only [Option.some.injEq] at hcf
      split at hr
      · rename_i hcki
        subst hr
        obtain ⟨B, b1, b2, b3, b4⟩ := LoadStore_facts env kenv senv
          { l with chain := some c1 } db
          (ev ++ [LoadEvent.MakeSigChain, LoadEvent.VerifyChain none,
            LoadEvent.CheckFreshness true none, LoadEvent.GetComputedKeyInfos true]) c1 rfl
        exact ⟨_, B, by rw [b1]; simp, b3,
          Or.inr (Or.inr (Or.inr (Or.inr (Or.inl ⟨rfl, b2, b4⟩))))⟩
      · rename_i cki hcki
        subst hr
        exact ⟨_, [], by simp, by simp,
          Or.inr (Or.inr (Or.inr (Or.inr (Or.inr
            ⟨rfl, rfl, rfl, rfl, rfl, c1, rfl, rfl, by rw [hcki]; simp, hcf⟩))))⟩

/-- `LoadLinksFromStorage` writes the field `links` of the loader only. -/
theorem LoadLinksFromStorage_frame (senv : StorageEnv) (kenv : KeyEnv) (fuel : Nat)
    (l l3 : SigChainLoader) (e : Option KbError)
    (h : l.LoadLinksFromStorage senv kenv fuel = some (l3, e)) :
    l3.user = l.user ∧ l3.chainType = l.chainType ∧ l3.leaf = l.leaf ∧
      l3.dirtyTail = l.dirtyTail ∧ l3.ckf = l.ckf ∧ l3.allKeys = l.allKeys := by
  unfold SigChainLoader.LoadLinksFromStorage at h
  split at h
  · cases h; exact ⟨rfl, rfl, rfl, rfl, rfl, rfl⟩
  · cases h; exact ⟨rfl, rfl, rfl, rfl, rfl, rfl⟩
  · split at h
    · cases h
    · cases h; exact ⟨rfl, rfl, rfl, rfl, rfl, rfl⟩
    · cases h; exact ⟨rfl, rfl, rfl, rfl, rfl, rfl⟩

/-- The shapes of a run of `Load`: the walk of `LoadLinksFromStorage` has not
ended within the bound, or it has returned an error, or `Load` goes on from
the stage "MakeSigChain" with a loader that has the user, the chain type and
the leaf of the loader given. -/
theorem Load_spec (env : Env) (kenv : KeyEnv) (senv : StorageEnv) (now : Int) (fuel : Nat)
    (l : SigChainLoader) (db : LocalDb) :
    ((l.Load env kenv senv now fuel db).events =
        [LoadEvent.GetKeyFamily, LoadEvent.AccessPreload false] ∧
      (l.Load env kenv senv now fuel db).outcome = LoadOutcome.unfinished ∧
      (l.Load env kenv senv now fuel db).db = db) ∨
    (∃ e, (l.Load env kenv senv now fuel db).events =
        [LoadEvent.GetKeyFamily, LoadEvent.AccessPreload false,
          LoadEvent.LoadLinksFromStorage (some e)] ∧
      (l.Load env kenv senv now fuel db).outcome = LoadOutcome.returned ∧
      (l.Load env kenv senv now fuel db).err = some e ∧
      (l.Load env kenv senv now fuel db).db = db) ∨
    (∃ (P : List LoadEvent) (l3 : SigChainLoader), (P = [LoadEvent.GetKeyFamily, LoadEvent.AccessPreload true] ∨
        P = [LoadEvent.GetKeyFamily, LoadEvent.AccessPreload false,
          LoadEvent.LoadLinksFromStorage none]) ∧
      l.Load env kenv senv now fuel db = l3.LoadFromChain env kenv senv now db P ∧
      l3.user = l.user ∧ l3.chainType = l.chainType ∧ l3.leaf = l.leaf) := by
  generalize hr : l.Load env kenv senv now fuel db = r
  unfold SigChainLoader.Load SigChainLoader.GetKeyFamily SigChainLoader.AccessPreload at hr
  simp only at hr
  cases hp : l.preload with
  | none =>
    rw [hp] at hr
    simp only at hr
    generalize hll : SigChainLoader.LoadLinksFromStorage senv kenv fuel _ = res at hr
    rcases res with _ | ⟨l3, e⟩
    · simp only at hr
      subst hr
      exact Or.inl ⟨rfl, rfl, rfl⟩
    · cases e with
      | some e =>
        simp only at hr
        subst hr
        exact Or.inr (Or.inl ⟨e, rfl, rfl, rfl, rfl⟩)
      | none =>
        simp only at hr
        subst hr
        obtain ⟨f1, f2, f3, _⟩ := LoadLinksFromStorage_frame senv kenv fuel _ l3 none hll
        exact Or.inr (Or.inr ⟨_, l3, Or.inr rfl, rfl, f1, f2, f3⟩)
  | some p =>
    rw [hp] at hr
    simp only at hr
    by_cases hak : p.allKeys = l.allKeys
    · rw [if_pos hak] at hr
      simp only at hr
      subst hr
      exact Or.inr (Or.inr ⟨_, _, Or.inl rfl, rfl, rfl, rfl, rfl⟩)
    · rw [if_neg hak] at hr
      simp only at hr
      generalize hll : SigChainLoader.LoadLinksFromStorage senv kenv fuel _ = res at hr
      rcases res with _ | ⟨l3, e⟩
      · simp only at hr
        subst hr
        exact Or.inl ⟨rfl, rfl, rfl⟩
      · cases e with
        | some e =>
          simp only at hr
          subst hr
          exact Or.inr (Or.inl ⟨e, rfl, rfl, rfl, rfl⟩)
        | none =>
          simp only at hr
          subst hr
          obtain ⟨f1, f2, f3, _⟩ := LoadLinksFromStorage_frame senv kenv fuel _ l3 none hll
          exact Or.inr (Or.inr ⟨_, l3, Or.inr rfl, rfl, f1, f2, f3⟩)

/-- The log of the storing stages holds no call of the freshness decision and
no setup call. -/
theorem storeStagesLog_mem (p : Bool) (B : List LoadEvent) (h : storeStagesLog p B) :
    ∀ x ∈ B, x.isDecision = false ∧ x.isSetup = false := by
  intro x hx
  rcases h with ⟨_, e, rfl⟩ | ⟨_, ls, e, rfl⟩ | ⟨_, ls, rfl⟩ | ⟨_, ls, e, rfl⟩ |
    ⟨_, ls, dt, e, rfl⟩ | ⟨_, ls, dt, ls2, e, rfl⟩ <;>
  · simp only [List.mem_cons, List.mem_singleton, List.not_mem_nil, or_false] at hx
    rcases hx with rfl | rfl | rfl | rfl | rfl <;> exact ⟨rfl, rfl⟩

/-- In the log of the storing stages a call of `StoreTail` is the fourth call,
and the second call is a `chain.Store()` that returned no error. -/
theorem storeStagesLog_storeTail (p : Bool) (B : List LoadEvent) (h : storeStagesLog p B)
    (i : Nat) (dt : Option MerkleTriple) (e : Option KbError)
    (hi : B[i]? = some (LoadEvent.StoreTail dt e)) :
    i = 3 ∧ ∃ ls, B[1]? = some (LoadEvent.ChainStore ls none) := by
  rcases h with ⟨_, e1, rfl⟩ | ⟨_, ls, e1, rfl⟩ | ⟨_, ls, rfl⟩ | ⟨_, ls, e1, rfl⟩ |
    ⟨_, ls, dt1, e1, rfl⟩ | ⟨_, ls, dt1, ls2, e1, rfl⟩
  · rcases i with _ | _ | i <;> simp at hi
  · rcases i with _ | _ | _ | i <;> simp at hi
  · rcases i with _ | _ | _ | i <;> simp at hi
  · rcases i with _ | _ | _ | _ | i <;> simp at hi
  · rcases i with _ | _ | _ | _ | _ | i <;> simp at hi
    exact ⟨rfl, ls, rfl⟩
  · rcases i with _ | _ | _ | _ | _ | _ | i <;> simp at hi
    exact ⟨rfl, ls, rfl⟩

/-! ## The log of the storing stages of `Load` -/

/-- A call of `StoreTail` in a log that continues a log without storing calls
lies in the continuation. -/
theorem getElem?_append_storeTail (Q B : List LoadEvent)
    (hQ : ∀ x ∈ Q, x.isStorePhase = false) (i : Nat) (dt : Option MerkleTriple)
    (e : Option KbError) (h : (Q ++ B)[i]? = some (LoadEvent.StoreTail dt e)) :
    Q.length ≤ i ∧ B[i - Q.length]? = some (LoadEvent.StoreTail dt e) := by
  by_cases hi : i < Q.length
  · rw [List.getElem?_append_left hi] at h
    have hmem := List.mem_iff_getElem?.mpr ⟨i, h⟩
    have := hQ _ hmem
    cases this
  · have hle : Q.length ≤ i := Nat.le_of_not_lt hi
    rw [List.getElem?_append_right hle] at h
    exact ⟨hle, h⟩

/-- What a run of `Load` from the stage "MakeSigChain" on leaves: a log whose
first part holds no storing call, and then either nothing more and the store
as it was, or the log of the storing stages with the facts on them. -/
theorem LoadFromChain_store (env : Env) (kenv : KeyEnv) (senv : StorageEnv) (now : Int)
    (l : SigChainLoader) (db : LocalDb) (ev : List LoadEvent) :
    ∃ A B, (l.LoadFromChain env kenv senv now db ev).events = ev ++ (A ++ B) ∧
      (∀ x ∈ A, x.isStorePhase = false) ∧
      ((B = [] ∧ (l.LoadFromChain env kenv senv now db ev).db = db) ∨
        (storeStagesLog
            (decide ((l.LoadFromChain env kenv senv now db ev).outcome = LoadOutcome.panicked))
            B ∧
          storeFacts (l.LoadFromChain env kenv senv now db ev) db
            { Typ := l.chainType.DbType, Key := l.user.uid } B)) := by
  obtain ⟨A, B, hev, _, hcases⟩ := LoadFromChain_spec env kenv senv now l db ev
  refine ⟨A, B, hev, ?_, ?_⟩
  · intro x hx
    rcases hcases with ⟨⟨e1, hA⟩, _⟩ | ⟨⟨c2, e2, hA⟩, _⟩ | ⟨⟨e3, hA⟩, _⟩ | ⟨hA, _⟩ | ⟨hA, _⟩ |
      ⟨hA, _⟩ <;>
    · subst hA
      simp only [List.mem_cons, List.mem_singleton, List.not_mem_nil, or_false] at hx
      rcases hx with rfl | rfl | rfl | rfl <;> rfl
  · rcases hcases with ⟨_, hB, hdb, _⟩ | ⟨_, hB, hdb, _⟩ | ⟨_, hB, hdb, _⟩ | ⟨_, hB, hf⟩ |
      ⟨_, hB, hf⟩ | ⟨_, hB, hdb, _⟩
    · exact Or.inl ⟨hB, hdb⟩
    · exact Or.inl ⟨hB, hdb⟩
    · exact Or.inl ⟨hB, hdb⟩
    · exact Or.inr ⟨hB, hf⟩
    · exact Or.inr ⟨hB, hf⟩
    · exact Or.inl ⟨hB, hdb⟩

/-! ## The stages of `Load` in terms of the four operations -/

/-- What `Load` leaves from the stage "MakeSigChain" on, when the first
`VerifyChain` returns no error and leaves the chain `c1`, by the result of
`CheckFreshness` on `c1`. -/
theorem LoadFromChain_branches (env : Env) (kenv : KeyEnv) (senv : StorageEnv) (now : Int)
    (l : SigChainLoader) (db : LocalDb) (ev : List LoadEvent) (c0 c1 : SigChain)
    (hmk : (l.MakeSigChain).1.chain = some c0) (hv : c0.VerifyChain env = (c1, none)) :
    (c1.CheckFreshness env now l.GetMerkleTriple = (true, none) →
      (c1.GetComputedKeyInfos ≠ none →
        (l.LoadFromChain env kenv senv now db ev).ret = some c1 ∧
        (l.LoadFromChain env kenv senv now db ev).err = none ∧
        (l.LoadFromChain env kenv senv now db ev).db = db ∧
        (l.LoadFromChain env kenv senv now db ev).loader = { l with chain := some c1 } ∧
        (l.LoadFromChain env kenv senv now db ev).outcome = LoadOutcome.returned) ∧
      (c1.GetComputedKeyInfos = none →
        ∃ ev2, l.LoadFromChain env kenv senv now db ev =
          SigChainLoader.LoadStore env kenv senv { l with chain := some c1 } db ev2)) ∧
    (c1.CheckFreshness env now l.GetMerkleTriple = (false, none) →
      (∀ e, (c1.LoadFromServer env l.GetMerkleTriple).2.2 = some e →
        (l.LoadFromChain env kenv senv now db ev).ret
          = some (c1.LoadFromServer env l.GetMerkleTriple).1 ∧
        (l.LoadFromChain env kenv senv now db ev).err = some e ∧
        (l.LoadFromChain env kenv senv now db ev).db = db ∧
        (l.LoadFromChain env kenv senv now db ev).loader =
          { l with chain := some (c1.LoadFromServer env l.GetMerkleTriple).1,
                   dirtyTail := (c1.LoadFromServer env l.GetMerkleTriple).2.1 } ∧
        (l.LoadFromChain env kenv senv now db ev).outcome = LoadOutcome.returned) ∧
      ((c1.LoadFromServer env l.GetMerkleTriple).2.2 = none →
        ∃ ev2, l.LoadFromChain env kenv senv now db ev =
          SigChainLoader.LoadStore env kenv senv
            { l with chain := some (c1.LoadFromServer env l.GetMerkleTriple).1,
                     dirtyTail := (c1.LoadFromServer env l.GetMerkleTriple).2.1 } db ev2)) := by
  have hgmt : ∀ (c : Option SigChain),
      SigChainLoader.GetMerkleTriple { l with chain := c } = l.GetMerkleTriple :=
    fun _ => rfl
  unfold SigChainLoader.MakeSigChain at hmk
  simp only [Option.some.injEq] at hmk
  subst hmk
  generalize hr : l.LoadFromChain env kenv senv now db ev = r
  unfold SigChainLoader.LoadFromChain SigChainLoader.MakeSigChain
    SigChainLoader.CheckFreshness SigChainLoader.LoadFromServer at hr
  simp only [hgmt, hv] at hr
  constructor
  · intro hcf
    rw [hcf] at hr
    simp only at hr
    constructor
    · intro hcki
      obtain ⟨cki, hcki2⟩ := Option.ne_none_iff_exists'.mp hcki
      rw [hcki2] at hr
      simp only at hr
      subst hr
      exact ⟨rfl, rfl, rfl, rfl, rfl⟩
    · intro hcki
      rw [hcki] at hr
      simp only at hr
      subst hr
      exact ⟨_, rfl⟩
  · intro hcf
    rw [hcf] at hr
    simp only at hr
    constructor
    · intro e he
      rw [he] at hr
      simp only at hr
      subst hr
      exact ⟨rfl, rfl, rfl, rfl, rfl⟩
    · intro he
      rw [he] at hr
      simp only at hr
      subst hr
      exact ⟨_, rfl⟩

/-- `AccessPreload` writes the field `links` of the loader only. -/
theorem AccessPreload_frame (l : SigChainLoader) :
    (l.AccessPreload).1.user = l.user ∧ (l.AccessPreload).1.chainType = l.chainType ∧
      (l.AccessPreload).1.leaf = l.leaf := by
  unfold SigChainLoader.AccessPreload
  cases l.preload with
  | none => exact ⟨rfl, rfl, rfl⟩
  | some p =>
    dsimp only
    split <;> exact ⟨rfl, rfl, rfl⟩

/-- When the stages before "MakeSigChain" return no error and leave the
loader `l3`, `Load` goes on from "MakeSigChain" with `l3`, which has the
user, the chain type and the Merkle triple of the loader given. -/
theorem Load_of_setup (env : Env) (kenv : KeyEnv) (senv : StorageEnv) (now : Int) (fuel : Nat)
    (l l3 : SigChainLoader) (db : LocalDb) (hs : loadSetup senv kenv fuel l l3) :
    (∃ P, l.Load env kenv senv now fuel db = l3.LoadFromChain env kenv senv now db P) ∧
    l3.GetMerkleTriple = l.GetMerkleTriple ∧ l3.user = l.user ∧
    l3.chainType = l.chainType := by
  obtain ⟨a1, a2, a3⟩ := AccessPreload_frame (l.GetKeyFamily).1
  have hframe : ∀ (x : SigChainLoader), x.user = ((l.GetKeyFamily).1.AccessPreload).1.user →
      x.chainType = ((l.GetKeyFamily).1.AccessPreload).1.chainType →
      x.leaf = ((l.GetKeyFamily).1.AccessPreload).1.leaf →
      x.GetMerkleTriple = l.GetMerkleTriple ∧ x.user = l.user ∧ x.chainType = l.chainType := by
    intro x h1 h2 h3
    rw [a1] at h1
    rw [a2] at h2
    rw [a3] at h3
    refine ⟨?_, h1, h2⟩
    unfold SigChainLoader.GetMerkleTriple
    rw [h3, h2]
    rfl
  generalize hr : l.Load env kenv senv now fuel db = r
  unfold SigChainLoader.Load at hr
  have hgk : l.GetKeyFamily = ((l.GetKeyFamily).1, none) := rfl
  rw [hgk] at hr
  simp only at hr
  rcases hs with ⟨h1, h2⟩ | ⟨h1, h2⟩
  · have hap : (l.GetKeyFamily).1.AccessPreload = (l3, true, none) := by
      rw [h2]
      exact Prod.ext rfl h1
    rw [hap] at hr
    simp only at hr
    refine ⟨⟨_, hr.symm⟩, ?_⟩
    rw [h2]
    exact hframe _ rfl rfl rfl
  · have hap : (l.GetKeyFamily).1.AccessPreload
        = (((l.GetKeyFamily).1.AccessPreload).1, false, none) :=
      Prod.ext rfl h1
    rw [hap] at hr
    simp only at hr
    rw [h2] at hr
    simp only at hr
    refine ⟨⟨_, hr.symm⟩, ?_⟩
    obtain ⟨f1, f2, f3, _⟩ := LoadLinksFromStorage_frame senv kenv fuel _ l3 none h2
    exact hframe l3 f1 f2 f3

/-- `SigChain.Store` leaves the tails of the store as they are. -/
theorem Store_tails (senv : StorageEnv) (c : SigChain) (db : LocalDb) :
    (c.Store senv db).1.tails = db.tails := by
  rcases SigChainStoreLoop_spec senv c.chainLinks c.chainLinks.length (le_refl _) db with
    ⟨k, _, _, h2, _⟩
  exact h2

/-- What was persisted before a `SigChain.Store` is persisted after it. -/
theorem Store_links_mono (senv : StorageEnv) (c : SigChain) (db : LocalDb) :
    ∀ id ∈ db.links, id ∈ (c.Store senv db).1.links := by
  rcases SigChainStoreLoop_spec senv c.chainLinks c.chainLinks.length (le_refl _) db with
    ⟨k, _, h1, _⟩
  intro id hid
  unfold SigChain.Store
  rw [h1]
  exact List.mem_append_right _ hid

/-- After a `SigChain.Store` that returns no error the last link of the chain
is persisted. -/
theorem Store_last_persisted (senv : StorageEnv) (c : SigChain) (db : LocalDb)
    (h : (c.Store senv db).2 = none) (x : ChainLink) (hx : last c.chainLinks = some x) :
    x.persisted (c.Store senv db).1 := by
  rcases SigChainStoreLoop_spec senv c.chainLinks c.chainLinks.length (le_refl _) db with
    ⟨k, hk, h1, _, _, h4, _⟩
  rw [List.take_length] at h1
  have hne : ¬ c.chainLinks.length = 0 := by
    intro h0
    rw [(last_eq_none_iff _).mpr (List.eq_nil_of_length_eq_zero h0)] at hx
    cases hx
  have hget : c.chainLinks[c.chainLinks.length - 1]? = some x := by
    unfold last at hx; rw [if_neg hne] at hx; exact hx
  show x.id ∈ (c.Store senv db).1.links
  by_cases hkl : k = c.chainLinks.length
  · rcases h4 h with h0 | ⟨l, hl, hmem⟩
    · omega
    · rw [hkl, hget] at hl
      cases hl
      exact hmem
  · unfold SigChain.Store
    rw [h1]
    apply List.mem_append_left
    apply List.mem_map_of_mem
    have hd : (c.chainLinks.drop k)[c.chainLinks.length - 1 - k]? = some x := by
      rw [List.getElem?_drop]
      have : k + (c.chainLinks.length - 1 - k) = c.chainLinks.length - 1 := by omega
      rw [this]
      exact hget
    exact List.mem_iff_getElem?.mpr ⟨_, hd⟩

/-- The stages of `Load` from the second "VerifyChain" on, for a loader that
holds the chain `c`, in terms of the four operations: `VerifyChain` runs on
`c`; on its error `Load` returns it with the store untouched; otherwise
`SigChain.Store` runs on the store given; on its error `Load` returns it
with the store `SigChain.Store` has left; otherwise
`VerifySigsAndComputeKeys` runs on the loader holding the verified chain; on
its error `Load` returns it; otherwise the loader's `Store` runs on the store
`SigChain.Store` has left, and `Load` leaves the loader, the store and the
error of that `Store`. -/
theorem LoadStore_stages (env : Env) (kenv : KeyEnv) (senv : StorageEnv) (l : SigChainLoader)
    (db : LocalDb) (ev : List LoadEvent) (c : SigChain) (hc : l.chain = some c) :
    ∀ (cv : SigChain) (e1 : Option KbError), c.VerifyChain env = (cv, e1) →
      (e1 ≠ none →
        (l.LoadStore env kenv senv db ev).err = e1 ∧
        (l.LoadStore env kenv senv db ev).db = db ∧
        (l.LoadStore env kenv senv db ev).ret = some cv ∧
        (l.LoadStore env kenv senv db ev).loader = { l with chain := some cv } ∧
        (l.LoadStore env kenv senv db ev).outcome = LoadOutcome.returned) ∧
      (e1 = none → ∀ (db1 : LocalDb) (e2 : Option KbError), cv.Store senv db = (db1, e2) →
        (e2 ≠ none →
          (l.LoadStore env kenv senv db ev).err = e2 ∧
          (l.LoadStore env kenv senv db ev).db = db1 ∧
          (l.LoadStore env kenv senv db ev).ret = some cv ∧
          (l.LoadStore env kenv senv db ev).loader = { l with chain := some cv } ∧
          (l.LoadStore env kenv senv db ev).outcome = LoadOutcome.returned) ∧
        (e2 = none →
          (SigChainLoader.VerifySigsAndComputeKeys env kenv { l with chain := some cv } = none →
            (l.LoadStore env kenv senv db ev).db = db1 ∧
            (l.LoadStore env kenv senv db ev).outcome = LoadOutcome.panicked) ∧
          (∀ (l2 : SigChainLoader) (e3 : Option KbError),
            SigChainLoader.VerifySigsAndComputeKeys env kenv { l with chain := some cv }
              = some (l2, e3) →
            (e3 ≠ none →
              (l.LoadStore env kenv senv db ev).err = e3 ∧
              (l.LoadStore env kenv senv db ev).db = db1 ∧
              (l.LoadStore env kenv senv db ev).ret = l2.chain ∧
              (l.LoadStore env kenv senv db ev).loader = l2 ∧
              (l.LoadStore env kenv senv db ev).outcome = LoadOutcome.returned) ∧
            (e3 = none →
              (l.LoadStore env kenv senv db ev).err = (l2.Store senv db1).err ∧
              (l.LoadStore env kenv senv db ev).db = (l2.Store senv db1).db ∧
              (l.LoadStore env kenv senv db ev).ret = (l2.Store senv db1).loader.chain ∧
              (l.LoadStore env kenv senv db ev).loader = (l2.Store senv db1).loader ∧
              ((l.LoadStore env kenv senv db ev).outcome = LoadOutcome.panicked ↔
                (l2.Store senv db1).panicked = true))))) := by
  intro cv e1 hv
  unfold SigChainLoader.LoadStore
  rw [hc]
  dsimp only
  rw [hv]
  cases e1 with
  | some e1 =>
    dsimp only
    exact ⟨fun _ => ⟨rfl, rfl, rfl, rfl, rfl⟩, fun h => by cases h⟩
  | none =>
    dsimp only
    refine ⟨fun h => absurd rfl h, fun _ => ?_⟩
    intro db1 e2 hs
    rw [hs]
    cases e2 with
    | some e2 =>
      dsimp only
      exact ⟨fun _ => ⟨rfl, rfl, rfl, rfl, rfl⟩, fun h => by cases h⟩
    | none =>
      dsimp only
      refine ⟨fun h => absurd rfl h, fun _ => ⟨?_, ?_⟩⟩
      · intro hk
        rw [hk]
        exact ⟨rfl, rfl⟩
      · intro l2 e3 hk
        rw [hk]
        cases e3 with
        | some e3 =>
          dsimp only
          exact ⟨fun _ => ⟨rfl, rfl, rfl, rfl, rfl⟩, fun h => by cases h⟩
        | none =>
          dsimp only
          refine ⟨fun h => absurd rfl h, fun _ => ⟨rfl, rfl, rfl, rfl, ?_⟩⟩
          cases (l2.Store senv db1).panicked <;> simp

/-- The stages of `Load` from the second "VerifyChain" on leave the tails of
the store as they were, unless `SigChain.Store` has returned no error on the
store given (leaving `db1`), `VerifySigsAndComputeKeys` has returned no
error (leaving the chain `cf`), and `StoreTail` has then written the tail
`dt`; the store left is that of the `SigChain.Store` that follows. -/
theorem LoadStore_tail (env : Env) (kenv : KeyEnv) (senv : StorageEnv) (l : SigChainLoader)
    (db : LocalDb) (ev : List LoadEvent) (c : SigChain) (hc : l.chain = some c) :
    (l.LoadStore env kenv senv db ev).db.tails = db.tails ∨
    ∃ (c2 : SigChain) (db1 : LocalDb) (cf : SigChain) (dt : MerkleTriple),
      c2.Store senv db = (db1, none) ∧
      (l.LoadStore env kenv senv db ev).loader.chain = some cf ∧
      (l.LoadStore env kenv senv db ev).ret = some cf ∧
      c2.chainLinks.map ChainLink.unflagged = cf.chainLinks.map ChainLink.unflagged ∧
      (l.LoadStore env kenv senv db ev).db =
        (cf.Store senv
          { db1 with
            tails := ({ Typ := l.chainType.DbType, Key := l.user.uid }, dt) :: db1.tails }).1 ∧
      (l.LoadStore env kenv senv db ev).db.tails =
        ({ Typ := l.chainType.DbType, Key := l.user.uid }, dt) :: db.tails := by
  unfold SigChainLoader.LoadStore
  rw [hc]
  dsimp only
  rcases hv : c.VerifyChain env with ⟨c1, e1⟩
  cases e1 with
  | some e1 => exact Or.inl rfl
  | none =>
    dsimp only
    have hst := Store_tails senv c1 db
    rcases hs : c1.Store senv db with ⟨db1, e2⟩
    rw [hs] at hst
    simp only at hst
    cases e2 with
    | some e2 => exact Or.inl hst
    | none =>
      dsimp only
      cases hvs : SigChainLoader.VerifySigsAndComputeKeys env kenv { l with chain := some c1 } with
      | none => exact Or.inl hst
      | some r =>
        obtain ⟨l2, e3⟩ := r
        obtain ⟨c3, hc3, hmap, hdt, hu, hty⟩ :=
          LoaderVerifySigs_spec env kenv { l with chain := some c1 } l2 c1 e3 rfl hvs
        have hu2 : l2.user = l.user := hu
        have hty2 : l2.chainType.DbType = l.chainType.DbType := hty
        cases e3 with
        | some e3 => exact Or.inl hst
        | none =>
          dsimp only
          unfold SigChainLoader.Store SigChainLoader.StoreTail
          cases hd : l2.dirtyTail with
          | none =>
            left
            simp only [hc3]
            rw [Store_tails, hst]
          | some dt =>
            dsimp only
            cases hp : senv.PutObj { Typ := l2.chainType.DbType, Key := l2.user.uid } dt with
            | some e => exact Or.inl hst
            | none =>
              right
              simp only [hc3]
              refine ⟨c1, db1, c3, dt, hs, rfl, rfl, hmap.symm, ?_, ?_⟩
              · rw [hty2, hu2]
              · rw [Store_tails, hty2, hu2, hst]

/-- From the stage "MakeSigChain" on, `Load` leaves the store as it was, or
it goes through the stages from the second "VerifyChain" on with a loader
`lX` holding a chain. -/
theorem LoadFromChain_store_cases (env : Env) (kenv : KeyEnv) (senv : StorageEnv) (now : Int)
    (l : SigChainLoader) (db : LocalDb) (ev : List LoadEvent) :
    (l.LoadFromChain env kenv senv now db ev).db = db ∨
    ∃ (lX : SigChainLoader) (cX : SigChain) (ev2 : List LoadEvent), lX.chain = some cX ∧
      lX.user = l.user ∧ lX.chainType = l.chainType ∧
      l.LoadFromChain env kenv senv now db ev = lX.LoadStore env kenv senv db ev2 := by
  have hgmt : ∀ (c : Option SigChain),
      SigChainLoader.GetMerkleTriple { l with chain := c } = l.GetMerkleTriple :=
    fun _ => rfl
  generalize hr : l.LoadFromChain env kenv senv now db ev = r
  unfold SigChainLoader.LoadFromChain SigChainLoader.MakeSigChain
    SigChainLoader.CheckFreshness SigChainLoader.LoadFromServer at hr
  simp only [hgmt] at hr
  split at hr
  · subst hr
    exact Or.inl rfl
  · rename_i c1 hv
    split at hr
    · rename_i hcf
      cases hcf
    · subst hr
      exact Or.inl rfl
    · rename_i hcf
      split at hr
      · rename_i hls
        cases hls
      · subst hr
        exact Or.inl rfl
      · rename_i l2 hls
        simp only [Option.some.injEq, Prod.mk.injEq] at hls
        obtain ⟨hl2, _⟩ := hls
        subst hl2
        subst hr
        exact Or.inr ⟨{ l with chain := some (c1.LoadFromServer env l.GetMerkleTriple).1,
                               dirtyTail := (c1.LoadFromServer env l.GetMerkleTriple).2.1 },
          _, _, rfl, rfl, rfl, rfl⟩
    · rename_i hcf
      split at hr
      · subst hr
        exact Or.inr ⟨{ l with chain := some c1 }, c1, _, rfl, rfl, rfl, rfl⟩
      · subst hr
        exact Or.inl rfl

/-- A run of `Load` leaves the store as it was, or it goes through the stages
from the second "VerifyChain" on with a loader `lX` holding a chain, with the
user and the chain type of the loader given. -/
theorem Load_store_cases (env : Env) (kenv : KeyEnv) (senv : StorageEnv) (now : Int) (fuel : Nat)
    (l : SigChainLoader) (db : LocalDb) :
    (l.Load env kenv senv now fuel db).db = db ∨
    ∃ (lX : SigChainLoader) (cX : SigChain) (ev2 : List LoadEvent), lX.chain = some cX ∧
      lX.user = l.user ∧ lX.chainType = l.chainType ∧
      l.Load env kenv senv now fuel db = lX.LoadStore env kenv senv db ev2 := by
  rcases Load_spec env kenv senv now fuel l db with ⟨_, _, h⟩ | ⟨e, _, _, _, h⟩ |
    ⟨P, l3, _, h, hu, hty, _⟩
  · exact Or.inl h
  · exact Or.inl h
  · rw [h]
    rcases LoadFromChain_store_cases env kenv senv now l3 db P with h1 | ⟨lX, cX, ev2, a, b, c, d⟩
    · exact Or.inl h1
    · exact Or.inr ⟨lX, cX, ev2, a, b.trans hu, c.trans hty, d⟩

/-- A run of `Load` that leaves other tails in the store than it found has
run `SigChain.Store` without error on the store given, on a chain `c2` with
the links of the chain `cf` it returns up to verification flags and caches,
before writing the tail: the store left holds what that `SigChain.Store`
persisted, the last link of the chain included. -/
theorem Load_tail_written (env : Env) (kenv : KeyEnv) (senv : StorageEnv) (now : Int)
    (fuel : Nat) (l : SigChainLoader) (db : LocalDb)
    (h : (l.Load env kenv senv now fuel db).db.tails ≠ db.tails) :
    ∃ (c2 : SigChain) (db1 : LocalDb) (cf : SigChain) (dt : MerkleTriple),
      c2.Store senv db = (db1, none) ∧
      (l.Load env kenv senv now fuel db).loader.chain = some cf ∧
      (l.Load env kenv senv now fuel db).ret = some cf ∧
      c2.chainLinks.map ChainLink.unflagged = cf.chainLinks.map ChainLink.unflagged ∧
      (l.Load env kenv senv now fuel db).db =
        (cf.Store senv
          { db1 with
            tails := ({ Typ := l.chainType.DbType, Key := l.user.uid }, dt) :: db1.tails }).1 ∧
      (l.Load env kenv senv now fuel db).db.tails =
        ({ Typ := l.chainType.DbType, Key := l.user.uid }, dt) :: db.tails ∧
      (∀ id ∈ db1.links, id ∈ (l.Load env kenv senv now fuel db).db.links) ∧
      (∀ x, last c2.chainLinks = some x →
        x.persisted db1 ∧ x.persisted (l.Load env kenv senv now fuel db).db) := by
  rcases Load_store_cases env kenv senv now fuel l db with h1 | ⟨lX, cX, ev2, hc, hu, hty, hag⟩
  · rw [h1] at h
    exact absurd rfl h
  · rw [hag] at h ⊢
    rcases LoadStore_tail env kenv senv lX db ev2 cX hc with h2 |
      ⟨c2, db1, cf, dt, s1, s2, s2r, s3, s4, s5⟩
    · rw [h2] at h
      exact absurd rfl h
    · rw [hu, hty] at s4 s5
      have hmono : ∀ id ∈ db1.links, id ∈ (lX.LoadStore env kenv senv db ev2).db.links := by
        intro id hid
        rw [s4]
        exact Store_links_mono senv cf _ id hid
      refine ⟨c2, db1, cf, dt, s1, s2, s2r, s3, s4, s5, hmono, ?_⟩
      intro x hx
      have hp := Store_last_persisted senv c2 db (by rw [s1]) x hx
      rw [s1] at hp
      exact ⟨hp, hmono _ hp⟩

/-! ## The freshness decision of `Load` -/

/-- C22 (freshness decision).  For every run of `Load`, on the state it
leaves and on the log of the calls it makes.  Let the stages before
"MakeSigChain" return no error and leave the loader `l3`, and let the first
`VerifyChain` return no error and leave the chain `c1`.

Early returns: when `CheckFreshness` reports `current = true` without error
on `c1` and `GetComputedKeyInfos()` is non-nil, `Load` returns `c1` at once
with no error: the store is as it was (no `SigChain.Store`), and the loader
is `l3` holding `c1` (no `LoadFromServer`, no `VerifySigsAndComputeKeys`).
When `CheckFreshness` reports `current = false` without error and
`LoadFromServer`, run on `c1` with the Merkle triple of the loader, returns
an error, `Load` returns that error with the store untouched.

The stages: when `current = true` and `GetComputedKeyInfos()` is nil, the
stages run on `c1` in the loader `l3`, with no `LoadFromServer`; when
`current = false` and `LoadFromServer` returns no error, they run on the
chain and with the dirty tail that `LoadFromServer` has left.  In both cases,
with `cs` that chain and `ls` that loader: `VerifyChain` runs on `cs`; on
its error `Load` returns it with the store untouched; otherwise
`SigChain.Store` runs on the verified chain and the store given; on its
error `Load` returns it with the store `SigChain.Store` has left; otherwise
`VerifySigsAndComputeKeys` runs on the loader holding the verified chain; on
its error `Load` returns it; otherwise the loader's `Store` (`StoreTail` and
then `chain.Store()`) runs on the store `SigChain.Store` has left, and
`Load` leaves the loader, the store and the error of that `Store`.

On the log: `CheckFreshness` is called right after a first `VerifyChain`
that returned no error, with setup calls only before.  When it reports
`current = true` without error, `LoadFromServer` is not called,
`GetComputedKeyInfos()` is consulted, and either it is non-nil and the log
ends there, with no call of `chain.Store`, `VerifySigsAndComputeKeys` or
`StoreTail`, or it is nil and the calls of the storing stages follow, each
made when the one before returned no error.  When it reports
`current = false` without error, `LoadFromServer` is called next, with the
Merkle triple of the loader, and the same calls follow when it returned no
error. -/
theorem Load_freshness_branches (env : Env) (kenv : KeyEnv) (senv : StorageEnv) (now : Int)
    (fuel : Nat) (l : SigChainLoader) (db : LocalDb) (r : LoadResult)
    (hr : r = l.Load env kenv senv now fuel db) :
    (∀ (l3 : SigChainLoader) (c0 c1 : SigChain), loadSetup senv kenv fuel l l3 →
      (l3.MakeSigChain).1.chain = some c0 → c0.VerifyChain env = (c1, none) →
      (c1.CheckFreshness env now l.GetMerkleTriple = (true, none) →
        c1.GetComputedKeyInfos ≠ none →
          r.ret = some c1 ∧ r.err = none ∧ r.db = db ∧
          r.loader = { l3 with chain := some c1 } ∧
          r.outcome = LoadOutcome.returned) ∧
      (c1.CheckFreshness env now l.GetMerkleTriple = (false, none) →
        ∀ e, (c1.LoadFromServer env l.GetMerkleTriple).2.2 = some e →
          r.ret = some (c1.LoadFromServer env l.GetMerkleTriple).1 ∧
          r.err = some e ∧ r.db = db ∧
          r.loader =
            { l3 with chain := some (c1.LoadFromServer env l.GetMerkleTriple).1,
                      dirtyTail := (c1.LoadFromServer env l.GetMerkleTriple).2.1 } ∧
          r.outcome = LoadOutcome.returned)) ∧
    (∀ (l3 : SigChainLoader) (c0 c1 cs : SigChain) (ls : SigChainLoader),
      loadSetup senv kenv fuel l l3 →
      (l3.MakeSigChain).1.chain = some c0 → c0.VerifyChain env = (c1, none) →
      ((c1.CheckFreshness env now l.GetMerkleTriple = (true, none) ∧
          c1.GetComputedKeyInfos = none ∧ cs = c1 ∧ ls = { l3 with chain := some c1 }) ∨
        (c1.CheckFreshness env now l.GetMerkleTriple = (false, none) ∧
          (c1.LoadFromServer env l.GetMerkleTriple).2.2 = none ∧
          cs = (c1.LoadFromServer env l.GetMerkleTriple).1 ∧
          ls = { l3 with chain := some (c1.LoadFromServer env l.GetMerkleTriple).1,
                         dirtyTail := (c1.LoadFromServer env l.GetMerkleTriple).2.1 })) →
      ∀ (cv : SigChain) (e1 : Option KbError), cs.VerifyChain env = (cv, e1) →
        (e1 ≠ none →
          r.err = e1 ∧ r.db = db ∧ r.ret = some cv ∧
          r.loader = { ls with chain := some cv } ∧ r.outcome = LoadOutcome.returned) ∧
        (e1 = none → ∀ (db1 : LocalDb) (e2 : Option KbError), cv.Store senv db = (db1, e2) →
          (e2 ≠ none →
            r.err = e2 ∧ r.db = db1 ∧ r.ret = some cv ∧
            r.loader = { ls with chain := some cv } ∧ r.outcome = LoadOutcome.returned) ∧
          (e2 = none →
            (SigChainLoader.VerifySigsAndComputeKeys env kenv { ls with chain := some cv }
                = none →
              r.db = db1 ∧ r.outcome = LoadOutcome.panicked) ∧
            (∀ (l2 : SigChainLoader) (e3 : Option KbError),
              SigChainLoader.VerifySigsAndComputeKeys env kenv { ls with chain := some cv }
                = some (l2, e3) →
              (e3 ≠ none →
                r.err = e3 ∧ r.db = db1 ∧ r.ret = l2.chain ∧ r.loader = l2 ∧
                r.outcome = LoadOutcome.returned) ∧
              (e3 = none →
                r.err = (l2.Store senv db1).err ∧ r.db = (l2.Store senv db1).db ∧
                r.ret = (l2.Store senv db1).loader.chain ∧
                r.loader = (l2.Store senv db1).loader ∧
                (r.outcome = LoadOutcome.panicked ↔
                  (l2.Store senv db1).panicked = true)))))) ∧
    (∀ cur e, LoadEvent.CheckFreshness cur e ∈ r.events →
      ∃ pre post, r.events =
          pre ++ [LoadEvent.VerifyChain none, LoadEvent.CheckFreshness cur e] ++ post ∧
        (∀ x ∈ pre, x.isSetup = true) ∧ (e ≠ none → post = [])) ∧
    (LoadEvent.CheckFreshness true none ∈ r.events →
      (∀ srv e, LoadEvent.LoadFromServer srv e ∉ r.events) ∧
      ((∃ pre, r.events =
            pre ++ [LoadEvent.CheckFreshness true none, LoadEvent.GetComputedKeyInfos false] ∧
          (∀ x ∈ r.events, x.isStorePhase = false) ∧
          r.db = db ∧ r.err = none ∧ r.outcome = LoadOutcome.returned ∧
          ∃ c1, r.ret = some c1 ∧ c1.GetComputedKeyInfos ≠ none ∧
            c1.CheckFreshness env now l.GetMerkleTriple = (true, none)) ∨
        (∃ pre B, r.events =
            pre ++ [LoadEvent.CheckFreshness true none, LoadEvent.GetComputedKeyInfos true]
              ++ B ∧
          storeStagesLog (decide (r.outcome = LoadOutcome.panicked)) B))) ∧
    (LoadEvent.CheckFreshness false none ∈ r.events →
      ∃ pre e B, r.events =
          pre ++ [LoadEvent.CheckFreshness false none,
            LoadEvent.LoadFromServer l.GetMerkleTriple e] ++ B ∧
        ((e ≠ none ∧ B = [] ∧ r.err ≠ none) ∨
          (e = none ∧ storeStagesLog (decide (r.outcome = LoadOutcome.panicked)) B))) := by
  subst hr
  refine ⟨?_, ?_, ?_⟩
  · intro l3 c0 c1 hs hmk hv
    obtain ⟨⟨P, hP⟩, hg, _, _⟩ := Load_of_setup env kenv senv now fuel l l3 db hs
    rw [hP]
    have hb := LoadFromChain_branches env kenv senv now l3 db P c0 c1 hmk hv
    rw [hg] at hb
    exact ⟨fun h1 h2 => (hb.1 h1).1 h2, fun h1 e he => (hb.2 h1).1 e he⟩
  · intro l3 c0 c1 cs ls hs hmk hv hcase
    obtain ⟨⟨P, hP⟩, hg, _, _⟩ := Load_of_setup env kenv senv now fuel l l3 db hs
    rw [hP]
    have hb := LoadFromChain_branches env kenv senv now l3 db P c0 c1 hmk hv
    rw [hg] at hb
    rcases hcase with ⟨h1, h2, h3, h4⟩ | ⟨h1, h2, h3, h4⟩
    · obtain ⟨ev2, hev⟩ := (hb.1 h1).2 h2
      subst h3
      subst h4
      rw [hev]
      exact LoadStore_stages env kenv senv _ db ev2 _ rfl
    · obtain ⟨ev2, hev⟩ := (hb.2 h1).2 h2
      subst h3
      subst h4
      rw [hev]
      exact LoadStore_stages env kenv senv _ db ev2 _ rfl
  · rcases Load_spec env kenv senv now fuel l db with
      ⟨h1, _, _⟩ | ⟨e0, h1, _, _, _⟩ | ⟨P, l3, hP, hload, hu, hct, hleaf⟩
    · rw [h1]
      refine ⟨?_, ?_, ?_⟩ <;> intros <;> rename_i h <;> simp at h
    · rw [h1]
      refine ⟨?_, ?_, ?_⟩ <;> intros <;> rename_i h <;> simp at h
    · rw [hload]
      have hg : l3.GetMerkleTriple = l.GetMerkleTriple := by
        unfold SigChainLoader.GetMerkleTriple
        rw [hleaf, hct]
      have hPs : ∀ x ∈ P, x.isDecision = false ∧ x.isSetup = true ∧ x.isStorePhase = false := by
        intro x hx
        rcases hP with rfl | rfl
        · simp only [List.mem_cons, List.mem_singleton, List.not_mem_nil, or_false] at hx
          rcases hx with rfl | rfl <;> exact ⟨rfl, rfl, rfl⟩
        · simp only [List.mem_cons, List.mem_singleton, List.not_mem_nil, or_false] at hx
          rcases hx with rfl | rfl | rfl <;> exact ⟨rfl, rfl, rfl⟩
      obtain ⟨A, B, hev, hout, hcases⟩ := LoadFromChain_spec env kenv senv now l3 db P
      rw [hg] at hcases
      rw [hev]
      have hsetup : ∀ x ∈ P ++ [LoadEvent.MakeSigChain], x.isSetup = true := by
        intro x hx
        rcases List.mem_append.mp hx with hx | hx
        · exact (hPs x hx).2.1
        · simp only [List.mem_singleton] at hx
          subst hx; rfl
      have hdec : ∀ x, x ∈ P ++ (A ++ B) → (B = [] ∨ ∃ p, storeStagesLog p B) →
          x.isDecision = true → x ∈ A := by
        intro x hx hB hxd
        rcases List.mem_append.mp hx with hx | hx
        · rw [(hPs x hx).1] at hxd; cases hxd
        · rcases List.mem_append.mp hx with hx | hx
          · exact hx
          · rcases hB with rfl | ⟨p, hB⟩
            · simp at hx
            · rw [(storeStagesLog_mem p B hB x hx).1] at hxd; cases hxd
      rcases hcases with ⟨⟨e1, hA⟩, hB, _, _⟩ | ⟨⟨c2, e2, hA⟩, hB, _, herr⟩ |
        ⟨⟨e3, hA⟩, hB, _, herr⟩ | ⟨hA, hB, hf⟩ | ⟨hA, hB, hf⟩ |
        ⟨hA, hB, hdb, herr, hret, c1, hc1, _, hcki, hcf⟩
      · subst hA; subst hB
        refine ⟨?_, ?_, ?_⟩ <;> intros <;> rename_i h <;>
          · have := hdec _ h (Or.inl rfl) rfl
            simp at this
      · subst hA; subst hB
        refine ⟨?_, ?_, ?_⟩
        · intro cur e h
          have := hdec _ h (Or.inl rfl) rfl
          simp only [List.mem_cons, List.mem_singleton, List.not_mem_nil, or_false,
            reduceCtorEq, false_or, LoadEvent.CheckFreshness.injEq] at this
          obtain ⟨rfl, rfl⟩ := this
          exact ⟨P ++ [LoadEvent.MakeSigChain], [], by simp, hsetup, fun _ => rfl⟩
        · intro h
          have := hdec _ h (Or.inl rfl) rfl
          simp at this
        · intro h
          have := hdec _ h (Or.inl rfl) rfl
          simp at this
      · subst hA; subst hB
        refine ⟨?_, ?_, ?_⟩
        · intro cur e h
          have := hdec _ h (Or.inl rfl) rfl
          simp only [List.mem_cons, List.mem_singleton, List.not_mem_nil, or_false,
            reduceCtorEq, false_or, LoadEvent.CheckFreshness.injEq] at this
          obtain ⟨rfl, rfl⟩ := this
          exact ⟨P ++ [LoadEvent.MakeSigChain], [LoadEvent.LoadFromServer l.GetMerkleTriple (some e3)], by simp, hsetup,
            fun h => absurd rfl h⟩
        · intro h
          have := hdec _ h (Or.inl rfl) rfl
          simp at this
        · intro _
          exact ⟨P ++ [LoadEvent.MakeSigChain, LoadEvent.VerifyChain none], some e3, [], by simp,
            Or.inl ⟨by simp, rfl, herr⟩⟩
      · subst hA
        refine ⟨?_, ?_, ?_⟩
        · intro cur e h
          have := hdec _ h (Or.inr ⟨_, hB⟩) rfl
          simp only [List.mem_cons, List.mem_singleton, List.not_mem_nil, or_false,
            reduceCtorEq, false_or, LoadEvent.CheckFreshness.injEq] at this
          obtain ⟨rfl, rfl⟩ := this
          exact ⟨P ++ [LoadEvent.MakeSigChain], LoadEvent.LoadFromServer l.GetMerkleTriple none :: B, by simp, hsetup,
            fun h => absurd rfl h⟩
        · intro h
          have := hdec _ h (Or.inr ⟨_, hB⟩) rfl
          simp at this
        · intro _
          exact ⟨P ++ [LoadEvent.MakeSigChain, LoadEvent.VerifyChain none], none, B, by simp,
            Or.inr ⟨rfl, hB⟩⟩
      · subst hA
        refine ⟨?_, ?_, ?_⟩
        · intro cur e h
          have := hdec _ h (Or.inr ⟨_, hB⟩) rfl
          simp only [List.mem_cons, List.mem_singleton, List.not_mem_nil, or_false,
            reduceCtorEq, false_or, LoadEvent.CheckFreshness.injEq] at this
          obtain ⟨rfl, rfl⟩ := this
          exact ⟨P ++ [LoadEvent.MakeSigChain], LoadEvent.GetComputedKeyInfos true :: B, by simp, hsetup,
            fun h => absurd rfl h⟩
        · intro _
          constructor
          · intro srv e h
            have := hdec _ h (Or.inr ⟨_, hB⟩) rfl
            simp at this
          · exact Or.inr ⟨P ++ [LoadEvent.MakeSigChain, LoadEvent.VerifyChain none], B, by simp,
              hB⟩
        · intro h
          have := hdec _ h (Or.inr ⟨_, hB⟩) rfl
          simp at this
      · subst hA; subst hB
        refine ⟨?_, ?_, ?_⟩
        · intro cur e h
          have := hdec _ h (Or.inl rfl) rfl
          simp only [List.mem_cons, List.mem_singleton, List.not_mem_nil, or_false,
            reduceCtorEq, false_or, LoadEvent.CheckFreshness.injEq] at this
          obtain ⟨rfl, rfl⟩ := this
          exact ⟨P ++ [LoadEvent.MakeSigChain], [LoadEvent.GetComputedKeyInfos false], by simp, hsetup,
            fun h => absurd rfl h⟩
        · intro _
          constructor
          · intro srv e h
            have := hdec _ h (Or.inl rfl) rfl
            simp at this
          · refine Or.inl ⟨P ++ [LoadEvent.MakeSigChain, LoadEvent.VerifyChain none], by simp,
              ?_, hdb, herr, hret, c1, hc1, hcki, hcf⟩
            intro x hx
            rcases List.mem_append.mp hx with hx | hx
            · exact (hPs x hx).2.2
            · simp only [List.append_nil, List.mem_cons, List.mem_singleton, List.not_mem_nil,
                or_false] at hx
              rcases hx with rfl | rfl | rfl | rfl <;> rfl
        · intro h
          have := hdec _ h (Or.inl rfl) rfl
          simp at this

/-- C22, on concrete inputs.  First, a loader preloaded with the two-link
chain whose last link holds a cached CKI, the Merkle leaf naming that link:
`CheckFreshness` reports `current = true`, `GetComputedKeyInfos()` is
non-nil, and `Load` returns at once, with no `LoadFromServer`, the store
untouched and no signature verification.  Second, the same with no cached
CKI and a key family: the four stages run, `Load` leaves what the loader's
`Store` leaves after `SigChain.Store` and `VerifySigsAndComputeKeys`, and
both links are persisted.  Third, a loader with nothing loaded whose leaf
names the link of seqno 1, which the server returns: `CheckFreshness`
reports `current = false`, `LoadFromServer` runs, and the four stages run on
what it has left; the link and the tail are written. -/
theorem Load_freshness_branches_witness :
    (((mkLoader false (some (mkLeaf 2)) none (some cachedChain2)).Load (testEnv []) testKeyEnv
        (testStorage [] none) 0 5 emptyDb).events =
      [LoadEvent.GetKeyFamily, LoadEvent.AccessPreload true, LoadEvent.MakeSigChain,
        LoadEvent.VerifyChain none, LoadEvent.CheckFreshness true none,
        LoadEvent.GetComputedKeyInfos false] ∧
    (∀ srv e, LoadEvent.LoadFromServer srv e ∉
      ((mkLoader false (some (mkLeaf 2)) none (some cachedChain2)).Load (testEnv []) testKeyEnv
        (testStorage [] none) 0 5 emptyDb).events) ∧
    ((mkLoader false (some (mkLeaf 2)) none (some cachedChain2)).Load (testEnv []) testKeyEnv
        (testStorage [] none) 0 5 emptyDb).ret = some (cachedChain2.VerifyChain (testEnv [])).1 ∧
    ((mkLoader false (some (mkLeaf 2)) none (some cachedChain2)).Load (testEnv []) testKeyEnv
        (testStorage [] none) 0 5 emptyDb).err = none ∧
    ((mkLoader false (some (mkLeaf 2)) none (some cachedChain2)).Load (testEnv []) testKeyEnv
        (testStorage [] none) 0 5 emptyDb).db = emptyDb) ∧
    ((currentLoader.Load (testEnv []) testKeyEnv (testStorage [] none) 0 5 emptyDb).db =
        { links := [some [1], some [2]], tails := [] } ∧
      (currentLoader.Load (testEnv []) testKeyEnv (testStorage [] none) 0 5 emptyDb).err = none ∧
      ∃ (l2 : SigChainLoader),
        SigChainLoader.VerifySigsAndComputeKeys (testEnv []) testKeyEnv
          { ((currentLoader.GetKeyFamily).1.AccessPreload).1 with
            chain := some ((chain2.VerifyChain (testEnv [])).1.VerifyChain (testEnv [])).1 }
          = some (l2, none) ∧
        (currentLoader.Load (testEnv []) testKeyEnv (testStorage [] none) 0 5 emptyDb).err =
          (l2.Store (testStorage [] none)
            (((chain2.VerifyChain (testEnv [])).1.VerifyChain (testEnv [])).1.Store
              (testStorage [] none) emptyDb).1).err ∧
        (currentLoader.Load (testEnv []) testKeyEnv (testStorage [] none) 0 5 emptyDb).db =
          (l2.Store (testStorage [] none)
            (((chain2.VerifyChain (testEnv [])).1.VerifyChain (testEnv [])).1.Store
              (testStorage [] none) emptyDb).1).db) ∧
    ((staleLoader.Load (testEnv [[1, 1, 0]]) testKeyEnv (testStorage [] none) 0 5 emptyDb).db =
        { links := [some [1]],
          tails := [({ Typ := 0, Key := [7] },
            { Seqno := 1, LinkId := some [1], SigId := some [1] })] } ∧
      ∃ (cs : SigChain) (l2 : SigChainLoader),
        cs = (((mkChain []).VerifyChain (testEnv [[1, 1, 0]])).1.LoadFromServer
          (testEnv [[1, 1, 0]]) staleLoader.GetMerkleTriple).1 ∧
        SigChainLoader.VerifySigsAndComputeKeys (testEnv [[1, 1, 0]]) testKeyEnv
          { staleLoader with
            chain := some (cs.VerifyChain (testEnv [[1, 1, 0]])).1
            dirtyTail := (((mkChain []).VerifyChain (testEnv [[1, 1, 0]])).1.LoadFromServer
              (testEnv [[1, 1, 0]]) staleLoader.GetMerkleTriple).2.1 }
          = some (l2, none) ∧
        (staleLoader.Load (testEnv [[1, 1, 0]]) testKeyEnv (testStorage [] none) 0 5 emptyDb).db =
          (l2.Store (testStorage [] none)
            ((cs.VerifyChain (testEnv [[1, 1, 0]])).1.Store (testStorage [] none) emptyDb).1).db) :=
  ⟨⟨by decide,
    ((Load_freshness_branches (testEnv []) testKeyEnv (testStorage [] none) 0 5
      (mkLoader false (some (mkLeaf 2)) none (some cachedChain2)) emptyDb _ rfl).2.2.2.1
      (by decide)).1,
    (((Load_freshness_branches (testEnv []) testKeyEnv (testStorage [] none) 0 5
      (mkLoader false (some (mkLeaf 2)) none (some cachedChain2)) emptyDb _ rfl).1
      (((mkLoader false (some (mkLeaf 2)) none (some cachedChain2)).GetKeyFamily).1.AccessPreload).1
      cachedChain2 (cachedChain2.VerifyChain (testEnv [])).1 (Or.inl ⟨rfl, rfl⟩) rfl rfl).1
      (by decide) (by decide)).1,
    by decide, by decide⟩,
   ⟨by decide, by decide,
    ⟨_, rfl,
      ((((((Load_freshness_branches (testEnv []) testKeyEnv (testStorage [] none) 0 5
        currentLoader emptyDb _ rfl).2.1 ((currentLoader.GetKeyFamily).1.AccessPreload).1
        chain2 (chain2.VerifyChain (testEnv [])).1 (chain2.VerifyChain (testEnv [])).1
        { ((currentLoader.GetKeyFamily).1.AccessPreload).1 with
          chain := some (chain2.VerifyChain (testEnv [])).1 }
        (Or.inl ⟨rfl, rfl⟩) rfl rfl (Or.inl ⟨by decide, by decide, rfl, rfl⟩)
        ((chain2.VerifyChain (testEnv [])).1.VerifyChain (testEnv [])).1 none rfl).2 rfl
        (((chain2.VerifyChain (testEnv [])).1.VerifyChain (testEnv [])).1.Store
          (testStorage [] none) emptyDb).1 none rfl).2 rfl).2 _ none rfl).2 rfl).1,
      ((((((Load_freshness_branches (testEnv []) testKeyEnv (testStorage [] none) 0 5
        currentLoader emptyDb _ rfl).2.1 ((currentLoader.GetKeyFamily).1.AccessPreload).1
        chain2 (chain2.VerifyChain (testEnv [])).1 (chain2.VerifyChain (testEnv [])).1
        { ((currentLoader.GetKeyFamily).1.AccessPreload).1 with
          chain := some (chain2.VerifyChain (testEnv [])).1 }
        (Or.inl ⟨rfl, rfl⟩) rfl rfl (Or.inl ⟨by decide, by decide, rfl, rfl⟩)
        ((chain2.VerifyChain (testEnv [])).1.VerifyChain (testEnv [])).1 none rfl).2 rfl
        (((chain2.VerifyChain (testEnv [])).1.VerifyChain (testEnv [])).1.Store
          (testStorage [] none) emptyDb).1 none rfl).2 rfl).2 _ none rfl).2 rfl).2.1⟩⟩,
   ⟨by decide,
    ⟨_, _, rfl, rfl,
      ((((((Load_freshness_branches (testEnv [[1, 1, 0]]) testKeyEnv (testStorage [] none) 0 5
        staleLoader emptyDb _ rfl).2.1 staleLoader (mkChain [])
        ((mkChain []).VerifyChain (testEnv [[1, 1, 0]])).1 _ _
        (Or.inr ⟨rfl, rfl⟩) rfl rfl (Or.inr ⟨by decide, by decide, rfl, rfl⟩)
        _ none rfl).2 rfl _ none rfl).2 rfl).2 _ none rfl).2 rfl).2.1⟩⟩⟩

/-! ## StoreTail follows a successful chain.Store -/

/-- C23 (`StoreTail` follows a successful `chain.Store()`).  For every run
of `Load`, on the log of the calls it makes and on the store it leaves.

On the log: a call of `StoreTail` with a non-nil `dirtyTail`, the write of
the tail triple, comes after a call of `chain.Store()` that returned no
error and was made on the links the chain holds at the `StoreTail`, up to
what verification writes on links (flags and caches), so on links of the
same ids; and the tails of the store are as before the run unless such a
`StoreTail` has returned no error.

On the store: when the run leaves other tails than it found, then
`SigChain.Store` has returned no error on the store the run started from,
for a chain `c2` with the links of the returned chain `cf` up to flags and
caches, leaving the store `db1`; the tail triple was put on top of `db1`,
followed by the `SigChain.Store` of `cf` that ends the loader's `Store`; so
the store left holds every link persisted in `db1`, and the last link of
the chain is persisted in `db1`, before the tail is written, and in the
store left.

For `StoreTail` itself: with a nil `dirtyTail` it writes nothing and returns
no error; when it returns no error the `dirtyTail` of the loader is nil
after it, the triple having been put under the key of the chain type and
uid; and it never touches the persisted links. -/
theorem Load_tail_after_store (env : Env) (kenv : KeyEnv) (senv : StorageEnv) (now : Int)
    (fuel : Nat) (l : SigChainLoader) (db : LocalDb) (r : LoadResult)
    (hr : r = l.Load env kenv senv now fuel db) :
    (∀ (i : Nat) (dt : MerkleTriple) (e : Option KbError), r.events[i]? = some (LoadEvent.StoreTail (some dt) e) →
      ∃ (j : Nat) (ls : List ChainLink) (cf : SigChain), j < i ∧ r.events[j]? = some (LoadEvent.ChainStore ls none) ∧
        r.loader.chain = some cf ∧ r.ret = some cf ∧
        ls.map ChainLink.unflagged = cf.chainLinks.map ChainLink.unflagged ∧
        ls.map ChainLink.id = cf.chainLinks.map ChainLink.id) ∧
    (r.db.tails = db.tails ∨
      ∃ (i : Nat) (dt : MerkleTriple), r.events[i]? = some (LoadEvent.StoreTail (some dt) none) ∧
        r.db.tails = ({ Typ := l.chainType.DbType, Key := l.user.uid }, dt) :: db.tails) ∧
    (r.db.tails ≠ db.tails →
      ∃ (c2 : SigChain) (db1 : LocalDb) (cf : SigChain) (dt : MerkleTriple),
        c2.Store senv db = (db1, none) ∧
        r.loader.chain = some cf ∧ r.ret = some cf ∧
        c2.chainLinks.map ChainLink.unflagged = cf.chainLinks.map ChainLink.unflagged ∧
        r.db =
          (cf.Store senv
            { db1 with
              tails := ({ Typ := l.chainType.DbType, Key := l.user.uid }, dt) :: db1.tails }).1 ∧
        r.db.tails = ({ Typ := l.chainType.DbType, Key := l.user.uid }, dt) :: db.tails ∧
        (∀ id ∈ db1.links, id ∈ r.db.links) ∧
        (∀ x, last c2.chainLinks = some x → x.persisted db1 ∧ x.persisted r.db)) ∧
    (∀ (l2 : SigChainLoader) (db2 : LocalDb),
      (l2.dirtyTail = none → l2.StoreTail senv db2 = (l2, db2, none)) ∧
      ((l2.StoreTail senv db2).2.2 = none → (l2.StoreTail senv db2).1.dirtyTail = none) ∧
      (∀ dt, l2.dirtyTail = some dt → (l2.StoreTail senv db2).2.2 = none →
        (l2.StoreTail senv db2).2.1 =
          { db2 with
            tails := ({ Typ := l2.chainType.DbType, Key := l2.user.uid }, dt) :: db2.tails }) ∧
      (∀ dt e, l2.dirtyTail = some dt → (l2.StoreTail senv db2).2.2 = some e →
        l2.StoreTail senv db2 = (l2, db2, some e)) ∧
      (l2.StoreTail senv db2).2.1.links = db2.links) := by
  subst hr
  refine ⟨?_, ?_, ?_, ?_⟩
  · intro i dt e hi
    rcases Load_spec env kenv senv now fuel l db with
      ⟨h1, _, _⟩ | ⟨e0, h1, _, _, _⟩ | ⟨P, l3, hP, hload, hu, hct, hleaf⟩
    · rw [h1] at hi
      rcases i with _ | _ | i <;> simp at hi
    · rw [h1] at hi
      rcases i with _ | _ | _ | i <;> simp at hi
    · rw [hload] at hi ⊢
      obtain ⟨A, B, hev, hA, hB⟩ := LoadFromChain_store env kenv senv now l3 db P
      have hQ : ∀ x ∈ P ++ A, x.isStorePhase = false := by
        intro x hx
        rcases List.mem_append.mp hx with hx | hx
        · rcases hP with rfl | rfl
          · simp only [List.mem_cons, List.mem_singleton, List.not_mem_nil, or_false] at hx
            rcases hx with rfl | rfl <;> rfl
          · simp only [List.mem_cons, List.mem_singleton, List.not_mem_nil, or_false] at hx
            rcases hx with rfl | rfl | rfl <;> rfl
        · exact hA x hx
      rw [hev, ← List.append_assoc] at hi ⊢
      obtain ⟨hle, hBi⟩ := getElem?_append_storeTail (P ++ A) B hQ i (some dt) e hi
      rcases hB with ⟨hnil, _⟩ | ⟨hlog, ⟨cf, hcf, hret, hls⟩, _⟩
      · subst hnil
        simp at hBi
      · obtain ⟨h3, ls, hB1⟩ := storeStagesLog_storeTail _ B hlog _ _ _ hBi
        have hmap := hls ls none hB1
        refine ⟨(P ++ A).length + 1, ls, cf, by omega, ?_, hcf, hret, hmap, ?_⟩
        · rw [List.getElem?_append_right (by omega)]
          have : (P ++ A).length + 1 - (P ++ A).length = 1 := by omega
          rw [this]
          exact hB1
        · have h2 := congrArg (List.map ChainLink.id) hmap
          simp only [List.map_map] at h2
          exact h2
  · rcases Load_spec env kenv senv now fuel l db with
      ⟨_, _, h3⟩ | ⟨e0, _, _, _, h3⟩ | ⟨P, l3, hP, hload, hu, hct, hleaf⟩
    · exact Or.inl (by rw [h3])
    · exact Or.inl (by rw [h3])
    · rw [hload]
      obtain ⟨A, B, hev, hA, hB⟩ := LoadFromChain_store env kenv senv now l3 db P
      rcases hB with ⟨_, hdb⟩ | ⟨hlog, _, htails⟩
      · exact Or.inl (by rw [hdb])
      · rcases htails with ht | ⟨dt, hB3, ht⟩
        · exact Or.inl ht
        · right
          refine ⟨(P ++ A).length + 3, dt, ?_, ?_⟩
          · rw [hev, ← List.append_assoc, List.getElem?_append_right (by omega)]
            have : (P ++ A).length + 3 - (P ++ A).length = 3 := by omega
            rw [this]
            exact hB3
          · rw [ht, hu, hct]
  · exact Load_tail_written env kenv senv now fuel l db
  · intro l2 db2
    obtain ⟨s1, _, s3, s4, s5, _, s7⟩ := StoreTail_spec senv l2 db2
    exact ⟨s1, s5, s4, s3, s7⟩

/-- C23, on concrete inputs: nothing in the local store, the Merkle leaf
naming the link of seqno 1, and a server that returns that link.  `Load`
fetches the link, stores the chain, and only then writes the tail triple:
the tails have changed, so `SigChain.Store` has returned no error before the
write.  On a storage side where the write of a link fails, `chain.Store()`
returns that error and neither a link nor the tail is written. -/
theorem Load_tail_after_store_witness :
    ((mkLoader false (some (mkLeaf 1)) none none).Load (testEnv [[1, 1, 0]]) testKeyEnv
        (testStorage [] none) 0 5 emptyDb).events.map
          (fun x => (x.isStorePhase, x.isDecision)) =
      [(false, false), (false, false), (false, false), (false, false), (false, false),
        (false, true), (false, true), (false, false), (true, false), (true, false),
        (true, false), (true, false)] ∧
    ((mkLoader false (some (mkLeaf 1)) none none).Load (testEnv [[1, 1, 0]]) testKeyEnv
        (testStorage [] none) 0 5 emptyDb).db =
      { links := [some [1]],
        tails := [({ Typ := 0, Key := [7] }, { Seqno := 1, LinkId := some [1], SigId := some [1] })] } ∧
    (∃ (j : Nat) (ls : List ChainLink) (cf : SigChain), j < 10 ∧
      ((mkLoader false (some (mkLeaf 1)) none none).Load (testEnv [[1, 1, 0]]) testKeyEnv
        (testStorage [] none) 0 5 emptyDb).events[j]? = some (LoadEvent.ChainStore ls none) ∧
      ((mkLoader false (some (mkLeaf 1)) none none).Load (testEnv [[1, 1, 0]]) testKeyEnv
        (testStorage [] none) 0 5 emptyDb).loader.chain = some cf ∧
      ((mkLoader false (some (mkLeaf 1)) none none).Load (testEnv [[1, 1, 0]]) testKeyEnv
        (testStorage [] none) 0 5 emptyDb).ret = some cf ∧
      ls.map ChainLink.unflagged = cf.chainLinks.map ChainLink.unflagged ∧
      ls.map ChainLink.id = cf.chainLinks.map ChainLink.id) ∧
    (∃ (c2 : SigChain) (db1 : LocalDb) (cf : SigChain) (dt : MerkleTriple),
      c2.Store (testStorage [] none) emptyDb = (db1, none) ∧
      (staleLoader.Load (testEnv [[1, 1, 0]]) testKeyEnv (testStorage [] none) 0 5
        emptyDb).loader.chain = some cf ∧
      (staleLoader.Load (testEnv [[1, 1, 0]]) testKeyEnv (testStorage [] none) 0 5
        emptyDb).ret = some cf ∧
      c2.chainLinks.map ChainLink.unflagged = cf.chainLinks.map ChainLink.unflagged ∧
      (staleLoader.Load (testEnv [[1, 1, 0]]) testKeyEnv (testStorage [] none) 0 5 emptyDb).db =
        (cf.Store (testStorage [] none)
          { db1 with
            tails := ({ Typ := staleLoader.chainType.DbType, Key := staleLoader.user.uid }, dt)
              :: db1.tails }).1 ∧
      (staleLoader.Load (testEnv [[1, 1, 0]]) testKeyEnv (testStorage [] none) 0 5
        emptyDb).db.tails =
        ({ Typ := staleLoader.chainType.DbType, Key := staleLoader.user.uid }, dt)
          :: emptyDb.tails ∧
      (∀ id ∈ db1.links, id ∈ (staleLoader.Load (testEnv [[1, 1, 0]]) testKeyEnv
        (testStorage [] none) 0 5 emptyDb).db.links) ∧
      (∀ x, last c2.chainLinks = some x → x.persisted db1 ∧
        x.persisted (staleLoader.Load (testEnv [[1, 1, 0]]) testKeyEnv
          (testStorage [] none) 0 5 emptyDb).db)) ∧
    ((staleLoader.Load (testEnv [[1, 1, 0]]) testKeyEnv failingStorage 0 5 emptyDb).db
        = emptyDb ∧
      (staleLoader.Load (testEnv [[1, 1, 0]]) testKeyEnv failingStorage 0 5 emptyDb).err
        = some (KbError.External 6) ∧
      (staleLoader.Load (testEnv [[1, 1, 0]]) testKeyEnv failingStorage 0 5 emptyDb).events.map
          (fun x => (x.isStorePhase, x.isDecision)) =
        [(false, false), (false, false), (false, false), (false, false), (false, false),
          (false, true), (false, true), (false, false), (true, false)]) :=
  ⟨by decide, by decide,
   (Load_tail_after_store (testEnv [[1, 1, 0]]) testKeyEnv (testStorage [] none) 0 5
      (mkLoader false (some (mkLeaf 1)) none none) emptyDb _ rfl).1 10
      { Seqno := 1, LinkId := some [1], SigId := some [1] } none (by decide),
   (Load_tail_after_store (testEnv [[1, 1, 0]]) testKeyEnv (testStorage [] none) 0 5
      staleLoader emptyDb _ rfl).2.2.1 (by decide),
   ⟨by decide, by decide, by decide⟩⟩

end libkb
